import Mathlib

/-!
Profugus: fission-matrix processor, mesh geometry tracker, energy multigrid
preconditioner and problem builder.

A shallow embedding of `MC/mc/Fission_Matrix_Processor.cc`,
`MC/cuda_geometry/Mesh_Geometry.i.hh`, `SPn/spn/Energy_Multigrid.t.hh` and
`SPn/driver/Problem_Builder.cc`.

* `double` values are exact rationals (`ℚ`); where the code can divide by a
  zero direction component the result is tracked in `Dbl`, which adds the IEEE
  values `+inf`, `-inf` and `NaN` to the rationals (no rounding).
* `REQUIRE` / `CHECK` / `ENSURE` abort the run: a function that can hit one
  returns `Option`, with `none` for the fatal stop.
* The processes of a parallel run are the positions of a list ("world"), rank
  `n` being position `n`.
-/

set_option autoImplicit false

namespace profugus

/-! ## Containers of `Fission_Matrix_Processor` -/

/-- The index pair `std::pair<int, int>` of a fission-matrix element:
`first` is the destination cell, `second` the source cell. -/
@[ext]
structure Idx where
  first : Int
  second : Int
deriving DecidableEq, Repr

/-- The comparison `operator<` of `std::pair<int, int>`. -/
def Idx.lt (a b : Idx) : Prop :=
  a.first < b.first ∨ (¬ b.first < a.first ∧ a.second < b.second)

/-- The order `a <= b` of pairs, the negation of `b < a`. -/
def Idx.le (a b : Idx) : Prop := ¬ Idx.lt b a

instance (a b : Idx) : Decidable (Idx.lt a b) :=
  inferInstanceAs (Decidable (a.first < b.first ∨ (¬ b.first < a.first ∧ a.second < b.second)))

instance (a b : Idx) : Decidable (Idx.le a b) :=
  inferInstanceAs (Decidable (¬ Idx.lt b a))

/-- The pairs are linearly ordered by `operator<`. -/
instance : LinearOrder Idx where
  le := Idx.le
  lt := Idx.lt
  le_refl a := by show ¬ Idx.lt a a; unfold Idx.lt; omega
  le_trans a b c := by
    show ¬ Idx.lt b a → ¬ Idx.lt c b → ¬ Idx.lt c a
    unfold Idx.lt; omega
  le_antisymm a b := by
    show ¬ Idx.lt b a → ¬ Idx.lt a b → a = b
    unfold Idx.lt; rw [Idx.ext_iff]; omega
  le_total a b := by
    show ¬ Idx.lt b a ∨ ¬ Idx.lt a b
    unfold Idx.lt; omega
  lt_iff_le_not_le a b := by
    show Idx.lt a b ↔ ¬ Idx.lt b a ∧ ¬ ¬ Idx.lt a b
    unfold Idx.lt; omega
  decidableLE := fun a b => inferInstanceAs (Decidable (Idx.le a b))
  decidableLT := fun a b => inferInstanceAs (Decidable (Idx.lt a b))
  decidableEq := inferInstance

/-- The local sparse matrix: the (key, value) entries of the unordered map in
its iteration order.  A well-formed map has pairwise distinct keys. -/
abbrev Sparse_Matrix := List (Idx × ℚ)

/-- The vector of starting weights, one per source cell. -/
abbrev Denominator := List ℚ

/-- The vector of index pairs giving the sparsity pattern. -/
abbrev Ordered_Graph := List Idx

/-- The vector of matrix values, aligned with the graph. -/
abbrev Ordered_Matrix := List ℚ

/-- The keys of a sparse matrix, in iteration order. -/
def keys (m : Sparse_Matrix) : List Idx := m.map Prod.fst

/-- The lookup `local_matrix.find(k)`: the first entry with key `k`. -/
def find (m : Sparse_Matrix) (k : Idx) : Option (Idx × ℚ) :=
  List.find? (fun e => decide (e.1 = k)) m

/-- The call `std::sort(begin, end)`: the arrangement of the elements in which
no later element is `<` an earlier one (built by insertion). -/
def std_sort (l : List Idx) : List Idx := l.insertionSort (fun a b => a ≤ b)

/-- The call `std::unique(begin, end)` followed by the copy of `[begin, end)`:
of every run of equal neighbours only the first is kept. -/
def std_unique : List Idx → List Idx
  | [] => []
  | [a] => [a]
  | a :: b :: t => if a = b then std_unique (b :: t) else a :: std_unique (b :: t)

/-! ## The processor and its process tree -/

/-- The classification of a node of the process tree. -/
inductive Node_Type where
  | INTERNAL
  | EXTERNAL
deriving DecidableEq, Repr

/-- The members of `Fission_Matrix_Processor`. -/
structure Fission_Matrix_Processor where
  d_type : Node_Type
  d_parent : Int
  d_children : Int × Int
  d_node : Int
  d_nodes : Int
  d_graph : Ordered_Graph
  d_matrix : Ordered_Matrix
  d_N : Int
deriving DecidableEq, Repr

/-- The value an `int` holds after an operation whose exact result is `x`:
the number of the 32-bit two's-complement range `-2^31 .. 2^31 - 1` that is
congruent to `x` modulo `2^32` (`x` itself when it lies in the range). -/
def wrap_int (x : Int) : Int := (x + 2147483648) % 4294967296 - 2147483648

/-- The constructor, run on rank `node` of `nodes` processes.  `NONE` is the
header's marker for "no such node" (the header is not part of the sources, so
the value is a parameter), `N0` the indeterminate initial content of `d_N`,
which the constructor does not set.  The members are `int`s: every operation
wraps (`wrap_int`); integer division is C's, truncating. -/
def Fission_Matrix_Processor.create (NONE node nodes N0 : Int) : Fission_Matrix_Processor :=
  let parent0 : Int := Int.tdiv (wrap_int (node - 1)) 2
  let child1 : Int := wrap_int (wrap_int (node + 1) * 2)
  let child0 : Int := wrap_int (child1 - 1)
  let parent : Int := if node = 0 then NONE else parent0
  let tc : Node_Type × (Int × Int) :=
    if child0 > wrap_int (nodes - 1) then (Node_Type.EXTERNAL, (NONE, NONE))
    else if child1 > wrap_int (nodes - 1) then (Node_Type.INTERNAL, (child0, NONE))
    else (Node_Type.INTERNAL, (child0, child1))
  { d_type := tc.1, d_parent := parent, d_children := tc.2, d_node := node,
    d_nodes := nodes, d_graph := [], d_matrix := [], d_N := N0 }

/-- Modelled from the spec: the node of rank `node` in the complete binary
tree over the ranks `0 .. nodes-1` with root 0, in exact arithmetic: parent `(node - 1) / 2` (`NONE` for rank 0), children
`2 node + 1` and `2 node + 2` where these are ranks, `NONE` where not.  It is
what the constructor computes on every rank of a run of fewer than `2^30`
processes, where no operation of the constructor wraps. -/
def tree_node (NONE node nodes N0 : Int) : Fission_Matrix_Processor :=
  let parent0 : Int := Int.tdiv (node - 1) 2
  let child1 : Int := (node + 1) * 2
  let child0 : Int := child1 - 1
  let parent : Int := if node = 0 then NONE else parent0
  let tc : Node_Type × (Int × Int) :=
    if child0 > nodes - 1 then (Node_Type.EXTERNAL, (NONE, NONE))
    else if child1 > nodes - 1 then (Node_Type.INTERNAL, (child0, NONE))
    else (Node_Type.INTERNAL, (child0, child1))
  { d_type := tc.1, d_parent := parent, d_children := tc.2, d_node := node,
    d_nodes := nodes, d_graph := [], d_matrix := [], d_N := N0 }

/-- The member `reset()`: both containers are swapped with empty ones; the two
`ENSURE`s are evaluated on the result. -/
def reset (s : Fission_Matrix_Processor) : Option Fission_Matrix_Processor :=
  let s1 := { s with d_graph := [], d_matrix := [] }
  if s1.d_graph.isEmpty ∧ s1.d_matrix.isEmpty then some s1 else none

/-- The member `receive_and_merge(child_node)`, given the data received from
the child: append, sort, drop adjacent duplicates.  Its `CHECK(size >= 0)` and
its `ENSURE` on the new size hold for every received list. -/
def receive_and_merge (s : Fission_Matrix_Processor) (child_data : Ordered_Graph) :
    Fission_Matrix_Processor :=
  { s with d_graph := std_unique (std_sort (s.d_graph ++ child_data)) }

/-- The receive of `receive_and_merge(child)` on rank `s`, blocking: it
completes when `child` is a rank of the run whose own `reduce` gets to the
send (`reduced`) and sends to this rank, which needs `d_parent != NONE`. -/
def receive_from (NONE : Int) (nodes : Nat) (reduced : Nat → Option Fission_Matrix_Processor)
    (s : Fission_Matrix_Processor) (child : Int) : Option Fission_Matrix_Processor :=
  if 0 ≤ child ∧ child < nodes then
    match reduced child.toNat with
    | some c =>
        if c.d_parent ≠ NONE ∧ c.d_parent = s.d_node then some (receive_and_merge s c.d_graph)
        else none
    | none => none
  else none

/-- The member `reduce()` on rank `n` of the world `procs`: the state of rank
`n` when its `reduce` returns.  Internal nodes wait for their children, so the
recursion follows the tree; `fuel` bounds its depth, and `none` stands for a
rank that never gets there. -/
def reduce (NONE : Int) (procs : List Fission_Matrix_Processor) :
    Nat → Nat → Option Fission_Matrix_Processor
  | 0, _ => none
  | fuel + 1, n =>
      match procs[n]? with
      | none => none
      | some s =>
          if s.d_type = Node_Type.INTERNAL then
            match receive_from NONE procs.length (reduce NONE procs fuel) s s.d_children.1 with
            | none => none
            | some s1 =>
                if s.d_children.2 ≠ NONE then
                  receive_from NONE procs.length (reduce NONE procs fuel) s1 s.d_children.2
                else some s1
          else some s

/-- The ranks `reduce` receives from on the processor `s`, in order: the left
child when the node is internal, then the right child when it is not `NONE`. -/
def reduce_sources (NONE : Int) (s : Fission_Matrix_Processor) : List Int :=
  if s.d_type = Node_Type.INTERNAL then
    s.d_children.1 :: (if s.d_children.2 ≠ NONE then [s.d_children.2] else [])
  else []

/-! ## `build_matrix` -/

/-- One process of a run: its processor and the two arguments it passes to
`build_matrix`. -/
structure Domain where
  proc : Fission_Matrix_Processor
  local_matrix : Sparse_Matrix
  local_denominator : Denominator

/-- The first part of `build_matrix` on one rank, up to the call of `reduce`:
the two `REQUIRE`s, `reset`, `d_N`, the sorted local graph and its copy into
`d_graph`.  Returns the state and the local graph. -/
def begin_build (w : Domain) : Option (Fission_Matrix_Processor × Ordered_Graph) :=
  if ¬ w.local_matrix.isEmpty ∧
      w.local_matrix.length ≤ w.local_denominator.length * w.local_denominator.length then
    match reset w.proc with
    | none => none
    | some s =>
        let local_graph := std_sort (keys w.local_matrix)
        let s1 := { s with d_N := (w.local_denominator.length : Int),
                           d_graph := s.d_graph ++ local_graph }
        if s1.d_graph.length = local_graph.length then some (s1, local_graph) else none
  else none

/-- The broadcast of the root graph (size, then pairs) as seen on one rank:
ranks above 0 first swap in a graph of `size` entries, the `CHECK` compares
sizes, and the root's pairs overwrite the `size` entries. -/
def broadcast_graph (root_graph : Ordered_Graph) (s : Fission_Matrix_Processor) :
    Option Fission_Matrix_Processor :=
  let size := root_graph.length
  let s1 := if s.d_node > 0 then { s with d_graph := List.replicate size ⟨0, 0⟩ } else s
  if s1.d_graph.length = size then some { s1 with d_graph := root_graph } else none

/-- The call `d_matrix.resize(size)`. -/
def resize (v : List ℚ) (size : Nat) : List ℚ :=
  v.take size ++ List.replicate (size - v.length) 0

/-- The merge-join loop of `build_matrix`: arguments are the rest of the local
graph (`l`), of the global graph (`g`) and of the matrix (`m`); the result is
the rest of the matrix when the loop ends, `none` when a `CHECK` fails. -/
def scatter (local_matrix : Sparse_Matrix) :
    Ordered_Graph → Ordered_Graph → Ordered_Matrix → Option Ordered_Matrix
  | [], _, m => some m
  | _ :: _, _, [] => none
  | _ :: _, [], _ :: _ => none
  | l :: ls, g :: gs, x :: ms =>
      if l = g then
        match find local_matrix l with
        | none => none
        | some e =>
            if e.1 = l then (scatter local_matrix ls gs ms).map (fun r => e.2 :: r) else none
      else (scatter local_matrix (l :: ls) gs ms).map (fun r => x :: r)

/-- The merge-join loop of `build_matrix` as in `scatter`, with the number of
iterations of the `while` loop that ran to their end counted alongside. -/
def scatter_steps (local_matrix : Sparse_Matrix) :
    Ordered_Graph → Ordered_Graph → Ordered_Matrix → Option Ordered_Matrix × Nat
  | [], _, m => (some m, 0)
  | _ :: _, _, [] => (none, 0)
  | _ :: _, [], _ :: _ => (none, 0)
  | l :: ls, g :: gs, x :: ms =>
      if l = g then
        match find local_matrix l with
        | none => (none, 0)
        | some e =>
            if e.1 = l then
              ((scatter_steps local_matrix ls gs ms).1.map (fun r => e.2 :: r),
                (scatter_steps local_matrix ls gs ms).2 + 1)
            else (none, 0)
      else
        ((scatter_steps local_matrix (l :: ls) gs ms).1.map (fun r => x :: r),
          (scatter_steps local_matrix (l :: ls) gs ms).2 + 1)

/-- The collective `global_sum(&v[0], n)`: entry `k < n` of the result is the
sum over all ranks of their entry `k`. -/
def global_sum (n : Nat) (vs : List (List ℚ)) : List ℚ :=
  (List.range n).map (fun k => (vs.map (fun v => v.getD k 0)).sum)

/-- What the normalization loop did: the matrix it left (`none` when a `CHECK`
stopped it) and the divisors of the divisions it performed, in order. -/
structure Normalized where
  result : Option Ordered_Matrix
  divisors : List ℚ
deriving DecidableEq, Repr

/-- The normalization loop of `build_matrix`, over the graph and matrix in
step.  `j < denominator.size()` compares an `int` with an unsigned size, so a
negative `j` fails it. -/
def normalize (denominator : Denominator) : Ordered_Graph → Ordered_Matrix → Normalized
  | g :: gs, x :: ms =>
      let j := g.second
      if 0 ≤ j ∧ j < denominator.length then
        if denominator.getD j.toNat 0 > 0 then
          let rest := normalize denominator gs ms
          { result := rest.result.map (fun r => x / denominator.getD j.toNat 0 :: r),
            divisors := denominator.getD j.toNat 0 :: rest.divisors }
        else { result := none, divisors := [] }
      else { result := none, divisors := [] }
  | _, m => { result := some m, divisors := [] }

/-- Run `f` on ranks `0 .. n-1`; a fatal stop on one rank stops the run. -/
def all_ranks {α : Type} (f : Nat → Option α) : Nat → Option (List α)
  | 0 => some []
  | n + 1 =>
      match all_ranks f n, f n with
      | some l, some a => some (l ++ [a])
      | _, _ => none

/-- The part of `build_matrix` between `reduce` and the global sums on rank
`p`: broadcast of the root graph, `resize`, merge-join. -/
def scatter_rank (world : List Domain) (begun : List (Fission_Matrix_Processor × Ordered_Graph))
    (reduced : List Fission_Matrix_Processor) (root_graph : Ordered_Graph) (p : Nat) :
    Option Fission_Matrix_Processor :=
  match world[p]?, begun[p]?, reduced[p]? with
  | some w, some b, some s =>
      match broadcast_graph root_graph s with
      | none => none
      | some s1 =>
          match scatter w.local_matrix b.2 s1.d_graph (resize s1.d_matrix root_graph.length) with
          | none => none
          | some m => some { s1 with d_matrix := m }
  | _, _, _ => none

/-- The last part of `build_matrix` on rank `p`: the two global sums and the
normalization loop. -/
def normalize_rank (world : List Domain) (scattered : List Fission_Matrix_Processor)
    (size : Nat) (p : Nat) : Option Fission_Matrix_Processor :=
  match scattered[p]? with
  | none => none
  | some s =>
      let matrix := global_sum size (scattered.map (fun t => t.d_matrix))
      let denominator := global_sum s.d_N.toNat (world.map (fun w => w.local_denominator))
      match (normalize denominator s.d_graph matrix).result with
      | none => none
      | some m => some { s with d_matrix := m }

/-- The member `build_matrix`, called on every rank of `world` with that
rank's arguments: the processors of all ranks afterwards, `none` when a
`REQUIRE`, `CHECK` or `ENSURE` stops the run or a receive never completes. -/
def build_matrix (NONE : Int) (world : List Domain) : Option (List Fission_Matrix_Processor) :=
  match all_ranks (fun p => world[p]?.bind begin_build) world.length with
  | none => none
  | some begun =>
      match all_ranks (reduce NONE (begun.map Prod.fst) world.length) world.length with
      | none => none
      | some reduced =>
          match reduced.head? with
          | none => none
          | some root =>
              match all_ranks (scatter_rank world begun reduced root.d_graph) world.length with
              | none => none
              | some scattered =>
                  all_ranks (normalize_rank world scattered root.d_graph.length) world.length

/-- A run of `nodes` processes with freshly constructed processors, rank `n`
passing `args[n]`. -/
def fresh_world (NONE : Int) (args : List (Sparse_Matrix × Denominator)) : List Domain :=
  List.zipWith
    (fun (n : Nat) (a : Sparse_Matrix × Denominator) =>
      ({ proc := Fission_Matrix_Processor.create NONE (n : Int) (args.length : Int) 0,
         local_matrix := a.1, local_denominator := a.2 } : Domain))
    (List.range args.length) args

/-- The members of a processor that the constructor computes from the rank. -/
def tree (s : Fission_Matrix_Processor) : Node_Type × Int × (Int × Int) × Int × Int :=
  (s.d_type, s.d_parent, s.d_children, s.d_node, s.d_nodes)

/-- A run in which the processor of every rank `p` holds the tree members of
rank `p` of `world.length` processes, as the constructor leaves them in a run
of fewer than `2^30` processes (graph, matrix and `d_N` may be anything left by
earlier calls). -/
def World_ok (NONE : Int) (world : List Domain) : Prop :=
  ∀ p, p < world.length →
    world[p]?.map (fun w => tree w.proc) =
      some (tree (tree_node NONE p world.length 0))

instance (NONE : Int) (world : List Domain) : Decidable (World_ok NONE world) :=
  Nat.decidableBallLT world.length (fun p _ =>
    world[p]?.map (fun w => tree w.proc) =
      some (tree (tree_node NONE p world.length 0)))

/-- All keys of all local maps of a run, rank after rank. -/
def all_keys (world : List Domain) : List Idx :=
  world.flatMap (fun w => keys w.local_matrix)

/-- The value of a local map at a key, 0 where the map lacks the key. -/
def value (m : Sparse_Matrix) (k : Idx) : ℚ := ((find m k).map Prod.snd).getD 0

/-- The sum over all ranks of the local values at key `k`. -/
def summed_value (world : List Domain) (k : Idx) : ℚ :=
  (world.map (fun w => value w.local_matrix k)).sum

/-- The sum over all ranks of the local denominators, entry by entry. -/
def summed_denominator (world : List Domain) (N : Nat) : Denominator :=
  global_sum N (world.map (fun w => w.local_denominator))

/-- The sorted list of the distinct keys in the union of all local maps. -/
def sorted_distinct_keys (world : List Domain) : Ordered_Graph :=
  ((all_keys world).dedup).insertionSort (fun a b => a ≤ b)

/-- Rank `m` lies in the subtree of rank `n` (children of `n` are `2n+1`, `2n+2`). -/
inductive Desc : Nat → Nat → Prop
  | refl (n : Nat) : Desc n n
  | left {n m : Nat} : Desc (2 * n + 1) m → Desc n m
  | right {n m : Nat} : Desc (2 * n + 2) m → Desc n m

/-- Every processor of `procs` has the tree members of its rank. -/
def Tree_ok (NONE : Int) (procs : List Fission_Matrix_Processor) : Prop :=
  ∀ (n : Nat) (s : Fission_Matrix_Processor), procs[n]? = some s →
    tree s = tree (tree_node NONE n procs.length 0)

/-- The keys held in the subtree of rank `n`. -/
def subtree_mem (procs : List Fission_Matrix_Processor) (n : Nat) (k : Idx) : Prop :=
  ∃ m s, Desc n m ∧ procs[m]? = some s ∧ k ∈ s.d_graph

/-- The processor `s` with graph, matrix and `d_N` replaced. -/
def built (s : Fission_Matrix_Processor) (G : Ordered_Graph) (m : Ordered_Matrix) (N : Int) :
    Fission_Matrix_Processor :=
  { s with d_graph := G, d_matrix := m, d_N := N }

/-- The two `REQUIRE`s of `build_matrix` hold on every rank. -/
def Require_ok (world : List Domain) : Prop :=
  ∀ w ∈ world, w.local_matrix ≠ [] ∧
    w.local_matrix.length ≤ w.local_denominator.length * w.local_denominator.length

/-- The state of a rank when it calls `reduce`. -/
def begun_proc (w : Domain) : Fission_Matrix_Processor :=
  built w.proc (std_sort (keys w.local_matrix)) [] (w.local_denominator.length : Int)

/-- The two `CHECK`s of the normalization loop at graph entry `g`: the source
index is a position of the denominator and the denominator there is positive. -/
def src_ok (denominator : Denominator) (g : Idx) : Prop :=
  (0 ≤ g.second ∧ g.second < denominator.length) ∧ denominator.getD g.second.toNat 0 > 0

instance (denominator : Denominator) (g : Idx) : Decidable (src_ok denominator g) :=
  inferInstanceAs (Decidable ((0 ≤ g.second ∧ g.second < denominator.length) ∧
    denominator.getD g.second.toNat 0 > 0))

instance (world : List Domain) : Decidable (Require_ok world) :=
  inferInstanceAs (Decidable (∀ w ∈ world, w.local_matrix ≠ [] ∧
    w.local_matrix.length ≤ w.local_denominator.length * w.local_denominator.length))

/-- The matrix after the global sum, before the normalization: the summed
value of every key of the global graph. -/
def summed_matrix (world : List Domain) : Ordered_Matrix :=
  (sorted_distinct_keys world).map (summed_value world)

/-- Reference accumulation of one entry into a map: the value is added to the
entry with the same key, or the entry is appended when the key is new. -/
def accumulate_entry : Sparse_Matrix → Idx × ℚ → Sparse_Matrix
  | [], e => [e]
  | (k, v) :: t, e =>
      if k = e.1 then (k, v + e.2) :: t else (k, v) :: accumulate_entry t e

/-- The reference single-domain accumulation: all entries of all ranks,
accumulated into one map. -/
def accumulated_map (world : List Domain) : Sparse_Matrix :=
  (world.flatMap (fun w => w.local_matrix)).foldl accumulate_entry []

/-- The single-rank run on the accumulated map and the summed denominator. -/
def accumulated_world (NONE : Int) (world : List Domain) (N : Nat) : List Domain :=
  fresh_world NONE [(accumulated_map world, summed_denominator world N)]

/-- A run of three ranks with two cells, used as a test input. -/
def world3 : List Domain :=
  fresh_world (-1)
    [([(⟨2, 1⟩, 3), (⟨0, 0⟩, 1)], [2, 4]),
     ([(⟨2, 1⟩, 5), (⟨1, 1⟩, 7)], [1, 1]),
     ([(⟨0, 1⟩, 5)], [1, 1])]

/-- The entries of `world3` on a single rank, used as a test input. -/
def world1 : List Domain :=
  fresh_world (-1) [([(⟨2, 1⟩, 8), (⟨0, 1⟩, 5), (⟨1, 1⟩, 7), (⟨0, 0⟩, 1)], [4, 6])]

/-- The processors of `world3` after `build_matrix`. -/
def world3_built : List Fission_Matrix_Processor :=
  world3.map (fun w => built w.proc [⟨0, 0⟩, ⟨0, 1⟩, ⟨1, 1⟩, ⟨2, 1⟩] [1 / 4, 5 / 6, 7 / 6, 4 / 3] 2)

/-- The rank `w` with the graph and the matrix of its processor emptied and
its `d_N` zeroed, as on a freshly constructed processor; the tree members and
the arguments stay. -/
def clear_prior (w : Domain) : Domain :=
  { w with proc := { w.proc with d_graph := [], d_matrix := [], d_N := 0 } }

/-- The run `world3` on processors that hold the result of an earlier build. -/
def world3_used : List Domain :=
  world3.map (fun w => { w with proc := built w.proc [⟨5, 5⟩, ⟨7, 0⟩] [1 / 3, 9] 7 })

/-- A run of two ranks with one cell: the two local maps hold one entry each,
with source cell 0 and the destination cells 0 and 1. -/
def world_two_keys : List Domain :=
  fresh_world (-1) [([(⟨0, 0⟩, 1)], [1]), ([(⟨1, 0⟩, 1)], [1])]

/-- A run of two ranks in which no rank gives source cell 1 a starting weight. -/
def world_zero_weight : List Domain :=
  fresh_world (-1) [([(⟨0, 0⟩, 1)], [2, 0]), ([(⟨1, 1⟩, 7)], [1, 0])]

/-! ## Energy multigrid preconditioner -/

/-- What the constructor and `ApplyImpl` of `Energy_Multigrid` obtain from
classes that are not part of the sources, for a material database `M`, an
operator (or matrix) `O`, a linear solver `S` and a vector `V`:
`mat_db->xs().num_groups()`, `Energy_Collapse::collapse_all_mats`, the
operator of the `Linear_System_FV` built on a database, `Energy_Restriction`
and `Energy_Prolongation` of a level with its collapse vector,
`LinearSolverBuilder::build_solver` with the solver's two setters and `solve`,
`PreconditionerBuilder::build_preconditioner` (which may be null),
`VectorTraits::build_vector` of a level, and `OPT::Apply`. -/
structure Multigrid_Services (M O S V : Type) where
  num_groups : M → Int
  collapse_all_mats : M → List Int → List ℚ → M
  build_system : M → O
  build_restriction : Int → List Int → O
  build_prolongation : Int → List Int → O
  build_solver : String → S
  set_operator : S → O → S
  set_preconditioner : S → O → S
  build_preconditioner : O → String → Option O
  build_vector : Int → V
  apply : O → V → V
  solve : S → V → V → V

/-- The members of `Energy_Multigrid` (the maps are left out: every level's
vectors have the type `V`). -/
structure Energy_Multigrid (O S V : Type) where
  d_num_levels : Int
  d_operators : List O
  d_restrictions : List O
  d_prolongations : List O
  d_smoothers : List S
  d_preconditioners : List (Option O)
  d_solutions : List V
  d_residuals : List V
  d_rhss : List V

/-- The collapse vector and the new group count the level loop computes from
the old group count: `old_groups / coarse_factor` entries `coarse_factor`,
and one more entry `old_groups % coarse_factor` when that is positive
(C's truncating division and remainder). -/
def coarsen (old_groups coarse_factor : Int) : Int × List Int :=
  let new_groups : Int := Int.tdiv old_groups coarse_factor
  let collapse : List Int := List.replicate new_groups.toNat coarse_factor
  let extra_grps : Int := Int.tmod old_groups coarse_factor
  if extra_grps > 0 then (new_groups + 1, collapse ++ [extra_grps]) else (new_groups, collapse)

/-- The local variables of the constructor of `Energy_Multigrid` during its
level loop, and the object under construction. -/
structure Level_Loop (M O S V : Type) where
  level : Int
  old_groups : Int
  new_groups : Int
  old_mat : Option M
  new_mat : M
  mg : Energy_Multigrid O S V

/-- The smoother of a level: built from the sublist `db`, set on the operator
`op`, and preconditioned with `prec` when that is not null, with the matrix
`matrix` otherwise. -/
def configured_solver {M O S V : Type} (svc : Multigrid_Services M O S V) (db : String)
    (op : O) (prec : Option O) (matrix : O) : S :=
  match prec with
  | some p => svc.set_preconditioner (svc.set_operator (svc.build_solver db) op) p
  | none => svc.set_preconditioner (svc.set_operator (svc.build_solver db) op) matrix

/-- The body of the `do ... while` level loop of the constructor.  Its two
`CHECK`s test results of the services for null, which the types exclude. -/
def level_step {M O S V : Type} (svc : Multigrid_Services M O S V) (coarse_factor : Int)
    (s : Level_Loop M O S V) : Level_Loop M O S V :=
  let level := s.level + 1
  let old_groups := s.new_groups
  let new_groups := (coarsen old_groups coarse_factor).1
  let collapse := (coarsen old_groups coarse_factor).2
  let weights : List ℚ := List.replicate old_groups.toNat 1
  let old_mat := s.new_mat
  let new_mat := svc.collapse_all_mats old_mat collapse weights
  let system := svc.build_system new_mat
  let prec := svc.build_preconditioner system "Smoother"
  { level := level, old_groups := old_groups, new_groups := new_groups,
    old_mat := some old_mat, new_mat := new_mat,
    mg := { s.mg with
      d_operators := s.mg.d_operators ++ [system],
      d_solutions := s.mg.d_solutions ++ [svc.build_vector level],
      d_rhss := s.mg.d_rhss ++ [svc.build_vector level],
      d_residuals := s.mg.d_residuals ++ [svc.build_vector level],
      d_restrictions := s.mg.d_restrictions ++ [svc.build_restriction level collapse],
      d_prolongations := s.mg.d_prolongations ++ [svc.build_prolongation level collapse],
      d_smoothers := s.mg.d_smoothers ++ [configured_solver svc "Smoother" system prec system],
      d_preconditioners := s.mg.d_preconditioners ++ [prec] } }

/-- The `do ... while (new_groups != 1 && level != max_depth)` loop of the
constructor; `fuel` bounds the number of passes, `none` stands for a loop
that has not ended within it. -/
def level_loop {M O S V : Type} (svc : Multigrid_Services M O S V)
    (coarse_factor max_depth : Int) : Nat → Level_Loop M O S V → Option (Level_Loop M O S V)
  | 0, _ => none
  | fuel + 1, s =>
      let s1 := level_step svc coarse_factor s
      if s1.new_groups ≠ 1 ∧ s1.level ≠ max_depth then
        level_loop svc coarse_factor max_depth fuel s1
      else some s1

/-- The state of the constructor of `Energy_Multigrid` when it enters the
level loop: the stacks hold the objects of the fine level. -/
def fine_level {M O S V : Type} (svc : Multigrid_Services M O S V) (mat_db : M)
    (fine_operator fine_matrix : O) : Level_Loop M O S V :=
  let prec := svc.build_preconditioner fine_matrix "Smoother"
  { level := 0, old_groups := 0, new_groups := svc.num_groups mat_db,
    old_mat := none, new_mat := mat_db,
    mg := { d_num_levels := 0,
            d_operators := [fine_operator],
            d_restrictions := [], d_prolongations := [],
            d_smoothers := [configured_solver svc "Smoother" fine_operator prec fine_matrix],
            d_preconditioners := [prec],
            d_solutions := [svc.build_vector 0],
            d_residuals := [svc.build_vector 0],
            d_rhss := [svc.build_vector 0] } }

/-- The constructor of `Energy_Multigrid`: `coarse_factor` and `max_depth`
are the values read from the preconditioner database (defaults 2 and 10),
`coarse_solver` tells whether it has a "Coarse Solver" sublist. -/
def Energy_Multigrid.create {M O S V : Type} (svc : Multigrid_Services M O S V)
    (coarse_factor max_depth : Int) (coarse_solver : Bool) (mat_db : M)
    (fine_operator fine_matrix : O) (fuel : Nat) : Option (Energy_Multigrid O S V) :=
  match level_loop svc coarse_factor max_depth fuel (fine_level svc mat_db fine_operator fine_matrix) with
  | none => none
  | some s =>
      let mg := { s.mg with d_num_levels := s.level + 1 }
      if coarse_solver then
        match mg.d_operators.getLast?, mg.d_preconditioners.getLast? with
        | some op, some prec =>
            some { mg with d_smoothers :=
              mg.d_smoothers ++ [configured_solver svc "Coarse Solver" op prec op] }
        | _, _ => none
      else some mg

/-- The three stacks of level vectors of `Energy_Multigrid`. -/
inductive Stack where
  | solutions
  | residuals
  | rhss
deriving DecidableEq, Repr

/-- What `ApplyImpl` does at a level, in the order in which it does it: the
restriction onto the level, a smoother call with the index it takes from
`d_smoothers`, the residual of the level, the prolongation onto the level
with the correction added. -/
inductive Cycle_Event where
  | restrict (ilevel : Nat)
  | smooth (ilevel : Nat)
  | residual (ilevel : Nat)
  | prolong (ilevel : Nat)
deriving DecidableEq, Repr

/-- The vector `ilevel` of a stack, `none` outside the stack. -/
def Energy_Multigrid.vector {O S V : Type} (mg : Energy_Multigrid O S V) (k : Stack)
    (ilevel : Nat) : Option V :=
  match k with
  | .solutions => mg.d_solutions[ilevel]?
  | .residuals => mg.d_residuals[ilevel]?
  | .rhss => mg.d_rhss[ilevel]?

/-- The write of `v` into the vector `ilevel` of a stack, `none` outside the
stack. -/
def Energy_Multigrid.assign {O S V : Type} (mg : Energy_Multigrid O S V) (k : Stack)
    (ilevel : Nat) (v : V) : Option (Energy_Multigrid O S V) :=
  match k with
  | .solutions =>
      if ilevel < mg.d_solutions.length then
        some { mg with d_solutions := mg.d_solutions.set ilevel v }
      else none
  | .residuals =>
      if ilevel < mg.d_residuals.length then
        some { mg with d_residuals := mg.d_residuals.set ilevel v }
      else none
  | .rhss =>
      if ilevel < mg.d_rhss.length then
        some { mg with d_rhss := mg.d_rhss.set ilevel v }
      else none

/-- The call `OPT::Apply(op, *src, *dst)`: the vector `dst` becomes `op`
applied to the vector `src`. -/
def opt_apply {M O S V : Type} (svc : Multigrid_Services M O S V) (op : O)
    (src dst : Stack × Nat) (mg : Energy_Multigrid O S V) : Option (Energy_Multigrid O S V) :=
  (mg.vector src.1 src.2).bind (fun x => mg.assign dst.1 dst.2 (svc.apply op x))

/-- The call `MVT::MvAddMv(1.0, *a, beta, *b, *dst)` with `beta` 1.0 (`plus`)
or -1.0: the vector `dst` becomes `a + b` or `a - b`. -/
def mv_add_mv {O S V : Type} [AddCommGroup V] (plus : Bool) (a b dst : Stack × Nat)
    (mg : Energy_Multigrid O S V) : Option (Energy_Multigrid O S V) :=
  (mg.vector a.1 a.2).bind (fun va =>
    (mg.vector b.1 b.2).bind (fun vb =>
      mg.assign dst.1 dst.2 (if plus then va + vb else va - vb)))

/-- The call `d_smoothers[index]->solve(d_solutions[ilevel], d_rhss[ilevel])`:
the solution of the level becomes what the solver returns for it as first
guess and the right-hand side of the level. -/
def smoother_solve {M O S V : Type} (svc : Multigrid_Services M O S V) (ilevel : Nat)
    (mg : Energy_Multigrid O S V) : Option (Energy_Multigrid O S V) :=
  mg.d_smoothers[ilevel]?.bind (fun s =>
    (mg.vector .solutions ilevel).bind (fun x =>
      (mg.vector .rhss ilevel).bind (fun b =>
        mg.assign .solutions ilevel (svc.solve s x b))))

/-- The body of the first level loop of `ApplyImpl` at level `ilevel >= 1`:
restrict the residual of the previous level, zero the solution, smooth, and
compute the residual except on the coarsest level. -/
def restrict_and_smooth {M O S V : Type} [AddCommGroup V] (svc : Multigrid_Services M O S V)
    (ilevel : Nat) (st : Energy_Multigrid O S V × List Cycle_Event) :
    Option (Energy_Multigrid O S V × List Cycle_Event) :=
  st.1.d_restrictions[ilevel - 1]?.bind (fun r =>
    (opt_apply svc r (.residuals, ilevel - 1) (.rhss, ilevel) st.1).bind (fun mg1 =>
      (mg1.assign .solutions ilevel 0).bind (fun mg2 =>
        (smoother_solve svc ilevel mg2).bind (fun mg3 =>
          if (ilevel : Int) ≠ mg3.d_num_levels - 1 then
            mg3.d_operators[ilevel]?.bind (fun a =>
              (opt_apply svc a (.solutions, ilevel) (.residuals, ilevel) mg3).bind (fun mg4 =>
                (mv_add_mv false (.rhss, ilevel) (.residuals, ilevel) (.residuals, ilevel)
                    mg4).bind (fun mg5 =>
                  some (mg5, st.2 ++ [Cycle_Event.restrict ilevel, Cycle_Event.smooth ilevel,
                    Cycle_Event.residual ilevel]))))
          else
            some (mg3, st.2 ++ [Cycle_Event.restrict ilevel, Cycle_Event.smooth ilevel])))))

/-- The body of the second level loop of `ApplyImpl` at level `ilevel`:
prolong the solution of the next coarser level into the residual of the level,
add it to the solution of the level, smooth. -/
def prolong_and_smooth {M O S V : Type} [AddCommGroup V] (svc : Multigrid_Services M O S V)
    (ilevel : Nat) (st : Energy_Multigrid O S V × List Cycle_Event) :
    Option (Energy_Multigrid O S V × List Cycle_Event) :=
  st.1.d_prolongations[ilevel]?.bind (fun p =>
    (opt_apply svc p (.solutions, ilevel + 1) (.residuals, ilevel) st.1).bind (fun mg1 =>
      (mv_add_mv true (.residuals, ilevel) (.solutions, ilevel) (.solutions, ilevel)
          mg1).bind (fun mg2 =>
        (smoother_solve svc ilevel mg2).bind (fun mg3 =>
          some (mg3, st.2 ++ [Cycle_Event.prolong ilevel, Cycle_Event.smooth ilevel])))))

/-- The loop `for (ilevel = first; ilevel < d_num_levels; ++ilevel)` of
`ApplyImpl`, for the `count` levels it has left. -/
def down_loop {M O S V : Type} [AddCommGroup V] (svc : Multigrid_Services M O S V) :
    Nat → Nat → Energy_Multigrid O S V × List Cycle_Event →
      Option (Energy_Multigrid O S V × List Cycle_Event)
  | 0, _, st => some st
  | count + 1, ilevel, st =>
      (restrict_and_smooth svc ilevel st).bind (down_loop svc count (ilevel + 1))

/-- The loop `for (ilevel = d_num_levels-2; ilevel >= 0; --ilevel)` of
`ApplyImpl`, for the levels `count-1, ..., 0` it has left. -/
def up_loop {M O S V : Type} [AddCommGroup V] (svc : Multigrid_Services M O S V) :
    Nat → Energy_Multigrid O S V × List Cycle_Event →
      Option (Energy_Multigrid O S V × List Cycle_Event)
  | 0, st => some st
  | count + 1, st => (prolong_and_smooth svc count st).bind (up_loop svc count)

/-- The body of the vector loop of `ApplyImpl` for the column `xi`, up to the
copy of the result: the V-cycle on the level vectors. -/
def apply_vector {M O S V : Type} [AddCommGroup V] (svc : Multigrid_Services M O S V)
    (xi : V) (st : Energy_Multigrid O S V × List Cycle_Event) :
    Option (Energy_Multigrid O S V × List Cycle_Event) :=
  (st.1.assign .residuals 0 xi).bind (fun mg1 =>
    (mg1.assign .rhss 0 xi).bind (fun mg2 =>
      (mg2.assign .solutions 0 0).bind (fun mg3 =>
        (down_loop svc (mg3.d_num_levels.toNat - 1) 1 (mg3, st.2)).bind (fun st4 =>
          up_loop svc (st4.1.d_num_levels.toNat - 1) st4))))

/-- The vector loop of `ApplyImpl` from column `ivec` on: `xs` are the columns
of `x` still to do, `y` is the output multivector. -/
def apply_vectors {M O S V : Type} [AddCommGroup V] (svc : Multigrid_Services M O S V) :
    List V → Nat → Energy_Multigrid O S V × List Cycle_Event → List V →
      Option ((Energy_Multigrid O S V × List Cycle_Event) × List V)
  | [], _, st, y => some (st, y)
  | xi :: xs, ivec, st, y =>
      (apply_vector svc xi st).bind (fun st1 =>
        (st1.1.vector .solutions 0).bind (fun x0 =>
          if ivec < y.length then apply_vectors svc xs (ivec + 1) st1 (y.set ivec x0)
          else none))

/-- The member `ApplyImpl(x, y)` on the columns of `x` and `y`: the object
with its level vectors as the call leaves them, what the call did, and the
columns of `y`; `none` when the `REQUIRE` fails or an index lies outside its
stack. -/
def ApplyImpl {M O S V : Type} [AddCommGroup V] (svc : Multigrid_Services M O S V)
    (mg : Energy_Multigrid O S V) (x y : List V) :
    Option ((Energy_Multigrid O S V × List Cycle_Event) × List V) :=
  if y.length = x.length then apply_vectors svc x 0 (mg, []) y else none

/-- A hierarchy of three levels over the rationals: restriction halves,
prolongation doubles, the operators are the identity, every smoother returns
`guess + rhs`. -/
def three_levels : Energy_Multigrid (ℚ → ℚ) (ℚ → ℚ → ℚ) ℚ :=
  { d_num_levels := 3,
    d_operators := [fun v => v, fun v => v, fun v => v],
    d_restrictions := [fun v => v / 2, fun v => v / 2],
    d_prolongations := [fun v => 2 * v, fun v => 2 * v],
    d_smoothers := [fun x b => x + b, fun x b => x + b, fun x b => x + b],
    d_preconditioners := [none, none, none],
    d_solutions := [7, 7, 7],
    d_residuals := [7, 7, 7],
    d_rhss := [7, 7, 7] }

/-- Services for `three_levels`: operators and solvers are functions. -/
def function_services : Multigrid_Services Int (ℚ → ℚ) (ℚ → ℚ → ℚ) ℚ :=
  { num_groups := fun m => m,
    collapse_all_mats := fun _ collapse _ => collapse.length,
    build_system := fun _ => fun v => v,
    build_restriction := fun _ _ => fun v => v / 2,
    build_prolongation := fun _ _ => fun v => 2 * v,
    build_solver := fun _ => fun x b => x + b,
    set_operator := fun s _ => s,
    set_preconditioner := fun s _ => s,
    build_preconditioner := fun _ _ => none,
    build_vector := fun _ => 0,
    apply := fun op v => op v,
    solve := fun s x b => s x b }

/-- The length of a stack of level vectors. -/
def Energy_Multigrid.stack_length {O S V : Type} (mg : Energy_Multigrid O S V) (k : Stack) :
    Nat :=
  match k with
  | .solutions => mg.d_solutions.length
  | .residuals => mg.d_residuals.length
  | .rhss => mg.d_rhss.length

/-- Two states of one preconditioner: all members but the content of the
level vectors are the same. -/
def Same_shape {O S V : Type} (a b : Energy_Multigrid O S V) : Prop :=
  a.d_num_levels = b.d_num_levels ∧ a.d_operators = b.d_operators ∧
  a.d_restrictions = b.d_restrictions ∧ a.d_prolongations = b.d_prolongations ∧
  a.d_smoothers = b.d_smoothers ∧ ∀ k, a.stack_length k = b.stack_length k

/-- Two states of one preconditioner whose level vectors listed in `P` are
equal. -/
def Agree {O S V : Type} (P : Set (Stack × Nat)) (a b : Energy_Multigrid O S V) : Prop :=
  Same_shape a b ∧ ∀ k l, (k, l) ∈ P → a.vector k l = b.vector k l

/-- A preconditioner of `L >= 1` levels whose stacks are long enough for the
indices `ApplyImpl` uses. -/
def Well_formed {O S V : Type} (mg : Energy_Multigrid O S V) (L : Nat) : Prop :=
  mg.d_num_levels = (L : Int) ∧ 1 ≤ L ∧ (∀ k, L ≤ mg.stack_length k) ∧
  L - 1 ≤ mg.d_restrictions.length ∧ L - 1 ≤ mg.d_prolongations.length ∧
  L - 1 ≤ mg.d_operators.length ∧ L ≤ mg.d_smoothers.length

/-- The level vectors that the V-cycle of one column has written when its
first loop is through with level `l`: solutions and right-hand sides up to
`l`, residuals up to `l` except on the coarsest level `L - 1`. -/
def Written (L l : Nat) : Set (Stack × Nat) :=
  {p | (p.1 = Stack.solutions ∧ p.2 ≤ l) ∨ (p.1 = Stack.rhss ∧ p.2 ≤ l) ∨
    (p.1 = Stack.residuals ∧ p.2 ≤ l ∧ p.2 + 1 < L) ∨ (p.1 = Stack.residuals ∧ p.2 = 0)}

/-- The ceiling of `g / c`. -/
def ceil_div (c g : Nat) : Nat := (g + c - 1) / c

/-- Services over the integers that keep the group count as database and
operator, used as a test input. -/
def count_services : Multigrid_Services Int Int String Int :=
  { num_groups := fun m => m,
    collapse_all_mats := fun _ collapse _ => collapse.length,
    build_system := fun m => m,
    build_restriction := fun _ _ => 0,
    build_prolongation := fun _ _ => 0,
    build_solver := fun db => db,
    set_operator := fun s _ => s,
    set_preconditioner := fun s _ => s,
    build_preconditioner := fun _ _ => none,
    build_vector := fun _ => 0,
    apply := fun _ v => v,
    solve := fun _ _ b => b }

/-- The level of a smoother call, `none` for the other events. -/
def Cycle_Event.smoothed : Cycle_Event → Option Nat
  | .smooth ilevel => some ilevel
  | _ => none

/-- The events of the downward leg of a V-cycle on `L` levels, for `count`
levels from level `ilevel` on: restriction onto the level, smoothing, and the
residual except on the coarsest level `L - 1`. -/
def down_events (L : Nat) : Nat → Nat → List Cycle_Event
  | 0, _ => []
  | count + 1, ilevel =>
      [Cycle_Event.restrict ilevel, Cycle_Event.smooth ilevel] ++
        (if ilevel + 1 ≠ L then [Cycle_Event.residual ilevel] else []) ++
        down_events L count (ilevel + 1)

/-- The events of the upward leg of a V-cycle, for the levels
`count - 1, ..., 0`: prolongation with correction onto the level, smoothing. -/
def up_events : Nat → List Cycle_Event
  | 0 => []
  | count + 1 => [Cycle_Event.prolong count, Cycle_Event.smooth count] ++ up_events count

/-- The events of one V-cycle on `L` levels: down from level 1 to level
`L - 1`, then up from level `L - 2` to level 0. -/
def v_cycle_events (L : Nat) : List Cycle_Event :=
  down_events L (L - 1) 1 ++ up_events (L - 1)

/-- The preconditioner the constructor builds with `count_services` for 4
fine groups, coarsening factor 2, depth limit 10 and a "Coarse Solver"
sublist: three levels (4, 2 and 1 groups). -/
def four_groups_built : Energy_Multigrid Int String Int :=
  { d_num_levels := 3,
    d_operators := [0, 2, 1],
    d_restrictions := [0, 0],
    d_prolongations := [0, 0],
    d_smoothers := ["Smoother", "Smoother", "Smoother", "Coarse Solver"],
    d_preconditioners := [none, none, none],
    d_solutions := [0, 0, 0],
    d_residuals := [0, 0, 0],
    d_rhss := [0, 0, 0] }

/-! ## Problem builder -/

/-- A value of a parameter list, of the types the problem builder reads. -/
inductive Parameter_Value where
  | int (n : Int)
  | dbl (x : ℚ)
  | str (s : String)
  | array_str (a : List String)
  | array_int (a : List Int)
  | array_dbl (a : List ℚ)
  | table_int (a : List (List Int))
deriving DecidableEq, Repr

/-- One block of the input: its parameters by name. -/
abbrev Sublist := List (String × Parameter_Value)

/-- An entry of the master parameter list: a plain parameter or a block. -/
inductive Parameter_Entry where
  | value (v : Parameter_Value)
  | sublist (l : Sublist)
deriving DecidableEq, Repr

/-- The master parameter list read from the input file. -/
abbrev ParameterList := List (String × Parameter_Entry)

/-- The query `master->isSublist(name)`. -/
def isSublist (master : ParameterList) (name : String) : Bool :=
  match master.lookup name with
  | some (.sublist _) => true
  | _ => false

/-- The call `Teuchos::sublist(master, name)` on a list that has the block
(an absent block would be created empty). -/
def sublist (master : ParameterList) (name : String) : Sublist :=
  match master.lookup name with
  | some (.sublist l) => l
  | _ => []

/-- The query `db->isParameter(name)`. -/
def isParameter (db : Sublist) (name : String) : Bool := (db.lookup name).isSome

/-- The call `db->get(name, default)` for an `int`: the value stored under
`name`, or `default`, which is then stored; `none` when the stored value is
not an `int`.  Returns the value and the list as the call leaves it. -/
def get_int (db : Sublist) (name : String) (default : Int) : Option (Int × Sublist) :=
  match db.lookup name with
  | some (.int n) => some (n, db)
  | some _ => none
  | none => some (default, db ++ [(name, .int default)])

/-- How a routine of the problem builder stops: a failed `Insist` (with its
message), `Require`, `Check` or `Validate` (with the text before the first
streamed number and the numbers streamed), a parameter of the wrong type, or
a block that is still null. -/
inductive Failure where
  | insist (msg : String)
  | require
  | check
  | validate (msg : String) (numbers : List Int)
  | wrong_type
  | null_block
deriving DecidableEq, Repr

/-- The arguments of `builder.build(matids, pn_order, g_first, g_last)`, from
which the material database is made. -/
structure Mat_Request where
  matids : List (Int × String)
  pn_order : Int
  g_first : Int
  g_last : Int
deriving DecidableEq, Repr

/-- The members of `Problem_Builder` that `setup` and `build_matdb` use: the
five blocks (null until `setup` stores them) and the material database. -/
structure Problem_Builder where
  d_coredb : Option Sublist
  d_assblydb : Option Sublist
  d_matdb : Option Sublist
  d_meshdb : Option Sublist
  d_db : Option Sublist
  d_mat : Option Mat_Request
deriving DecidableEq, Repr

/-- The member `build_matdb`, up to the call that builds the cross sections.
`open_and_broadcast` stands for the cross-section builder, which is not part
of the sources: for a library it gives the number of groups and the Pn order
of the data.  The group numbers are `int`s and the number of requested groups
`1 + (g_last - g_first)` is computed in `int`: every operation wraps
(`wrap_int`).  Returns how the routine stopped (`none`: it ran through) and
the object as it leaves it. -/
def build_matdb (open_and_broadcast : String → Int × Int) (s : Problem_Builder) :
    Option Failure × Problem_Builder :=
  match s.d_matdb, s.d_db with
  | some matdb, some db =>
      if ¬ isParameter matdb "mat list" then (some Failure.require, s)
      else if ¬ isParameter matdb "xs library" then
        (some (Failure.validate "Inline cross sections not implemented yet." []), s)
      else
        match matdb.lookup "mat list", matdb.lookup "xs library" with
        | some (.array_str mat_list), some (.str library) =>
            let matids : List (Int × String) :=
              List.zipWith (fun (id : Nat) (name : String) => ((id : Int), name))
                (List.range mat_list.length) mat_list
            if matids.length ≠ mat_list.length then (some Failure.check, s)
            else
              let Ng_data := (open_and_broadcast library).1
              let N_data := (open_and_broadcast library).2
              match get_int db "Pn_order" N_data with
              | none => (some Failure.wrong_type, s)
              | some (pn_order, db1) =>
                  if ¬ pn_order ≤ N_data then
                    (some (Failure.validate "Requested Pn scattering order of "
                      [pn_order, N_data]), { s with d_db := some db1 })
                  else
                    match get_int db1 "g_first" 0 with
                    | none => (some Failure.wrong_type, { s with d_db := some db1 })
                    | some (g_first, db2) =>
                        match get_int db2 "g_last" (wrap_int (Ng_data - 1)) with
                        | none => (some Failure.wrong_type, { s with d_db := some db2 })
                        | some (g_last, db3) =>
                            if ¬ wrap_int (1 + wrap_int (g_last - g_first)) ≤ Ng_data then
                              (some (Failure.validate
                                "Energy group range exceeds number of groups in data, 1 + g_last - g_first = "
                                [wrap_int (1 + wrap_int (g_last - g_first)), Ng_data]),
                                { s with d_db := some db3 })
                            else
                              (none, { s with
                                d_db := some db3
                                d_mat := some (Mat_Request.mk matids pn_order g_first g_last) })
        | _, _ => (some Failure.wrong_type, s)
  | _, _ => (some Failure.null_block, s)

/-- What `setup` has done, in order: stored the five blocks, called a build
routine. -/
inductive Setup_Event where
  | stored
  | called (routine : String)
deriving DecidableEq, Repr

/-- The outcome of `setup`: how it stopped (`none`: it ran through), the
object as it leaves it, and what it did. -/
structure Setup_Result where
  outcome : Option Failure
  state : Problem_Builder
  trace : List Setup_Event
deriving DecidableEq, Repr

/-- The member `setup` on the master list read from the input file.  The
three build routines are parameters: each gives how it stopped and the object
as it leaves it. -/
def setup (build_mesh build_matids build_matdb_ : Problem_Builder → Option Failure × Problem_Builder)
    (master : ParameterList) (s : Problem_Builder) : Setup_Result :=
  if ¬ isSublist master "CORE" then
    ⟨some (Failure.insist "CORE block not defined in input."), s, []⟩
  else if ¬ isSublist master "ASSEMBLIES" then
    ⟨some (Failure.insist "ASSEMBLIES block not defined in input."), s, []⟩
  else if ¬ isSublist master "MATERIAL" then
    ⟨some (Failure.insist "MATERIAL block not defined in input."), s, []⟩
  else if ¬ isSublist master "MESH" then
    ⟨some (Failure.insist "MESH block not defined in input."), s, []⟩
  else if ¬ isSublist master "PROBLEM" then
    ⟨some (Failure.insist "PROBLEM block not defined in input."), s, []⟩
  else
    let s1 : Problem_Builder :=
      { s with d_coredb := some (sublist master "CORE"),
               d_assblydb := some (sublist master "ASSEMBLIES"),
               d_matdb := some (sublist master "MATERIAL"),
               d_meshdb := some (sublist master "MESH"),
               d_db := some (sublist master "PROBLEM") }
    if s1.d_db.isNone then ⟨some Failure.check, s1, [Setup_Event.stored]⟩
    else
      match build_mesh s1 with
      | (some f, s2) => ⟨some f, s2, [Setup_Event.stored, Setup_Event.called "build_mesh"]⟩
      | (none, s2) =>
          match build_matids s2 with
          | (some f, s3) =>
              ⟨some f, s3, [Setup_Event.stored, Setup_Event.called "build_mesh",
                Setup_Event.called "build_matids"]⟩
          | (none, s3) =>
              match build_matdb_ s3 with
              | (f, s4) =>
                  ⟨f, s4, [Setup_Event.stored, Setup_Event.called "build_mesh",
                    Setup_Event.called "build_matids", Setup_Event.called "build_matdb"]⟩

/-- The five blocks `setup` requires, in the order in which it tests them. -/
def required_blocks : List String := ["CORE", "ASSEMBLIES", "MATERIAL", "MESH", "PROBLEM"]

/-- A problem builder on which `setup` has not run. -/
def new_builder : Problem_Builder :=
  { d_coredb := none, d_assblydb := none, d_matdb := none, d_meshdb := none, d_db := none,
    d_mat := none }

/-- A problem builder with a material block and a problem block that asks for
the groups 3 to 5. -/
def builder_groups_3_5 : Problem_Builder :=
  { new_builder with
    d_matdb := some [("mat list", .array_str ["fuel", "water"]), ("xs library", .str "xs.xml")],
    d_db := some [("g_first", .int 3), ("g_last", .int 5)] }

/-- A problem builder with a material block and a problem block that asks for
the groups `-1` to `2147483647`, the largest `int`. -/
def builder_groups_wrapped : Problem_Builder :=
  { new_builder with
    d_matdb := some [("mat list", .array_str ["fuel", "water"]), ("xs library", .str "xs.xml")],
    d_db := some [("g_first", .int (-1)), ("g_last", .int 2147483647)] }

/-- A master list with the five blocks. -/
def master_five : ParameterList :=
  [("CORE", .sublist []), ("ASSEMBLIES", .sublist []),
   ("MATERIAL", .sublist [("mat list", .array_str ["fuel"]), ("xs library", .str "xs.xml")]),
   ("MESH", .sublist []), ("PROBLEM", .sublist [])]

/-! ### Material ids of an axial level -/

/-- A `Teuchos::TwoDArray<int>`: the numbers of rows and columns and the
row-major storage of `numRows * numCols` entries. -/
structure TwoDArray_int where
  numRows : Nat
  numCols : Nat
  data : List Int
deriving DecidableEq, Repr

/-- The constructor `TwoDArray_int(numRows, numCols, value)`. -/
def TwoDArray_int.create (numRows numCols : Nat) (value : Int) : TwoDArray_int :=
  { numRows := numRows, numCols := numCols, data := List.replicate (numRows * numCols) value }

/-- The array held by a parameter of type `TwoDArray<int>` that the input
gives by its rows; a table without rows has no columns. -/
def TwoDArray_int.ofRows (rows : List (List Int)) : TwoDArray_int :=
  { numRows := rows.length, numCols := (rows.head?.map List.length).getD 0,
    data := rows.flatten }

/-- The read `t(i, j)`: entry `i * numCols + j` of the storage, `none` for a
position outside the array. -/
def TwoDArray_int.get (t : TwoDArray_int) (i j : Int) : Option Int :=
  if 0 ≤ i ∧ i < t.numRows ∧ 0 ≤ j ∧ j < t.numCols then
    t.data[i.toNat * t.numCols + j.toNat]?
  else none

/-- The write `t(i, j) = value`, `none` for a position outside the array. -/
def TwoDArray_int.set (t : TwoDArray_int) (i j value : Int) : Option TwoDArray_int :=
  if 0 ≤ i ∧ i < t.numRows ∧ 0 ≤ j ∧ j < t.numCols ∧
      i.toNat * t.numCols + j.toNat < t.data.length then
    some { t with data := t.data.set (i.toNat * t.numCols + j.toNat) value }
  else none

/-- The read `a[i]` of a `Teuchos::Array`, `none` outside the array. -/
def array_at {α : Type} (a : List α) (i : Int) : Option α :=
  if 0 ≤ i then a[i.toNat]? else none

/-- The call `db->get<OneDArray_str>(name)`, `none` when the parameter is
missing or of another type. -/
def get_array_str (db : Sublist) (name : String) : Option (List String) :=
  match db.lookup name with
  | some (.array_str a) => some a
  | _ => none

/-- The call `db->get<TwoDArray_int>(name)`, `none` when the parameter is
missing or of another type. -/
def get_table (db : Sublist) (name : String) : Option TwoDArray_int :=
  match db.lookup name with
  | some (.table_int rows) => some (TwoDArray_int.ofRows rows)
  | _ => none

/-- The call `db->get<int>(name)`, `none` when the parameter is missing or of
another type. -/
def get_int_value (db : Sublist) (name : String) : Option Int :=
  match db.lookup name with
  | some (.int n) => some n
  | _ => none

/-- The macro `Check (p)`: the routine goes on when `p` holds and stops
otherwise. -/
def Check (p : Prop) [Decidable p] : Option Unit := if p then some () else none

/-- The loop `for (int i = 0; i < n; ++i)` with the body `body i` on the state
`s`; a stop in the body stops the loop. -/
def for_each {σ : Type} (n : Int) (body : Int → σ → Option σ) (s : σ) : Option σ :=
  (List.range n.toNat).foldlM (fun st (i : Nat) => body (i : Int) st) s

/-- The array `matids` during `calc_axial_matids`, with the positions
(row, column) assigned so far, in order. -/
abbrev Matids_State := TwoDArray_int × List (Int × Int)

/-- The body of the two innermost loops of `calc_axial_matids` at the mesh
cell `(j, i)` of a pin: the two `Check`s on the position and the assignment
`matids(j + poff_y, i + poff_x) = matid`. -/
def assign_cell (poff_y poff_x matid j i : Int) (st : Matids_State) : Option Matids_State :=
  (Check (i + poff_x < (st.1.numCols : Int))).bind (fun _ =>
    (Check (j + poff_y < (st.1.numRows : Int))).bind (fun _ =>
      (st.1.set (j + poff_y) (i + poff_x) matid).bind (fun m =>
        some (m, st.2 ++ [(j + poff_y, i + poff_x)]))))

/-- The body of the loop over the pins in I of `calc_axial_matids` at the pin
`(pj, pi)`: the material id of the pin, its `Check`, and the loops over the
mesh cells of the pin. -/
def assign_pin (matdb : Sublist) (assbly_map : TwoDArray_int) (radial_mesh aoff_x poff_y : Int)
    (pj pi : Int) (st : Matids_State) : Option Matids_State :=
  (assbly_map.get pj pi).bind (fun matid =>
    (get_array_str matdb "mat list").bind (fun mat_list =>
      (Check (matid < (mat_list.length : Int))).bind (fun _ =>
        for_each radial_mesh (fun j st1 =>
          for_each radial_mesh (fun i st2 =>
            assign_cell poff_y (aoff_x + radial_mesh * pi) matid j i st2) st1) st)))

/-- The body of the loop over the assemblies in I of `calc_axial_matids` at
the assembly `(aj, ai)`: the pin map of the assembly, its `Check`s, and the
loops over the pins. -/
def assign_assembly (assblydb matdb : Sublist) (assbly_list : List String)
    (core_map : TwoDArray_int) (d_Np : Int × Int) (radial_mesh aoff_y : Int) (aj ai : Int)
    (st : Matids_State) : Option Matids_State :=
  (core_map.get aj ai).bind (fun id =>
    (Check (id < (assbly_list.length : Int))).bind (fun _ =>
      (array_at assbly_list id).bind (fun name =>
        (Check (isParameter assblydb name = true)).bind (fun _ =>
          (get_table assblydb name).bind (fun assbly_map =>
            (Check ((assbly_map.numCols : Int) = d_Np.1)).bind (fun _ =>
              (Check ((assbly_map.numRows : Int) = d_Np.2)).bind (fun _ =>
                for_each d_Np.2 (fun pj st1 =>
                  for_each d_Np.1 (fun pi st2 =>
                    assign_pin matdb assbly_map radial_mesh ((radial_mesh * d_Np.1) * ai)
                      (aoff_y + radial_mesh * pj) pj pi st2) st1) st)))))))

/-- The member `calc_axial_matids(level, matids)`: the array as the call
leaves it, with the positions it has assigned, in order; `none` when a `Check`
fails, a parameter is missing or an index lies outside its array.  `d_Na` and
`d_Np` are the members that `build_mesh` sets (components `I`, `J`). -/
def calc_axial_matids (s : Problem_Builder) (d_Na d_Np : Int × Int) (level : Int)
    (matids : TwoDArray_int) : Option Matids_State :=
  match s.d_coredb, s.d_assblydb, s.d_meshdb, s.d_matdb with
  | some coredb, some assblydb, some meshdb, some matdb =>
      -- get the list of core maps and assembly types
      match get_array_str coredb "axial list", get_array_str assblydb "assembly list" with
      | some axial_list, some assbly_list =>
          -- get the core-map for this axial level
          match (array_at axial_list level).bind (get_table coredb) with
          | some core_map =>
              if (core_map.numCols : Int) = d_Na.1 ∧ (core_map.numRows : Int) = d_Na.2 then
                -- mesh cells per pin
                match get_int_value meshdb "radial mesh" with
                | some radial_mesh =>
                    if (matids.numCols : Int) = d_Na.1 * d_Np.1 * radial_mesh ∧
                        (matids.numRows : Int) = d_Na.2 * d_Np.2 * radial_mesh then
                      -- loop over assemblies in J and in I
                      for_each d_Na.2 (fun aj st1 =>
                        for_each d_Na.1 (fun ai st2 =>
                          assign_assembly assblydb matdb assbly_list core_map d_Np radial_mesh
                            ((radial_mesh * d_Np.2) * aj) aj ai st2) st1) (matids, [])
                    else none
                | none => none
              else none
          | none => none
      | _, _ => none
  | _, _, _, _ => none

/-- The material id the input gives the pin `(pj, pi)` of the assembly at
`(aj, ai)` of the core map: `assembly_map[core_map(aj, ai)](pj, pi)`. -/
def pin_matid (assblydb : Sublist) (assbly_list : List String) (core_map : TwoDArray_int)
    (aj ai pj pi : Int) : Option Int :=
  (core_map.get aj ai).bind (fun id =>
    (array_at assbly_list id).bind (fun name =>
      (get_table assblydb name).bind (fun assbly_map => assbly_map.get pj pi)))

/-- The input of an axial level is well formed for a core of `NaJ x NaI`
assemblies of `NpJ x NpI` pins: the core map has these dimensions, each of
its entries is the index of an assembly of the assembly list whose pin map is
a parameter with these dimensions, and every entry of a pin map is below the
number of materials. -/
def Valid_level (assblydb : Sublist) (assbly_list mat_list : List String)
    (core_map : TwoDArray_int) (NaI NaJ NpI NpJ : Nat) : Prop :=
  core_map.numCols = NaI ∧ core_map.numRows = NaJ ∧
  ∀ aj, aj < NaJ → ∀ ai, ai < NaI →
    ∃ id name assbly_map, core_map.get (aj : Int) (ai : Int) = some id ∧
      id < (assbly_list.length : Int) ∧ array_at assbly_list id = some name ∧
      get_table assblydb name = some assbly_map ∧
      assbly_map.numCols = NpI ∧ assbly_map.numRows = NpJ ∧
      ∀ pj, pj < NpJ → ∀ pi, pi < NpI →
        ∃ matid, assbly_map.get (pj : Int) (pi : Int) = some matid ∧
          matid < (mat_list.length : Int)

/-- The assignment `matids(row, col) = value` on an array with its log. -/
def write_cell (st : Matids_State) (w : (Nat × Nat) × Int) : Matids_State :=
  ({ st.1 with data := st.1.data.set (w.1.1 * st.1.numCols + w.1.2) w.2 },
    st.2 ++ [((w.1.1 : Int), (w.1.2 : Int))])

/-- A sequence of assignments, performed in order. -/
def perform (ws : List ((Nat × Nat) × Int)) (st : Matids_State) : Matids_State :=
  ws.foldl write_cell st

/-- The assignments of the two innermost loops for one pin, in order. -/
def pin_writes (r poff_y poff_x : Nat) (matid : Int) : List ((Nat × Nat) × Int) :=
  (List.range r).flatMap (fun j =>
    (List.range r).flatMap (fun i => [((j + poff_y, i + poff_x), matid)]))

/-- The assignments of the pin loops for one assembly, in order; `matid pj pi`
is the material id of the pin. -/
def assembly_writes (r NpJ NpI aoff_y aoff_x : Nat) (matid : Nat → Nat → Int) :
    List ((Nat × Nat) × Int) :=
  (List.range NpJ).flatMap (fun pj =>
    (List.range NpI).flatMap (fun pi =>
      pin_writes r (aoff_y + r * pj) (aoff_x + r * pi) (matid pj pi)))

/-- The assignments of the assembly loops for one axial level, in order. -/
def level_writes (r NaJ NaI NpJ NpI : Nat) (matid : Nat → Nat → Nat → Nat → Int) :
    List ((Nat × Nat) × Int) :=
  (List.range NaJ).flatMap (fun aj =>
    (List.range NaI).flatMap (fun ai =>
      assembly_writes r NpJ NpI (r * NpJ * aj) (r * NpI * ai) (matid aj ai)))

/-- The array has `R` rows and `C` columns and storage for all its cells. -/
def Dims (R C : Nat) (st : Matids_State) : Prop :=
  st.1.numRows = R ∧ st.1.numCols = C ∧ st.1.data.length = R * C

/-- A problem builder with a core of 1 x 2 assemblies of 2 x 1 pins, two
assembly types and three materials, each pin meshed 2 x 2. -/
def builder_two_assemblies : Problem_Builder :=
  { new_builder with
    d_coredb := some [("axial list", .array_str ["lower"]), ("lower", .table_int [[0, 1]])],
    d_assblydb := some [("assembly list", .array_str ["fuel", "reflector"]),
      ("fuel", .table_int [[0], [1]]), ("reflector", .table_int [[2], [2]])],
    d_meshdb := some [("radial mesh", .int 2)],
    d_matdb := some [("mat list", .array_str ["UO2", "MOX", "water"])] }

/-- The builder `builder_two_assemblies` with a core map that names a third
assembly type, which the assembly list lacks. -/
def builder_unknown_assembly : Problem_Builder :=
  { builder_two_assemblies with
    d_coredb := some [("axial list", .array_str ["lower"]), ("lower", .table_int [[0, 2]])] }

/-- The builder `builder_two_assemblies` with two materials only, so that the
material id 2 of the reflector pins names no material. -/
def builder_unknown_material : Problem_Builder :=
  { builder_two_assemblies with d_matdb := some [("mat list", .array_str ["UO2", "MOX"])] }

end profugus

namespace cuda_profugus

/-! ## Mesh geometry tracker -/

/-- A `double` without rounding: a rational, or one of the IEEE values
`+inf`, `-inf`, `NaN`.  The sign of a zero is not tracked: a division of a
non-zero number by zero gives the infinity of the sign of the numerator. -/
inductive Dbl where
  | fin (q : ℚ)
  | pinf
  | ninf
  | nan
deriving DecidableEq, Repr

/-- Negation of a `double`. -/
def Dbl.neg : Dbl → Dbl
  | .fin q => .fin (-q)
  | .pinf => .ninf
  | .ninf => .pinf
  | .nan => .nan

/-- Addition of `double`s. -/
def Dbl.add : Dbl → Dbl → Dbl
  | .nan, _ => .nan
  | _, .nan => .nan
  | .fin a, .fin b => .fin (a + b)
  | .pinf, .ninf => .nan
  | .ninf, .pinf => .nan
  | .pinf, _ => .pinf
  | .ninf, _ => .ninf
  | .fin _, .pinf => .pinf
  | .fin _, .ninf => .ninf

/-- Subtraction of `double`s. -/
def Dbl.sub (a b : Dbl) : Dbl := Dbl.add a (Dbl.neg b)

/-- The infinity of the sign of `q`, `NaN` for zero. -/
def Dbl.signed_inf (q : ℚ) : Dbl :=
  if q > 0 then .pinf else if q < 0 then .ninf else .nan

/-- Multiplication of `double`s: zero times an infinity is `NaN`. -/
def Dbl.mul : Dbl → Dbl → Dbl
  | .nan, _ => .nan
  | _, .nan => .nan
  | .fin a, .fin b => .fin (a * b)
  | .fin a, .pinf => Dbl.signed_inf a
  | .fin a, .ninf => Dbl.signed_inf (-a)
  | .pinf, .fin b => Dbl.signed_inf b
  | .ninf, .fin b => Dbl.signed_inf (-b)
  | .pinf, .pinf => .pinf
  | .ninf, .ninf => .pinf
  | .pinf, .ninf => .ninf
  | .ninf, .pinf => .ninf

/-- Division of `double`s: a non-zero number over zero is an infinity, zero
over zero and infinity over infinity are `NaN`. -/
def Dbl.div : Dbl → Dbl → Dbl
  | .nan, _ => .nan
  | _, .nan => .nan
  | .fin a, .fin b => if b = 0 then Dbl.signed_inf a else .fin (a / b)
  | .fin _, .pinf => .fin 0
  | .fin _, .ninf => .fin 0
  | .pinf, .fin b => if b < 0 then .ninf else .pinf
  | .ninf, .fin b => if b < 0 then .pinf else .ninf
  | .pinf, .pinf => .nan
  | .pinf, .ninf => .nan
  | .ninf, .pinf => .nan
  | .ninf, .ninf => .nan

/-- The comparison `a < b` of `double`s, false when one side is `NaN`. -/
def Dbl.lt : Dbl → Dbl → Bool
  | .fin a, .fin b => decide (a < b)
  | .fin _, .pinf => true
  | .ninf, .fin _ => true
  | .ninf, .pinf => true
  | _, _ => false

/-- The comparison `a >= b` of `double`s, false when one side is `NaN`. -/
def Dbl.ge : Dbl → Dbl → Bool
  | .nan, _ => false
  | _, .nan => false
  | a, b => !(Dbl.lt a b)

/-- The conversion of an `int` to `double`. -/
def Dbl.ofInt (n : Int) : Dbl := .fin (n : ℚ)

/-- The three components `x`, `y`, `z` of `cuda_utils::Space_Vector`. -/
structure Space_Vector where
  x : ℚ
  y : ℚ
  z : ℚ
deriving DecidableEq, Repr

/-- The three cell indices `i`, `j`, `k` of `cuda_utils::Coordinates`. -/
structure Coordinates where
  i : Int
  j : Int
  k : Int
deriving DecidableEq, Repr

/-- Modelled from the spec: the face tag of `Geo_State_t`, whose declaration
is not part of the sources; the spec lists its values. -/
inductive Face where
  | NONE
  | MINUS_X
  | PLUS_X
  | MINUS_Y
  | PLUS_Y
  | MINUS_Z
  | PLUS_Z
deriving DecidableEq, Repr

/-- Modelled from the spec: the particle state `Geo_State_t`, whose
declaration is not part of the sources: position, direction, cell indices,
next cell indices, distance to the next boundary, exiting and reflecting face. -/
structure Geo_State_t where
  d_r : Space_Vector
  d_dir : Space_Vector
  ijk : Coordinates
  next_ijk : Coordinates
  next_dist : Dbl
  exiting_face : Face
  reflecting_face : Face
deriving DecidableEq, Repr

/-- The mesh as `distance_to_boundary` uses it: the number of cells along each
axis and, per axis, the content of the edge array at every offset from its
start (offsets `0 .. N` are the `N+1` edges; other offsets lie outside the
array). -/
structure Mesh where
  num_cells : Coordinates
  edges_x : Int → Dbl
  edges_y : Int → Dbl
  edges_z : Int → Dbl

/-- Modelled from the spec: the test `soft_equiv(vector_magnitude(v), 1.0, eps)`,
whose two functions are not part of the sources: the magnitude of `v` is
within `eps` of 1.  Stated on the square of the magnitude, for `0 < eps < 1`:
`|m - 1| < eps` exactly when `(1 - eps)^2 < m^2 < (1 + eps)^2`. -/
def unit_within (v : Space_Vector) (eps : ℚ) : Prop :=
  (1 - eps) ^ 2 < v.x * v.x + v.y * v.y + v.z * v.z ∧
    v.x * v.x + v.y * v.y + v.z * v.z < (1 + eps) ^ 2

instance (v : Space_Vector) (eps : ℚ) : Decidable (unit_within v eps) :=
  inferInstanceAs (Decidable (_ ∧ _))

/-- The flags `positive`, `negative`, `either`, `none` of one axis, and the
five `CHECK`s on them (`none` when one fails). -/
def axis_flags (dir : ℚ) (index extent : Int) : Option (Int × Int × Int × Int) :=
  let positive : Int := if dir > 0 ∧ index < extent then 1 else 0
  let negative : Int := if dir < 0 ∧ index > -1 then 1 else 0
  let either : Int := positive + negative
  let none_ : Int := 1 - either
  if (positive = 1 ∨ positive = 0) ∧ (negative = 1 ∨ negative = 0) ∧
      (none_ = 1 ∨ none_ = 0) ∧ (either = 1 ∨ either = 0) ∧ none_ + either = 1 then
    some (positive, negative, either, none_)
  else none

/-- The expression
`either * (edges[index+positive] - r / dir) + none * 99e99`
of one axis, with C's precedence: the division binds tighter than the
subtraction. -/
def test_dist (edges : Int → Dbl) (r dir : ℚ) (index positive either none_ : Int) : Dbl :=
  Dbl.add
    (Dbl.mul (Dbl.ofInt either)
      (Dbl.sub (edges (index + positive)) (Dbl.div (Dbl.fin r) (Dbl.fin dir))))
    (Dbl.mul (Dbl.ofInt none_) (Dbl.fin (99 * 10 ^ 99)))

/-- The body of `distance_to_boundary` between the `REQUIRE` and the
`ENSURE`: the state with `next_dist` and `next_ijk` set, `none` when a `CHECK`
on the flags fails. -/
def find_boundary (mesh : Mesh) (state : Geo_State_t) : Option Geo_State_t :=
  let extents := mesh.num_cells
  -- initialize the next surface
  let s0 := { state with next_ijk := state.ijk }
  -- X SURFACE
  match axis_flags state.d_dir.x state.ijk.i extents.i with
  | none => none
  | some (px, nx, ex, zx) =>
    let dx := test_dist mesh.edges_x state.d_r.x state.d_dir.x state.ijk.i px ex zx
    let tx := state.ijk.i + px - nx
    let s1 := { s0 with next_dist := dx, next_ijk := { s0.next_ijk with i := tx } }
    -- Y SURFACE
    match axis_flags state.d_dir.y state.ijk.j extents.j with
    | none => none
    | some (py, ny, ey, zy) =>
      let dy := test_dist mesh.edges_y state.d_r.y state.d_dir.y state.ijk.j py ey zy
      let ty := state.ijk.j + py - ny
      let s2 :=
        if Dbl.lt dy s1.next_dist then
          { s1 with next_dist := dy,
                    next_ijk := { s1.next_ijk with i := state.ijk.i, j := ty } }
        else s1
      -- Z SURFACE
      match axis_flags state.d_dir.z state.ijk.k extents.k with
      | none => none
      | some (pz, nz, ez, zz) =>
        let dz := test_dist mesh.edges_z state.d_r.z state.d_dir.z state.ijk.k pz ez zz
        let tz := state.ijk.k + pz - nz
        let s3 :=
          if Dbl.lt dz s2.next_dist then
            { s2 with next_dist := dz,
                      next_ijk := { i := state.ijk.i, j := state.ijk.j, k := tz } }
          else s2
        some s3

/-- The member `distance_to_boundary`: the returned distance and the updated
state, `none` when the `REQUIRE`, a `CHECK` or the `ENSURE` fails. -/
def distance_to_boundary (mesh : Mesh) (state : Geo_State_t) : Option (Dbl × Geo_State_t) :=
  if unit_within state.d_dir (1 / 10 ^ 5) then
    match find_boundary mesh state with
    | none => none
    | some s => if Dbl.ge s.next_dist (Dbl.fin 0) then some (s.next_dist, s) else none
  else none

/-- The member `normal`: the outward normal of the exiting face. -/
def normal (state : Geo_State_t) : Space_Vector :=
  if state.exiting_face = Face.MINUS_X then ⟨-1, 0, 0⟩
  else if state.exiting_face = Face.PLUS_X then ⟨1, 0, 0⟩
  else if state.exiting_face = Face.MINUS_Y then ⟨0, -1, 0⟩
  else if state.exiting_face = Face.PLUS_Y then ⟨0, 1, 0⟩
  else if state.exiting_face = Face.MINUS_Z then ⟨0, 0, -1⟩
  else if state.exiting_face = Face.PLUS_Z then ⟨0, 0, 1⟩
  else ⟨0, 0, 0⟩

/-- The member `reflect`: the returned flag and the updated state, `none`
when the `REQUIRE`, the `CHECK` or the `ENSURE` fails. -/
def reflect (state : Geo_State_t) : Option (Bool × Geo_State_t) :=
  if unit_within state.d_dir (1 / 10 ^ 6) then
    if state.reflecting_face = Face.NONE then some (false, state)
    else
      let n := normal state
      let dot := state.d_dir.x * n.x + state.d_dir.y * n.y + state.d_dir.z * n.z
      if dot ≠ 0 then
        let s1 := { state with d_dir :=
          { x := state.d_dir.x - 2 * n.x * dot,
            y := state.d_dir.y - 2 * n.y * dot,
            z := state.d_dir.z - 2 * n.z * dot } }
        if unit_within s1.d_dir (1 / 10 ^ 6) then some (true, s1) else none
      else none
  else none

/-- The member `initialize`: the state after the call, `none` when an `ENSURE`
fails.  `vector_normalize` and `update_state` are not part of the sources and
are parameters: whatever they compute, the three `ENSURE`s are evaluated on
the result, the third one as written (`ijk.k >= -1 && ijk.i <= N_K`). -/
def initialize_particle (mesh : Mesh) (vector_normalize : Space_Vector → Space_Vector)
    (update_state : Geo_State_t → Geo_State_t) (r direction : Space_Vector)
    (state : Geo_State_t) : Option Geo_State_t :=
  let s1 := { state with d_r := r, d_dir := direction }
  let s2 := { s1 with d_dir := vector_normalize s1.d_dir }
  let s3 := update_state s2
  if (s3.ijk.i ≥ -1 ∧ s3.ijk.i ≤ mesh.num_cells.i) ∧
      (s3.ijk.j ≥ -1 ∧ s3.ijk.j ≤ mesh.num_cells.j) ∧
      (s3.ijk.k ≥ -1 ∧ s3.ijk.i ≤ mesh.num_cells.k) then
    some s3
  else none

/-- A mesh of 4 x 4 x 2 cells with edges at the integers. -/
def mesh_4_4_2 : Mesh :=
  { num_cells := ⟨4, 4, 2⟩, edges_x := fun i => Dbl.fin i, edges_y := fun i => Dbl.fin i,
    edges_z := fun i => Dbl.fin i }

/-- A state update that puts the particle in cell `ijk`. -/
def update_to (ijk : Coordinates) (state : Geo_State_t) : Geo_State_t :=
  { state with ijk := ijk }

/-- The unit mesh of `n` cells per axis with edges at the integers. -/
def integer_mesh (n : Int) : Mesh :=
  { num_cells := ⟨n, n, n⟩, edges_x := fun i => Dbl.fin i, edges_y := fun i => Dbl.fin i,
    edges_z := fun i => Dbl.fin i }

/-- A state at position `r` with direction `dir` in cell `ijk`. -/
def state_at (r dir : Space_Vector) (ijk : Coordinates) : Geo_State_t :=
  { d_r := r, d_dir := dir, ijk := ijk, next_ijk := ijk, next_dist := Dbl.fin 0,
    exiting_face := Face.NONE, reflecting_face := Face.NONE }

/-- The analytic distance along one axis: (edge toward which the particle
moves - position component) / direction component; no distance for a zero
direction component. -/
def axis_distance (edges : Int → ℚ) (r dir : ℚ) (index : Int) : Option ℚ :=
  if dir > 0 then some ((edges (index + 1) - r) / dir)
  else if dir < 0 then some ((edges index - r) / dir)
  else none

/-- The smaller of two optional distances. -/
def min_distance : Option ℚ → Option ℚ → Option ℚ
  | some a, some b => some (min a b)
  | some a, none => some a
  | none, b => b

/-- The analytic distance to the nearest face of the current cell: the
minimum of the axis distances over the axes with non-zero direction component. -/
def analytic_distance (ex ey ez : Int → ℚ) (state : Geo_State_t) : Option ℚ :=
  min_distance (axis_distance ex state.d_r.x state.d_dir.x state.ijk.i)
    (min_distance (axis_distance ey state.d_r.y state.d_dir.y state.ijk.j)
      (axis_distance ez state.d_r.z state.d_dir.z state.ijk.k))

/-- The outward normal of a face of the mesh, zero for `NONE`. -/
def face_normal : Face → Space_Vector
  | .NONE => ⟨0, 0, 0⟩
  | .MINUS_X => ⟨-1, 0, 0⟩
  | .PLUS_X => ⟨1, 0, 0⟩
  | .MINUS_Y => ⟨0, -1, 0⟩
  | .PLUS_Y => ⟨0, 1, 0⟩
  | .MINUS_Z => ⟨0, 0, -1⟩
  | .PLUS_Z => ⟨0, 0, 1⟩

/-- The dot product of two vectors. -/
def dot (a b : Space_Vector) : ℚ := a.x * b.x + a.y * b.y + a.z * b.z

/-- The mirror image `d - 2 (d.n) n` of `d` about the plane with normal `n`. -/
def mirror (d n : Space_Vector) : Space_Vector :=
  ⟨d.x - 2 * n.x * dot d n, d.y - 2 * n.y * dot d n, d.z - 2 * n.z * dot d n⟩

/-- The component of `d` along the axis of face `f`. -/
def along (f : Face) (d : Space_Vector) : ℚ :=
  match f with
  | .NONE => 0
  | .MINUS_X => d.x
  | .PLUS_X => d.x
  | .MINUS_Y => d.y
  | .PLUS_Y => d.y
  | .MINUS_Z => d.z
  | .PLUS_Z => d.z

/-- The vector `d` with its component along the axis of face `f` negated and
the other two unchanged. -/
def flip_axis (f : Face) (d : Space_Vector) : Space_Vector :=
  match f with
  | .NONE => d
  | .MINUS_X => ⟨-d.x, d.y, d.z⟩
  | .PLUS_X => ⟨-d.x, d.y, d.z⟩
  | .MINUS_Y => ⟨d.x, -d.y, d.z⟩
  | .PLUS_Y => ⟨d.x, -d.y, d.z⟩
  | .MINUS_Z => ⟨d.x, d.y, -d.z⟩
  | .PLUS_Z => ⟨d.x, d.y, -d.z⟩

/-- A particle in the middle of cell (0,0,0) of the integer mesh, flying
towards the faces `x = 1` and `y = 1`. -/
def state_oblique : Geo_State_t :=
  state_at ⟨1 / 2, 1 / 2, 1 / 2⟩ ⟨3 / 5, 4 / 5, 0⟩ ⟨0, 0, 0⟩

/-- A particle of cell (0,0,0) of the integer mesh close to the face `x = 1`. -/
def state_near_face : Geo_State_t :=
  state_at ⟨9 / 10, 1 / 2, 1 / 2⟩ ⟨3 / 5, 4 / 5, 0⟩ ⟨0, 0, 0⟩

/-- A state whose reflecting face `PLUS_X` differs from its exiting face `PLUS_Y`. -/
def state_two_faces : Geo_State_t :=
  { state_at ⟨1, 1, 1 / 2⟩ ⟨3 / 5, 4 / 5, 0⟩ ⟨0, 0, 0⟩ with
    exiting_face := Face.PLUS_Y, reflecting_face := Face.PLUS_X }

/-- The particle of the spec example: direction (1,0,0) on the reflecting
face `PLUS_X`. -/
def state_plus_x : Geo_State_t :=
  { state_at ⟨1, 1 / 2, 1 / 2⟩ ⟨1, 0, 0⟩ ⟨0, 0, 0⟩ with
    exiting_face := Face.PLUS_X, reflecting_face := Face.PLUS_X }

/-- The candidate distance `test_dist` and the candidate index `test_next`
that `distance_to_boundary` computes on one axis, `none` when a `CHECK` on the
flags fails. -/
def axis_candidate (edges : Int → Dbl) (r dir : ℚ) (index extent : Int) : Option (Dbl × Int) :=
  (axis_flags dir index extent).map
    (fun f => (test_dist edges r dir index f.1 f.2.2.1 f.2.2.2, index + f.1 - f.2.1))

/-- The offset `index + positive` at which `distance_to_boundary` reads the
edge array of one axis, `none` when a `CHECK` on the flags fails before. -/
def edge_position (dir : ℚ) (index extent : Int) : Option Int :=
  (axis_flags dir index extent).map (fun f => index + f.1)

/-- The integer mesh of `n` cells per axis, with the value `v` in the memory
just before the first x edge. -/
def integer_mesh_before (n : Int) (v : Dbl) : Mesh :=
  { num_cells := ⟨n, n, n⟩, edges_x := fun i => if i = -1 then v else Dbl.fin i,
    edges_y := fun i => Dbl.fin i, edges_z := fun i => Dbl.fin i }

/-- A particle born outside the integer mesh, below the first x edge, flying
away from it in x and into the mesh in y. -/
def state_outside : Geo_State_t :=
  state_at ⟨-1 / 2, 1 / 2, 1 / 2⟩ ⟨-3 / 5, 4 / 5, 0⟩ ⟨-1, 0, 0⟩

/-- A particle of cell (0,0,0) of the integer mesh at the same distance from
the faces `x = 1`, `y = 1` and `z = 1` as the code measures it. -/
def state_three_way_tie : Geo_State_t :=
  state_at ⟨1 / 3, 1 / 3, 1 / 6⟩ ⟨2 / 3, 2 / 3, 1 / 3⟩ ⟨0, 0, 0⟩

/-- A particle of cell (0,0,0) of the integer mesh flying along the y axis. -/
def state_along_y : Geo_State_t :=
  state_at ⟨1 / 2, 1 / 2, 1 / 2⟩ ⟨0, 1, 0⟩ ⟨0, 0, 0⟩

/-- A particle of cell (0,0,0) of the integer mesh flying in the plane
`x = 1/2`, at the same distance from the faces `y = 1` and `z = 1` as the code
measures it (`1 - (3/10) / (3/5) = 1 - (2/5) / (4/5) = 1/2`). -/
def state_yz_tie : Geo_State_t :=
  state_at ⟨1 / 2, 3 / 10, 2 / 5⟩ ⟨0, 3 / 5, 4 / 5⟩ ⟨0, 0, 0⟩

end cuda_profugus

/-! # Theorems -/

namespace profugus


theorem Idx.lt_def (a b : Idx) :
    a < b ↔ a.first < b.first ∨ (¬ b.first < a.first ∧ a.second < b.second) := Iff.rfl

theorem std_sort_perm (l : List Idx) : (std_sort l).Perm l := List.perm_insertionSort _ l

theorem std_sort_sorted (l : List Idx) : (std_sort l).Sorted (· ≤ ·) :=
  List.sorted_insertionSort _ l

theorem std_sort_mem (l : List Idx) (x : Idx) : x ∈ std_sort l ↔ x ∈ l :=
  (std_sort_perm l).mem_iff

theorem std_sort_strict (l : List Idx) (h : l.Nodup) : (std_sort l).Sorted (· < ·) :=
  (std_sort_sorted l).lt_of_le ((std_sort_perm l).nodup_iff.2 h)

theorem std_unique_mem : ∀ (l : List Idx) (x : Idx), x ∈ std_unique l ↔ x ∈ l
  | [], _ => by simp [std_unique]
  | [a], _ => by simp [std_unique]
  | a :: b :: t, x => by
      have ih := std_unique_mem (b :: t) x
      by_cases hab : a = b
      · simp only [std_unique, hab, if_true, ih]
        simp
      · simp only [std_unique, hab, if_false, List.mem_cons, ih]

theorem std_unique_strict : ∀ (l : List Idx), l.Sorted (· ≤ ·) → (std_unique l).Sorted (· < ·)
  | [], _ => by simp [std_unique]
  | [a], _ => by simp [std_unique]
  | a :: b :: t, h => by
      have hs : (b :: t).Sorted (· ≤ ·) := h.of_cons
      have ih := std_unique_strict (b :: t) hs
      by_cases hab : a = b
      · simp only [std_unique, hab, if_true]
        exact ih
      · simp only [std_unique, hab, if_false]
        refine List.sorted_cons.2 ⟨fun x hx => ?_, ih⟩
        have hx' : x ∈ b :: t := (std_unique_mem (b :: t) x).1 hx
        have hle : ∀ y ∈ b :: t, a ≤ y := (List.sorted_cons.1 h).1
        have hbx : b ≤ x := by
          rcases List.mem_cons.1 hx' with rfl | hxt
          · exact le_refl _
          · exact (List.sorted_cons.1 hs).1 x hxt
        have hab' : a < b := lt_of_le_of_ne (hle b (List.mem_cons_self _ _)) hab
        exact lt_of_lt_of_le hab' hbx

/-- Two strictly increasing lists with the same members are the same list. -/
theorem strict_sorted_ext {l₁ l₂ : List Idx} (h₁ : l₁.Sorted (· < ·)) (h₂ : l₂.Sorted (· < ·))
    (h : ∀ x, x ∈ l₁ ↔ x ∈ l₂) : l₁ = l₂ :=
  List.eq_of_perm_of_sorted ((List.perm_ext_iff_of_nodup h₁.nodup h₂.nodup).2 h) h₁ h₂

theorem merge_strict (g c : List Idx) : (std_unique (std_sort (g ++ c))).Sorted (· < ·) :=
  std_unique_strict _ (std_sort_sorted _)

theorem merge_mem (g c : List Idx) (x : Idx) :
    x ∈ std_unique (std_sort (g ++ c)) ↔ x ∈ g ∨ x ∈ c := by
  rw [std_unique_mem, std_sort_mem, List.mem_append]

/-! ### Running a step on every rank -/

theorem all_ranks_length {α : Type} (f : Nat → Option α) :
    ∀ (n : Nat) (l : List α), all_ranks f n = some l → l.length = n
  | 0, l, h => by
      simp only [all_ranks, Option.some.injEq] at h
      subst h; rfl
  | n + 1, l, h => by
      simp only [all_ranks] at h
      cases h1 : all_ranks f n with
      | none => simp [h1] at h
      | some l0 =>
          cases h2 : f n with
          | none => simp [h1, h2] at h
          | some a =>
              simp only [h1, h2, Option.some.injEq] at h
              subst h
              simp [all_ranks_length f n l0 h1]

theorem all_ranks_get {α : Type} (f : Nat → Option α) :
    ∀ (n : Nat) (l : List α), all_ranks f n = some l → ∀ i, i < n → f i = l[i]?
  | 0, _, _, i, hi => by omega
  | n + 1, l, h, i, hi => by
      simp only [all_ranks] at h
      cases h1 : all_ranks f n with
      | none => simp [h1] at h
      | some l0 =>
          cases h2 : f n with
          | none => simp [h1, h2] at h
          | some a =>
              simp only [h1, h2, Option.some.injEq] at h
              subst h
              have hlen := all_ranks_length f n l0 h1
              by_cases hin : i < n
              · rw [all_ranks_get f n l0 h1 i hin, List.getElem?_append_left (by omega)]
              · have : i = n := by omega
                subst this
                rw [h2, List.getElem?_append_right (by omega)]
                simp [hlen]

theorem all_ranks_none {α : Type} (f : Nat → Option α) :
    ∀ (n : Nat) (i : Nat), i < n → f i = none → all_ranks f n = none
  | 0, i, hi, _ => by omega
  | n + 1, i, hi, h => by
      simp only [all_ranks]
      by_cases hin : i < n
      · rw [all_ranks_none f n i hin h]
      · have : i = n := by omega
        subst this
        rw [h]
        cases all_ranks f i <;> rfl

/-! ### The process tree -/

theorem wrap_int_eq (x : Int) (h1 : -2147483648 ≤ x) (h2 : x ≤ 2147483647) :
    wrap_int x = x := by
  unfold wrap_int
  omega

/-- In a run of fewer than `2^30` processes no operation of the constructor
leaves the range of `int`, and the constructor computes the node of the binary
tree in exact arithmetic. -/
theorem create_eq_tree_node (NONE N0 : Int) (n nodes : Nat) (hn : n < nodes)
    (hnodes : nodes < 1073741824) :
    Fission_Matrix_Processor.create NONE n nodes N0 = tree_node NONE n nodes N0 := by
  have e1 : wrap_int ((n : Int) - 1) = (n : Int) - 1 := wrap_int_eq _ (by omega) (by omega)
  have e2 : wrap_int ((n : Int) + 1) = (n : Int) + 1 := wrap_int_eq _ (by omega) (by omega)
  have e3 : wrap_int (((n : Int) + 1) * 2) = ((n : Int) + 1) * 2 :=
    wrap_int_eq _ (by omega) (by omega)
  have e4 : wrap_int (((n : Int) + 1) * 2 - 1) = ((n : Int) + 1) * 2 - 1 :=
    wrap_int_eq _ (by omega) (by omega)
  have e5 : wrap_int ((nodes : Int) - 1) = (nodes : Int) - 1 :=
    wrap_int_eq _ (by omega) (by omega)
  simp only [Fission_Matrix_Processor.create, tree_node, e2, e3, e4, e1, e5]

theorem tree_node_parent (NONE N0 : Int) (n P : Nat) :
    (tree_node NONE n P N0).d_parent
      = if n = 0 then NONE else (((n - 1) / 2 : Nat) : Int) := by
  simp only [tree_node]
  by_cases h : n = 0
  · simp [h]
  · have h1 : ((n : Int) - 1).tdiv 2 = ((n : Int) - 1) / 2 :=
      Int.tdiv_eq_ediv (by omega) (by omega)
    simp only [h, Nat.cast_eq_zero, if_false, h1]
    omega

theorem tree_node_external (NONE N0 : Int) (n P : Nat) (h : P ≤ 2 * n + 1) :
    (tree_node NONE n P N0).d_type = Node_Type.EXTERNAL := by
  simp only [tree_node]
  rw [if_pos (by omega)]

theorem tree_node_internal (NONE N0 : Int) (n P : Nat) (h : 2 * n + 1 < P) :
    (tree_node NONE n P N0).d_type = Node_Type.INTERNAL ∧
    (tree_node NONE n P N0).d_children.1 = ((2 * n + 1 : Nat) : Int) ∧
    (tree_node NONE n P N0).d_children.2
      = if 2 * n + 2 < P then ((2 * n + 2 : Nat) : Int) else NONE := by
  simp only [tree_node]
  rw [if_neg (by omega)]
  by_cases h2 : 2 * n + 2 < P
  · rw [if_neg (by omega), if_pos h2]
    refine ⟨rfl, ?_, ?_⟩ <;> simp <;> omega
  · rw [if_pos (by omega), if_neg h2]
    refine ⟨rfl, ?_, rfl⟩
    simp; omega

theorem Desc.le {n m : Nat} (h : Desc n m) : n ≤ m := by
  induction h with
  | refl n => exact le_refl n
  | left _ ih => omega
  | right _ ih => omega

theorem Desc.child_left {n m : Nat} (h : Desc n m) : Desc n (2 * m + 1) := by
  induction h with
  | refl n => exact Desc.left (Desc.refl _)
  | left _ ih => exact Desc.left ih
  | right _ ih => exact Desc.right ih

theorem Desc.child_right {n m : Nat} (h : Desc n m) : Desc n (2 * m + 2) := by
  induction h with
  | refl n => exact Desc.right (Desc.refl _)
  | left _ ih => exact Desc.left ih
  | right _ ih => exact Desc.right ih

theorem Desc.root : ∀ m : Nat, Desc 0 m
  | 0 => Desc.refl 0
  | m + 1 => by
      have ih := Desc.root (m / 2)
      rcases Nat.even_or_odd' m with ⟨k, hk | hk⟩
      · have : m / 2 = k := by omega
        rw [this] at ih
        have := ih.child_left
        rw [hk]; exact this
      · have : m / 2 = k := by omega
        rw [this] at ih
        have := ih.child_right
        rw [hk]; exact this

theorem Desc.cases_iff (n m : Nat) :
    Desc n m ↔ m = n ∨ Desc (2 * n + 1) m ∨ Desc (2 * n + 2) m := by
  constructor
  · intro h
    cases h with
    | refl => exact Or.inl rfl
    | left h => exact Or.inr (Or.inl h)
    | right h => exact Or.inr (Or.inr h)
  · rintro (rfl | h | h)
    · exact Desc.refl _
    · exact Desc.left h
    · exact Desc.right h

theorem with_graph_self (s : Fission_Matrix_Processor) : { s with d_graph := s.d_graph } = s := by
  cases s; rfl

theorem subtree_mem_iff (procs : List Fission_Matrix_Processor) (n : Nat) (k : Idx)
    (s : Fission_Matrix_Processor) (hs : procs[n]? = some s) :
    subtree_mem procs n k ↔
      k ∈ s.d_graph ∨ subtree_mem procs (2 * n + 1) k ∨ subtree_mem procs (2 * n + 2) k := by
  constructor
  · rintro ⟨m, s', hd, hm, hk⟩
    rcases (Desc.cases_iff n m).1 hd with rfl | h | h
    · rw [hs] at hm; cases hm; exact Or.inl hk
    · exact Or.inr (Or.inl ⟨m, s', h, hm, hk⟩)
    · exact Or.inr (Or.inr ⟨m, s', h, hm, hk⟩)
  · rintro (hk | ⟨m, s', hd, hm, hk⟩ | ⟨m, s', hd, hm, hk⟩)
    · exact ⟨n, s, Desc.refl n, hs, hk⟩
    · exact ⟨m, s', Desc.left hd, hm, hk⟩
    · exact ⟨m, s', Desc.right hd, hm, hk⟩

theorem subtree_mem_out (procs : List Fission_Matrix_Processor) (n : Nat) (k : Idx)
    (h : procs.length ≤ n) : ¬ subtree_mem procs n k := by
  rintro ⟨m, s', hd, hm, _⟩
  have h1 := hd.le
  have h2 : m < procs.length := by
    by_contra hc
    rw [List.getElem?_eq_none (by omega)] at hm
    cases hm
  omega

theorem reduce_spec (NONE : Int) (hN : NONE < 0) (procs : List Fission_Matrix_Processor)
    (ht : Tree_ok NONE procs)
    (hsorted : ∀ (n : Nat) (s : Fission_Matrix_Processor), procs[n]? = some s →
      s.d_graph.Sorted (· < ·)) :
    ∀ (fuel n : Nat), n < procs.length → procs.length ≤ fuel + n →
      ∃ s G, procs[n]? = some s ∧ reduce NONE procs fuel n = some { s with d_graph := G } ∧
        G.Sorted (· < ·) ∧ ∀ k, k ∈ G ↔ subtree_mem procs n k := by
  intro fuel
  induction fuel with
  | zero => intro n h1 h2; omega
  | succ fuel ih =>
      intro n hn hfuel
      obtain ⟨s, hs⟩ : ∃ s, procs[n]? = some s := ⟨procs[n], List.getElem?_eq_getElem hn⟩
      have hts := ht n s hs
      simp only [tree, Prod.mk.injEq] at hts
      obtain ⟨htype, hparent, hchildren, hnode, -⟩ := hts
      -- what a receive from an existing child does
      have hrecv : ∀ (c : Nat) (s1 : Fission_Matrix_Processor), c < procs.length →
          (c = 2 * n + 1 ∨ c = 2 * n + 2) → s1.d_node = n →
          ∃ Gc, receive_from NONE procs.length (reduce NONE procs fuel) s1 (c : Int)
              = some (receive_and_merge s1 Gc) ∧ ∀ k, k ∈ Gc ↔ subtree_mem procs c k := by
        intro c s1 hc hcn hs1
        obtain ⟨sc, Gc, hsc, hred, -, hmem⟩ := ih c hc (by omega)
        have htc := ht c sc hsc
        simp only [tree, Prod.mk.injEq] at htc
        have hpc : sc.d_parent = (n : Int) := by
          rw [htc.2.1, tree_node_parent, if_neg (by omega)]
          rcases hcn with rfl | rfl <;> omega
        refine ⟨Gc, ?_, hmem⟩
        unfold receive_from
        rw [if_pos ⟨by omega, by omega⟩, Int.toNat_ofNat, hred]
        simp only []
        rw [if_pos ⟨by rw [hpc]; omega, by rw [hpc, hs1]⟩]
      unfold reduce
      simp only [hs]
      by_cases hleaf : procs.length ≤ 2 * n + 1
      · -- an external node keeps its graph
        rw [tree_node_external NONE 0 n procs.length hleaf] at htype
        rw [if_neg (by rw [htype]; decide)]
        refine ⟨s, s.d_graph, rfl, by rw [with_graph_self], hsorted n s hs, fun k => ?_⟩
        rw [subtree_mem_iff procs n k s hs]
        have h1 := subtree_mem_out procs (2 * n + 1) k (by omega)
        have h2 := subtree_mem_out procs (2 * n + 2) k (by omega)
        tauto
      · have hint := tree_node_internal NONE 0 n procs.length (by omega)
        rw [hint.1] at htype
        have hc1 : s.d_children.1 = ((2 * n + 1 : Nat) : Int) := by rw [hchildren, hint.2.1]
        have hc2 : s.d_children.2 = if 2 * n + 2 < procs.length then ((2 * n + 2 : Nat) : Int)
            else NONE := by rw [hchildren, hint.2.2]
        rw [if_pos htype, hc1]
        obtain ⟨G1, hr1, hm1⟩ := hrecv (2 * n + 1) s (by omega) (Or.inl rfl) hnode
        rw [hr1]
        simp only []
        by_cases hright : 2 * n + 2 < procs.length
        · rw [if_pos hright] at hc2
          rw [if_pos (by rw [hc2]; omega), hc2]
          obtain ⟨G2, hr2, hm2⟩ := hrecv (2 * n + 2) (receive_and_merge s G1) hright
            (Or.inr rfl) hnode
          rw [hr2]
          refine ⟨s, std_unique (std_sort (std_unique (std_sort (s.d_graph ++ G1)) ++ G2)),
            rfl, rfl, merge_strict _ _, fun k => ?_⟩
          rw [merge_mem, merge_mem, subtree_mem_iff procs n k s hs, hm1, hm2]
          tauto
        · rw [if_neg hright] at hc2
          rw [if_neg (by rw [hc2]; simp)]
          refine ⟨s, std_unique (std_sort (s.d_graph ++ G1)), rfl, rfl, merge_strict _ _,
            fun k => ?_⟩
          rw [merge_mem, subtree_mem_iff procs n k s hs, hm1]
          have h2 := subtree_mem_out procs (2 * n + 2) k (by omega)
          tauto

theorem all_ranks_total {α : Type} (f : Nat → Option α) :
    ∀ (n : Nat), (∀ i, i < n → ∃ a, f i = some a) → ∃ l, all_ranks f n = some l
  | 0, _ => ⟨[], rfl⟩
  | n + 1, h => by
      obtain ⟨l, hl⟩ := all_ranks_total f n (fun i hi => h i (by omega))
      obtain ⟨a, ha⟩ := h n (by omega)
      exact ⟨l ++ [a], by simp only [all_ranks, hl, ha]⟩

theorem all_ranks_eq_some_iff {α : Type} (f : Nat → Option α) (n : Nat) (l : List α) :
    all_ranks f n = some l ↔ l.length = n ∧ ∀ i, i < n → f i = l[i]? := by
  constructor
  · intro h
    exact ⟨all_ranks_length f n l h, all_ranks_get f n l h⟩
  · rintro ⟨hlen, hget⟩
    obtain ⟨l', hl'⟩ := all_ranks_total f n (fun i hi => by
      rw [hget i hi]
      exact ⟨l[i], List.getElem?_eq_getElem (by omega)⟩)
    rw [hl']
    congr 1
    apply List.ext_getElem?
    intro i
    by_cases hi : i < n
    · rw [← all_ranks_get f n l' hl' i hi, hget i hi]
    · rw [List.getElem?_eq_none (by rw [all_ranks_length f n l' hl']; omega),
        List.getElem?_eq_none (by omega)]

/-- Running on every rank a step that maps the rank's entry of a list. -/
theorem all_ranks_map {α β : Type} (f : Nat → Option β) (l : List α) (h : α → β)
    (hf : ∀ i, i < l.length → f i = l[i]?.map h) :
    all_ranks f l.length = some (l.map h) := by
  rw [all_ranks_eq_some_iff]
  refine ⟨by simp, fun i hi => ?_⟩
  rw [hf i hi, List.getElem?_map]

theorem global_sum_map {α : Type} (world : List α) (G : List Idx) (f : α → Idx → ℚ) :
    global_sum G.length (world.map (fun w => G.map (f w)))
      = G.map (fun k => (world.map (fun w => f w k)).sum) := by
  unfold global_sum
  apply List.ext_getElem
  · simp
  · intro i h1 h2
    simp only [List.getElem_map, List.getElem_range, List.map_map]
    congr 1
    apply List.map_congr_left
    intro w _
    simp only [Function.comp]
    have hi : i < G.length := by simpa using h2
    rw [List.getD_eq_getElem?_getD, List.getElem?_map, List.getElem?_eq_getElem hi]
    rfl

/-! ### The merge-join -/

theorem find_fst (m : Sparse_Matrix) (k : Idx) (e : Idx × ℚ) (h : find m k = some e) :
    e.1 = k := by
  have := List.find?_some h
  simpa using this

theorem find_of_mem_keys (m : Sparse_Matrix) (k : Idx) (h : k ∈ keys m) :
    ∃ e, find m k = some e := by
  unfold keys at h
  obtain ⟨e, he, hk⟩ := List.mem_map.1 h
  cases hf : find m k with
  | some e' => exact ⟨e', rfl⟩
  | none =>
      unfold find at hf
      have := List.find?_eq_none.1 hf e he
      simp [hk] at this

theorem value_of_not_mem (m : Sparse_Matrix) (k : Idx) (h : k ∉ keys m) : value m k = 0 := by
  unfold value
  cases hf : find m k with
  | none => rfl
  | some e =>
      exfalso
      apply h
      have h1 := find_fst m k e hf
      have h2 : e ∈ m := List.mem_of_find?_eq_some hf
      exact List.mem_map.2 ⟨e, h2, h1⟩

theorem value_of_find (m : Sparse_Matrix) (k : Idx) (e : Idx × ℚ) (h : find m k = some e) :
    value m k = e.2 := by
  unfold value; rw [h]; rfl

theorem scatter_spec (lm : Sparse_Matrix) :
    ∀ (G L : List Idx), L.Sublist G → G.Nodup → (∀ l ∈ L, l ∈ keys lm) →
      scatter lm L G (List.replicate G.length 0)
        = some (G.map (fun k => if k ∈ L then value lm k else 0))
  | [], L, hsub, _, _ => by
      have : L = [] := List.sublist_nil.1 hsub
      subst this
      rfl
  | g :: gs, [], _, hnd, _ => by
      have ih := scatter_spec lm gs [] (List.nil_sublist _) (List.nodup_cons.1 hnd).2
        (fun l hl => absurd hl (List.not_mem_nil l))
      simp only [List.length_cons, List.replicate_succ, scatter]
      simp
  | g :: gs, l :: ls, hsub, hnd, hkeys => by
      have hg : g ∉ gs := (List.nodup_cons.1 hnd).1
      have hnd' : gs.Nodup := (List.nodup_cons.1 hnd).2
      simp only [List.length_cons, List.replicate_succ, scatter]
      by_cases hlg : l = g
      · subst hlg
        have hsub' : ls.Sublist gs := List.cons_sublist_cons.1 hsub
        obtain ⟨e, he⟩ := find_of_mem_keys lm l (hkeys l (List.mem_cons_self _ _))
        have he1 := find_fst lm l e he
        have ih := scatter_spec lm gs ls hsub' hnd'
          (fun x hx => hkeys x (List.mem_cons_of_mem _ hx))
        rw [if_pos rfl, he]
        simp only [he1, if_true, ih, Option.map_some', List.map_cons, List.mem_cons, true_or]
        rw [value_of_find lm l e he]
        congr 2
        apply List.map_congr_left
        intro k hk
        have : k ≠ l := fun h => hg (h ▸ hk)
        simp [this]
      · have hsub' : (l :: ls).Sublist gs := by
          cases hsub with
          | cons _ h => exact h
          | cons₂ _ h => exact absurd rfl hlg
        have ih := scatter_spec lm gs (l :: ls) hsub' hnd' hkeys
        have hgL : g ∉ l :: ls := fun h => hg (hsub'.subset h)
        rw [if_neg hlg, ih]
        simp only [Option.map_some', List.map_cons, if_neg hgL]

/-- A strictly increasing list whose members all lie in another one is a sublist of it. -/
theorem sublist_of_strict {l₁ l₂ : List Idx} (h₁ : l₁.Sorted (· < ·)) (h₂ : l₂.Sorted (· < ·))
    (h : ∀ x ∈ l₁, x ∈ l₂) : l₁.Sublist l₂ :=
  List.sublist_of_subperm_of_sorted (List.subperm_of_subset h₁.nodup h) h₁ h₂

/-! ### The phases of `build_matrix` -/

theorem begin_build_eq (w : Domain) (hne : w.local_matrix ≠ [])
    (hsz : w.local_matrix.length ≤ w.local_denominator.length * w.local_denominator.length) :
    begin_build w = some (built w.proc (std_sort (keys w.local_matrix)) []
      (w.local_denominator.length : Int), std_sort (keys w.local_matrix)) := by
  unfold begin_build
  rw [if_pos ⟨by simpa using hne, hsz⟩]
  simp [reset, built]

theorem begin_build_none (w : Domain)
    (h : ¬ (w.local_matrix ≠ [] ∧
      w.local_matrix.length ≤ w.local_denominator.length * w.local_denominator.length)) :
    begin_build w = none := by
  unfold begin_build
  rw [if_neg]
  intro h'
  exact h ⟨by simpa using h'.1, h'.2⟩

theorem build_matrix_require (NONE : Int) (world : List Domain) (h : ¬ Require_ok world) :
    build_matrix NONE world = none := by
  unfold Require_ok at h
  push_neg at h
  obtain ⟨w, hw, hbad⟩ := h
  obtain ⟨p, hp, hpw⟩ := List.getElem_of_mem hw
  have : all_ranks (fun p => world[p]?.bind begin_build) world.length = none := by
    apply all_ranks_none _ _ p hp
    simp only [List.getElem?_eq_getElem hp, hpw, Option.some_bind]
    apply begin_build_none
    intro h'
    exact absurd h'.2 (by have := hbad h'.1; omega)
  unfold build_matrix
  rw [this]

theorem mem_all_keys (world : List Domain) (k : Idx) :
    k ∈ all_keys world ↔ ∃ w ∈ world, k ∈ keys w.local_matrix := by
  unfold all_keys
  simp [List.mem_flatMap]

theorem sorted_distinct_keys_strict (world : List Domain) :
    (sorted_distinct_keys world).Sorted (· < ·) :=
  (List.sorted_insertionSort _ _).lt_of_le
    ((List.perm_insertionSort _ _).nodup_iff.2 (List.nodup_dedup _))

theorem sorted_distinct_keys_mem (world : List Domain) (k : Idx) :
    k ∈ sorted_distinct_keys world ↔ ∃ w ∈ world, k ∈ keys w.local_matrix := by
  unfold sorted_distinct_keys
  rw [(List.perm_insertionSort _ _).mem_iff, List.mem_dedup, mem_all_keys]

theorem build_begun (world : List Domain) (hreq : Require_ok world) :
    all_ranks (fun p => world[p]?.bind begin_build) world.length
      = some (world.map (fun w => (begun_proc w, std_sort (keys w.local_matrix)))) := by
  apply all_ranks_map
  intro i hi
  rw [List.getElem?_eq_getElem hi]
  have hw := hreq world[i] (List.getElem_mem hi)
  simp only [Option.some_bind, Option.map_some']
  exact begin_build_eq _ hw.1 hw.2

theorem begun_subtree_root (world : List Domain) (k : Idx) :
    subtree_mem (world.map begun_proc) 0 k ↔ ∃ w ∈ world, k ∈ keys w.local_matrix := by
  constructor
  · rintro ⟨m, s, -, hm, hk⟩
    rw [List.getElem?_map] at hm
    cases hw : world[m]? with
    | none => rw [hw] at hm; cases hm
    | some w =>
        rw [hw] at hm
        simp only [Option.map_some', Option.some.injEq] at hm
        subst hm
        refine ⟨w, List.getElem?_mem hw, ?_⟩
        exact (std_sort_mem _ k).1 hk
  · rintro ⟨w, hw, hk⟩
    obtain ⟨p, hp, hpw⟩ := List.getElem_of_mem hw
    refine ⟨p, begun_proc w, Desc.root p, ?_, (std_sort_mem _ k).2 hk⟩
    rw [List.getElem?_map, List.getElem?_eq_getElem hp, hpw]
    rfl

theorem build_reduced (NONE : Int) (hN : NONE < 0) (world : List Domain)
    (hw : World_ok NONE world) (hkeys : ∀ w ∈ world, (keys w.local_matrix).Nodup) :
    ∃ reduced, all_ranks (reduce NONE (world.map begun_proc) world.length) world.length
        = some reduced ∧
      (∀ (p : Nat) (w : Domain), world[p]? = some w → ∃ G, reduced[p]? = some { begun_proc w with d_graph := G }) ∧
      (∀ (w : Domain), world[0]? = some w →
        reduced[0]? = some { begun_proc w with d_graph := sorted_distinct_keys world }) := by
  have hlen : (world.map begun_proc).length = world.length := by simp
  have ht : Tree_ok NONE (world.map begun_proc) := by
    intro n s hs
    rw [List.getElem?_map] at hs
    cases hwn : world[n]? with
    | none => rw [hwn] at hs; cases hs
    | some w =>
        rw [hwn] at hs
        simp only [Option.map_some', Option.some.injEq] at hs
        subst hs
        have hn : n < world.length := by
          by_contra hc
          rw [List.getElem?_eq_none (by omega)] at hwn
          cases hwn
        have := hw n hn
        rw [hwn] at this
        simp only [Option.map_some', Option.some.injEq] at this
        rw [hlen]
        exact this
  have hsorted : ∀ (n : Nat) (s : Fission_Matrix_Processor),
      (world.map begun_proc)[n]? = some s → s.d_graph.Sorted (· < ·) := by
    intro n s hs
    rw [List.getElem?_map] at hs
    cases hwn : world[n]? with
    | none => rw [hwn] at hs; cases hs
    | some w =>
        rw [hwn] at hs
        simp only [Option.map_some', Option.some.injEq] at hs
        subst hs
        exact std_sort_strict _ (hkeys w (List.getElem?_mem hwn))
  have hspec := reduce_spec NONE hN (world.map begun_proc) ht hsorted world.length
  rw [hlen] at hspec
  obtain ⟨reduced, hred⟩ := all_ranks_total (reduce NONE (world.map begun_proc) world.length)
    world.length (fun i hi => by
      obtain ⟨s, G, -, h, -⟩ := hspec i hi (by omega)
      exact ⟨_, h⟩)
  refine ⟨reduced, hred, ?_, ?_⟩
  · intro p w hpw
    have hp : p < world.length := by
      by_contra hc
      rw [List.getElem?_eq_none (by omega)] at hpw
      cases hpw
    obtain ⟨s, G, hs, h, -⟩ := hspec p hp (by omega)
    rw [List.getElem?_map, hpw] at hs
    simp only [Option.map_some', Option.some.injEq] at hs
    subst hs
    exact ⟨G, by rw [← all_ranks_get _ _ _ hred p hp, h]⟩
  · intro w hpw
    have hp : 0 < world.length := by
      by_contra hc
      rw [List.getElem?_eq_none (by omega)] at hpw
      cases hpw
    obtain ⟨s, G, hs, h, hG, hmem⟩ := hspec 0 hp (by omega)
    rw [List.getElem?_map, hpw] at hs
    simp only [Option.map_some', Option.some.injEq] at hs
    subst hs
    have hGeq : G = sorted_distinct_keys world :=
      strict_sorted_ext hG (sorted_distinct_keys_strict world) (fun k => by
        rw [hmem, begun_subtree_root, sorted_distinct_keys_mem])
    rw [← all_ranks_get _ _ _ hred 0 hp, h, hGeq]

theorem world_node (NONE : Int) (world : List Domain) (hw : World_ok NONE world)
    (p : Nat) (w : Domain) (hpw : world[p]? = some w) : w.proc.d_node = (p : Int) := by
  have hp : p < world.length := by
    by_contra hc
    rw [List.getElem?_eq_none (by omega)] at hpw
    cases hpw
  have := hw p hp
  rw [hpw] at this
  simp only [Option.map_some', Option.some.injEq, tree, Prod.mk.injEq] at this
  rw [this.2.2.2.1]
  rfl

theorem build_scattered (NONE : Int) (world : List Domain) (hw : World_ok NONE world)
    (hkeys : ∀ w ∈ world, (keys w.local_matrix).Nodup)
    (reduced : List Fission_Matrix_Processor)
    (hred : ∀ (p : Nat) (w : Domain), world[p]? = some w →
      ∃ G, reduced[p]? = some { begun_proc w with d_graph := G })
    (hroot : ∀ (w : Domain), world[0]? = some w →
      reduced[0]? = some { begun_proc w with d_graph := sorted_distinct_keys world }) :
    all_ranks (scatter_rank world
        (world.map (fun w => (begun_proc w, std_sort (keys w.local_matrix)))) reduced
        (sorted_distinct_keys world)) world.length
      = some (world.map (fun w => built w.proc (sorted_distinct_keys world)
          ((sorted_distinct_keys world).map (value w.local_matrix))
          (w.local_denominator.length : Int))) := by
  apply all_ranks_map
  intro p hp
  have hpw : world[p]? = some world[p] := List.getElem?_eq_getElem hp
  generalize world[p] = w at hpw
  have hwmem : w ∈ world := List.getElem?_mem hpw
  obtain ⟨G, hG⟩ := hred p w hpw
  have hnode := world_node NONE world hw p w hpw
  have hbc : broadcast_graph (sorted_distinct_keys world) { begun_proc w with d_graph := G }
      = some { begun_proc w with d_graph := sorted_distinct_keys world } := by
    unfold broadcast_graph
    by_cases hp0 : p = 0
    · subst hp0
      have := hroot w hpw
      rw [hG] at this
      simp only [Option.some.injEq] at this
      rw [this]
      have h0 : ¬ (begun_proc w).d_node > 0 := by
        show ¬ w.proc.d_node > 0
        rw [hnode]; simp
      simp only [h0, if_false, if_true]
    · have h0 : (begun_proc w).d_node > 0 := by
        show w.proc.d_node > 0
        rw [hnode]; omega
      simp only [h0, if_true, List.length_replicate]
  have hsub : (std_sort (keys w.local_matrix)).Sublist (sorted_distinct_keys world) :=
    sublist_of_strict (std_sort_strict _ (hkeys w hwmem)) (sorted_distinct_keys_strict world)
      (fun x hx => (sorted_distinct_keys_mem world x).2 ⟨w, hwmem, (std_sort_mem _ x).1 hx⟩)
  have hsc := scatter_spec w.local_matrix (sorted_distinct_keys world)
    (std_sort (keys w.local_matrix)) hsub (sorted_distinct_keys_strict world).nodup
    (fun l hl => (std_sort_mem _ l).1 hl)
  have hmapeq : (sorted_distinct_keys world).map
        (fun k => if k ∈ std_sort (keys w.local_matrix) then value w.local_matrix k else 0)
      = (sorted_distinct_keys world).map (value w.local_matrix) := by
    apply List.map_congr_left
    intro k _
    by_cases hk : k ∈ std_sort (keys w.local_matrix)
    · rw [if_pos hk]
    · rw [if_neg hk, value_of_not_mem _ _ (fun h => hk ((std_sort_mem _ k).2 h))]
  rw [hmapeq] at hsc
  unfold scatter_rank
  rw [hpw, List.getElem?_map, hpw, hG]
  simp only [Option.map_some', hbc]
  have hres : resize (begun_proc w).d_matrix (sorted_distinct_keys world).length
      = List.replicate (sorted_distinct_keys world).length 0 := by
    show resize [] _ = _
    simp [resize]
  rw [hres, hsc]
  rfl

theorem build_normalized (world : List Domain) (N : Nat) (hne : world ≠ [])
    (hlen : ∀ w ∈ world, w.local_denominator.length = N) :
    all_ranks (normalize_rank world
        (world.map (fun w => built w.proc (sorted_distinct_keys world)
          ((sorted_distinct_keys world).map (value w.local_matrix))
          (w.local_denominator.length : Int)))
        (sorted_distinct_keys world).length) world.length
      = (normalize (summed_denominator world N) (sorted_distinct_keys world)
          ((sorted_distinct_keys world).map (summed_value world))).result.map
          (fun m => world.map (fun w => built w.proc (sorted_distinct_keys world) m N)) := by
  have hsum : global_sum (sorted_distinct_keys world).length
      ((world.map (fun w => built w.proc (sorted_distinct_keys world)
          ((sorted_distinct_keys world).map (value w.local_matrix))
          (w.local_denominator.length : Int))).map (fun t => t.d_matrix))
      = (sorted_distinct_keys world).map (summed_value world) := by
    rw [List.map_map]
    exact global_sum_map world (sorted_distinct_keys world) (fun w k => value w.local_matrix k)
  have hrank : ∀ (p : Nat) (w : Domain), world[p]? = some w →
      normalize_rank world
        (world.map (fun w => built w.proc (sorted_distinct_keys world)
          ((sorted_distinct_keys world).map (value w.local_matrix))
          (w.local_denominator.length : Int)))
        (sorted_distinct_keys world).length p
      = (normalize (summed_denominator world N) (sorted_distinct_keys world)
          ((sorted_distinct_keys world).map (summed_value world))).result.map
          (fun m => built w.proc (sorted_distinct_keys world) m N) := by
    intro p w hpw
    unfold normalize_rank
    rw [List.getElem?_map, hpw, hsum]
    have hN := hlen w (List.getElem?_mem hpw)
    simp only [Option.map_some', built, hN, Int.toNat_ofNat, summed_denominator]
    cases (normalize (global_sum N (world.map fun w => w.local_denominator))
      (sorted_distinct_keys world) ((sorted_distinct_keys world).map (summed_value world))).result
      <;> rfl
  cases hres : (normalize (summed_denominator world N) (sorted_distinct_keys world)
      ((sorted_distinct_keys world).map (summed_value world))).result with
  | none =>
      have h0 : 0 < world.length := List.length_pos.2 hne
      rw [Option.map_none']
      apply all_ranks_none _ _ 0 h0
      rw [hrank 0 world[0] (List.getElem?_eq_getElem h0), hres]
      rfl
  | some m =>
      rw [Option.map_some']
      apply all_ranks_map
      intro p hp
      rw [hrank p world[p] (List.getElem?_eq_getElem hp), hres, List.getElem?_eq_getElem hp]
      rfl

/-- What `build_matrix` computes on a run that passes its `REQUIRE`s: every
rank ends with the sorted distinct keys as graph and, when the normalization
loop passes its checks, the normalized summed values as matrix. -/
theorem build_matrix_eq (NONE : Int) (hN : NONE < 0) (world : List Domain) (N : Nat)
    (hne : world ≠ []) (hw : World_ok NONE world)
    (hkeys : ∀ w ∈ world, (keys w.local_matrix).Nodup)
    (hlen : ∀ w ∈ world, w.local_denominator.length = N)
    (hreq : Require_ok world) :
    build_matrix NONE world
      = (normalize (summed_denominator world N) (sorted_distinct_keys world)
          ((sorted_distinct_keys world).map (summed_value world))).result.map
          (fun m => world.map (fun w => built w.proc (sorted_distinct_keys world) m N)) := by
  obtain ⟨reduced, hred, hall, hroot⟩ := build_reduced NONE hN world hw hkeys
  have h0 : 0 < world.length := List.length_pos.2 hne
  have hhead : reduced.head? = some { begun_proc world[0] with
      d_graph := sorted_distinct_keys world } := by
    rw [← hroot world[0] (List.getElem?_eq_getElem h0)]
    cases reduced <;> simp
  unfold build_matrix
  rw [build_begun world hreq]
  simp only [List.map_map]
  have hfst : (Prod.fst ∘ fun w : Domain => (begun_proc w, std_sort (keys w.local_matrix)))
      = begun_proc := rfl
  rw [hfst, hred]
  simp only [hhead]
  rw [build_scattered NONE world hw hkeys reduced hall hroot]
  exact build_normalized world N hne hlen

/-! ### The normalization loop -/

theorem normalize_divisors_pos (den : Denominator) :
    ∀ (G : Ordered_Graph) (M : Ordered_Matrix), ∀ d ∈ (normalize den G M).divisors, 0 < d
  | [], _, d, hd => by simp [normalize] at hd
  | _ :: _, [], d, hd => by simp [normalize] at hd
  | g :: gs, x :: ms, d, hd => by
      simp only [normalize] at hd
      by_cases h1 : 0 ≤ g.second ∧ g.second < den.length
      · by_cases h2 : den.getD g.second.toNat 0 > 0
        · rw [if_pos h1, if_pos h2] at hd
          rcases List.mem_cons.1 hd with rfl | hd'
          · exact h2
          · exact normalize_divisors_pos den gs ms d hd'
        · rw [if_pos h1, if_neg h2] at hd
          simp at hd
      · rw [if_neg h1] at hd
        simp at hd

theorem normalize_divisors (den : Denominator) :
    ∀ (G : Ordered_Graph) (M : Ordered_Matrix), G.length ≤ M.length →
      (normalize den G M).divisors
        = (G.takeWhile (fun g => decide (src_ok den g))).map
            (fun g => den.getD g.second.toNat 0)
  | [], _, _ => by simp [normalize]
  | _ :: _, [], h => by simp at h
  | g :: gs, x :: ms, h => by
      have ih := normalize_divisors den gs ms (by simpa using h)
      simp only [normalize, List.takeWhile_cons]
      by_cases h1 : 0 ≤ g.second ∧ g.second < den.length
      · by_cases h2 : den.getD g.second.toNat 0 > 0
        · have hok : src_ok den g := ⟨h1, h2⟩
          rw [if_pos h1, if_pos h2]
          simp only [hok, decide_True, if_true, List.map_cons, ih]
        · have hok : ¬ src_ok den g := fun h => h2 h.2
          rw [if_pos h1, if_neg h2]
          simp [hok]
      · have hok : ¬ src_ok den g := fun h => h1 h.1
        rw [if_neg h1]
        simp [hok]

theorem normalize_good (den : Denominator) :
    ∀ (G : Ordered_Graph) (M : Ordered_Matrix), G.length = M.length →
      (∀ g ∈ G, src_ok den g) →
      (normalize den G M).result
        = some (List.zipWith (fun g x => x / den.getD g.second.toNat 0) G M)
  | [], [], _, _ => by simp [normalize]
  | [], _ :: _, h, _ => by simp at h
  | _ :: _, [], h, _ => by simp at h
  | g :: gs, x :: ms, h, hok => by
      have ih := normalize_good den gs ms (by simpa using h)
        (fun g' hg' => hok g' (List.mem_cons_of_mem _ hg'))
      have hg := hok g (List.mem_cons_self _ _)
      simp only [normalize]
      rw [if_pos hg.1, if_pos hg.2]
      simp only [ih, Option.map_some', List.zipWith_cons_cons]

theorem normalize_bad (den : Denominator) :
    ∀ (G : Ordered_Graph) (M : Ordered_Matrix), G.length ≤ M.length →
      (∃ g ∈ G, ¬ src_ok den g) → (normalize den G M).result = none
  | [], _, _, h => by simp at h
  | _ :: _, [], h, _ => by simp at h
  | g :: gs, x :: ms, h, hbad => by
      simp only [normalize]
      by_cases h1 : 0 ≤ g.second ∧ g.second < den.length
      · by_cases h2 : den.getD g.second.toNat 0 > 0
        · rw [if_pos h1, if_pos h2]
          obtain ⟨g', hg', hb⟩ := hbad
          rcases List.mem_cons.1 hg' with rfl | hin
          · exact absurd ⟨h1, h2⟩ hb
          · simp only [normalize_bad den gs ms (by simpa using h) ⟨g', hin, hb⟩,
              Option.map_none']
        · rw [if_pos h1, if_neg h2]
      · rw [if_neg h1]

theorem normalize_length (den : Denominator) :
    ∀ (G : Ordered_Graph) (M m : Ordered_Matrix),
      (normalize den G M).result = some m → m.length = M.length
  | [], M, m, h => by
      simp only [normalize, Option.some.injEq] at h
      rw [h]
  | _ :: _, [], m, h => by
      simp only [normalize, Option.some.injEq] at h
      rw [h]
  | g :: gs, x :: ms, m, h => by
      simp only [normalize] at h
      by_cases h1 : 0 ≤ g.second ∧ g.second < den.length
      · by_cases h2 : den.getD g.second.toNat 0 > 0
        · rw [if_pos h1, if_pos h2] at h
          cases hr : (normalize den gs ms).result with
          | none => rw [hr] at h; cases h
          | some r =>
              rw [hr] at h
              simp only [Option.map_some', Option.some.injEq] at h
              rw [← h]
              simp [normalize_length den gs ms r hr]
        · rw [if_pos h1, if_neg h2] at h
          cases h
      · rw [if_neg h1] at h
        cases h

/-! ### Outcome of a run -/

/-- A run that passes the `REQUIRE`s and whose normalization checks all pass
completes, every rank holding the sorted distinct keys and the normalized sums. -/
theorem build_matrix_some (NONE : Int) (hN : NONE < 0) (world : List Domain) (N : Nat)
    (hne : 0 < world.length) (hw : World_ok NONE world)
    (hkeys : ∀ w ∈ world, (keys w.local_matrix).Nodup)
    (hlen : ∀ w ∈ world, w.local_denominator.length = N)
    (hreq : Require_ok world)
    (hsrc : ∀ g ∈ sorted_distinct_keys world, src_ok (summed_denominator world N) g) :
    build_matrix NONE world = some (world.map (fun w =>
      built w.proc (sorted_distinct_keys world)
        (List.zipWith (fun g x => x / (summed_denominator world N).getD g.second.toNat 0)
          (sorted_distinct_keys world) (summed_matrix world)) N)) := by
  rw [build_matrix_eq NONE hN world N (List.length_pos.1 hne) hw hkeys hlen hreq]
  have := normalize_good (summed_denominator world N) (sorted_distinct_keys world)
    (summed_matrix world) (by simp [summed_matrix]) hsrc
  unfold summed_matrix at this ⊢
  rw [this]
  rfl

/-- A run whose normalization meets a source index that fails a check stops. -/
theorem build_matrix_none (NONE : Int) (hN : NONE < 0) (world : List Domain) (N : Nat)
    (hne : 0 < world.length) (hw : World_ok NONE world)
    (hkeys : ∀ w ∈ world, (keys w.local_matrix).Nodup)
    (hlen : ∀ w ∈ world, w.local_denominator.length = N)
    (hsrc : ∃ g ∈ sorted_distinct_keys world, ¬ src_ok (summed_denominator world N) g) :
    build_matrix NONE world = none := by
  by_cases hreq : Require_ok world
  · rw [build_matrix_eq NONE hN world N (List.length_pos.1 hne) hw hkeys hlen hreq]
    have := normalize_bad (summed_denominator world N) (sorted_distinct_keys world)
      (summed_matrix world) (by simp [summed_matrix]) hsrc
    unfold summed_matrix at this
    rw [this]
    rfl
  · exact build_matrix_require NONE world hreq

theorem zipWith_div_get (D : Denominator) (G : List Idx) (f : Idx → ℚ) (n : Nat)
    (h : n < G.length) :
    (List.zipWith (fun g x => x / D.getD g.second.toNat 0) G (G.map f))[n]?
      = some (f G[n] / D.getD G[n].second.toNat 0) := by
  rw [List.getElem?_eq_getElem (by simpa using h)]
  simp

/-! ### Alignment of graph and matrix -/

theorem broadcast_graph_graph (G : Ordered_Graph) (s t : Fission_Matrix_Processor)
    (h : broadcast_graph G s = some t) : t.d_graph = G := by
  unfold broadcast_graph at h
  simp only [Option.ite_none_right_eq_some, Option.some.injEq] at h
  rw [← h.2]

theorem scatter_rank_graph (world : List Domain)
    (begun : List (Fission_Matrix_Processor × Ordered_Graph))
    (reduced : List Fission_Matrix_Processor) (G : Ordered_Graph) (p : Nat)
    (t : Fission_Matrix_Processor) (h : scatter_rank world begun reduced G p = some t) :
    t.d_graph = G := by
  unfold scatter_rank at h
  split at h
  · rename_i w b s _ _ _
    cases hb : broadcast_graph G s with
    | none => rw [hb] at h; cases h
    | some s1 =>
        rw [hb] at h
        simp only [] at h
        cases hs : scatter w.local_matrix b.2 s1.d_graph (resize s1.d_matrix G.length) with
        | none => rw [hs] at h; cases h
        | some m =>
            rw [hs] at h
            simp only [Option.some.injEq] at h
            rw [← h]
            exact broadcast_graph_graph G s s1 hb
  · cases h

theorem global_sum_length (n : Nat) (vs : List (List ℚ)) : (global_sum n vs).length = n := by
  simp [global_sum]

theorem normalize_rank_lengths (world : List Domain) (scattered : List Fission_Matrix_Processor)
    (size p : Nat) (s : Fission_Matrix_Processor)
    (h : normalize_rank world scattered size p = some s) :
    ∃ t, scattered[p]? = some t ∧ s.d_graph = t.d_graph ∧ s.d_matrix.length = size := by
  unfold normalize_rank at h
  cases ht : scattered[p]? with
  | none => rw [ht] at h; cases h
  | some t =>
      rw [ht] at h
      simp only [] at h
      split at h
      · cases h
      · rename_i m hm
        simp only [Option.some.injEq] at h
        refine ⟨t, rfl, by rw [← h], ?_⟩
        rw [← h]
        show m.length = size
        rw [normalize_length _ _ _ m hm, global_sum_length]

/-- After a completed run the graph and the matrix of every rank have the
length of the graph the root held after `reduce`, the size that is broadcast. -/
theorem build_matrix_lengths (NONE : Int) (world : List Domain)
    (l : List Fission_Matrix_Processor) (h : build_matrix NONE world = some l) :
    ∃ begun reduced root,
      all_ranks (fun p => world[p]?.bind begin_build) world.length = some begun ∧
      all_ranks (reduce NONE (begun.map Prod.fst) world.length) world.length = some reduced ∧
      reduced.head? = some root ∧
      ∀ s ∈ l, s.d_graph.length = root.d_graph.length ∧
        s.d_matrix.length = root.d_graph.length := by
  unfold build_matrix at h
  split at h
  · cases h
  · rename_i begun hbegun
    split at h
    · cases h
    · rename_i reduced hreduced
      split at h
      · cases h
      · rename_i root hroot
        split at h
        · cases h
        · rename_i scattered hsc
          refine ⟨begun, reduced, root, hbegun, hreduced, hroot, fun s hs => ?_⟩
          obtain ⟨p, hp, hps⟩ := List.getElem_of_mem hs
          have hlen := all_ranks_length _ _ _ h
          have hget := all_ranks_get _ _ _ h p (by omega)
          rw [List.getElem?_eq_getElem hp, hps] at hget
          obtain ⟨t, ht, hg, hm⟩ := normalize_rank_lengths _ _ _ _ _ hget
          have hget2 := all_ranks_get _ _ _ hsc p (by omega)
          rw [ht] at hget2
          rw [hg, scatter_rank_graph _ _ _ _ _ _ hget2]
          exact ⟨rfl, hm⟩

/-! ### The reference accumulation -/

theorem value_cons (e : Idx × ℚ) (t : Sparse_Matrix) (k : Idx) :
    value (e :: t) k = if e.1 = k then e.2 else value t k := by
  unfold value find
  by_cases h : e.1 = k
  · simp [List.find?_cons, h]
  · simp [List.find?_cons, h]

theorem value_nil (k : Idx) : value [] k = 0 := rfl

theorem value_accumulate_entry (e : Idx × ℚ) (k : Idx) :
    ∀ acc : Sparse_Matrix,
      value (accumulate_entry acc e) k = value acc k + if e.1 = k then e.2 else 0
  | [] => by simp [accumulate_entry, value_cons, value_nil]
  | (k', v) :: t => by
      have ih := value_accumulate_entry e k t
      unfold accumulate_entry
      by_cases h : k' = e.1
      · rw [if_pos h, value_cons, value_cons]
        by_cases hk : k' = k
        · have : e.1 = k := by rw [← h]; exact hk
          simp [hk, this]
        · have : ¬ e.1 = k := by rw [← h]; exact hk
          simp [hk, this]
      · rw [if_neg h, value_cons, value_cons, ih]
        by_cases hk : k' = k
        · have : ¬ e.1 = k := by rw [← hk]; exact fun h' => h h'.symm
          simp [hk, this]
        · simp [hk]

theorem keys_accumulate_entry (e : Idx × ℚ) :
    ∀ acc : Sparse_Matrix,
      keys (accumulate_entry acc e) = if e.1 ∈ keys acc then keys acc else keys acc ++ [e.1]
  | [] => by simp [accumulate_entry, keys]
  | (k', v) :: t => by
      have ih := keys_accumulate_entry e t
      unfold accumulate_entry
      by_cases h : k' = e.1
      · rw [if_pos h]
        simp [keys, h]
      · rw [if_neg h]
        have hne : ¬ e.1 = k' := fun h' => h h'.symm
        simp only [keys, List.map_cons, List.mem_cons, hne, false_or] at ih ⊢
        rw [ih]
        split <;> simp

theorem value_foldl_accumulate (k : Idx) :
    ∀ (es acc : Sparse_Matrix),
      value (es.foldl accumulate_entry acc) k
        = value acc k + (es.map (fun e => if e.1 = k then e.2 else 0)).sum
  | [], acc => by simp
  | e :: es, acc => by
      rw [List.foldl_cons, value_foldl_accumulate k es, value_accumulate_entry]
      simp [add_assoc]

theorem keys_foldl_accumulate :
    ∀ (es acc : Sparse_Matrix), (keys acc).Nodup →
      (keys (es.foldl accumulate_entry acc)).Nodup ∧
      ∀ k, k ∈ keys (es.foldl accumulate_entry acc) ↔ k ∈ keys acc ∨ k ∈ keys es
  | [], acc, h => ⟨h, fun k => by simp [keys]⟩
  | e :: es, acc, h => by
      have hstep : (keys (accumulate_entry acc e)).Nodup := by
        rw [keys_accumulate_entry]
        split
        · exact h
        · rename_i hnot
          exact List.Nodup.append h (List.nodup_singleton _) (by simpa using hnot)
      obtain ⟨h1, h2⟩ := keys_foldl_accumulate es (accumulate_entry acc e) hstep
      refine ⟨h1, fun k => ?_⟩
      rw [List.foldl_cons, h2, keys_accumulate_entry]
      have hk : keys (e :: es) = e.1 :: keys es := rfl
      rw [hk, List.mem_cons]
      split
      · rename_i hin
        constructor
        · rintro (h' | h')
          · exact Or.inl h'
          · exact Or.inr (Or.inr h')
        · rintro (h' | h' | h')
          · exact Or.inl h'
          · exact Or.inl (h' ▸ hin)
          · exact Or.inr h'
      · rw [List.mem_append, List.mem_singleton]
        tauto

theorem sum_entries_eq_value (k : Idx) :
    ∀ m : Sparse_Matrix, (keys m).Nodup →
      (m.map (fun e => if e.1 = k then e.2 else 0)).sum = value m k
  | [], _ => rfl
  | e :: t, h => by
      have hk : keys (e :: t) = e.1 :: keys t := rfl
      rw [hk, List.nodup_cons] at h
      rw [List.map_cons, List.sum_cons, value_cons, sum_entries_eq_value k t h.2]
      by_cases he : e.1 = k
      · rw [if_pos he, if_pos he, value_of_not_mem t k (he ▸ h.1), add_zero]
      · rw [if_neg he, if_neg he, zero_add]

theorem value_accumulated_map (world : List Domain)
    (hkeys : ∀ w ∈ world, (keys w.local_matrix).Nodup) (k : Idx) :
    value (accumulated_map world) k = summed_value world k := by
  unfold accumulated_map summed_value
  rw [value_foldl_accumulate, value_nil, zero_add]
  induction world with
  | nil => rfl
  | cons w ws ih =>
      rw [List.flatMap_cons, List.map_append, List.sum_append, List.map_cons, List.sum_cons,
        ih (fun w' hw' => hkeys w' (List.mem_cons_of_mem _ hw')),
        sum_entries_eq_value k _ (hkeys w (List.mem_cons_self _ _))]

theorem keys_flatMap (world : List Domain) :
    keys (world.flatMap (fun w => w.local_matrix)) = all_keys world := by
  unfold keys all_keys
  induction world with
  | nil => rfl
  | cons w ws ih => rw [List.flatMap_cons, List.map_append, ih, List.flatMap_cons]; rfl

theorem keys_accumulated_map (world : List Domain) :
    (keys (accumulated_map world)).Nodup ∧
    ∀ k, k ∈ keys (accumulated_map world) ↔ k ∈ all_keys world := by
  obtain ⟨h1, h2⟩ := keys_foldl_accumulate (world.flatMap (fun w => w.local_matrix)) []
    List.nodup_nil
  refine ⟨h1, fun k => ?_⟩
  unfold accumulated_map
  rw [h2, keys_flatMap]
  simp [keys]

/-! ### Freshly constructed runs -/

theorem fresh_world_length (NONE : Int) (args : List (Sparse_Matrix × Denominator)) :
    (fresh_world NONE args).length = args.length := by
  simp [fresh_world]

theorem fresh_world_get (NONE : Int) (args : List (Sparse_Matrix × Denominator)) (p : Nat) :
    (fresh_world NONE args)[p]? = args[p]?.map (fun a =>
      { proc := Fission_Matrix_Processor.create NONE p args.length 0,
        local_matrix := a.1, local_denominator := a.2 }) := by
  unfold fresh_world
  rw [List.getElem?_zipWith]
  by_cases hp : p < args.length
  · rw [List.getElem?_eq_getElem (by simpa using hp), List.getElem?_eq_getElem hp]
    simp
  · rw [List.getElem?_eq_none (by simpa using hp), List.getElem?_eq_none (by omega)]
    rfl

/-- A freshly constructed run of fewer than `2^30` processes holds on every
rank the node of the binary tree. -/
theorem fresh_world_ok (NONE : Int) (args : List (Sparse_Matrix × Denominator))
    (hargs : args.length < 1073741824) :
    World_ok NONE (fresh_world NONE args) := by
  intro p hp
  rw [fresh_world_length] at hp
  rw [fresh_world_get, List.getElem?_eq_getElem hp, fresh_world_length]
  simp only [Option.map_some']
  rw [create_eq_tree_node NONE 0 p args.length hp hargs]

theorem fresh_world_single (NONE : Int) (m : Sparse_Matrix) (d : Denominator) :
    fresh_world NONE [(m, d)]
      = [{ proc := Fission_Matrix_Processor.create NONE 0 1 0,
           local_matrix := m, local_denominator := d }] := rfl

theorem global_sum_single (N : Nat) (d : List ℚ) (h : d.length = N) :
    global_sum N [d] = d := by
  unfold global_sum
  apply List.ext_getElem
  · simp [h]
  · intro i h1 h2
    simp [List.getD_eq_getElem?_getD, List.getElem?_eq_getElem h2]

theorem summed_value_single (w : Domain) (k : Idx) :
    summed_value [w] k = value w.local_matrix k := by
  simp [summed_value]

theorem sorted_distinct_keys_single (w : Domain) (h : (keys w.local_matrix).Nodup) :
    sorted_distinct_keys [w] = std_sort (keys w.local_matrix) :=
  strict_sorted_ext (sorted_distinct_keys_strict _) (std_sort_strict _ h) (fun k => by
    rw [sorted_distinct_keys_mem, std_sort_mem]
    simp)

/-- The single-rank run on the accumulated map computes the matrix of the
parallel run. -/
theorem accumulated_world_build (NONE : Int) (hN : NONE < 0) (world : List Domain) (N : Nat)
    (hne : 0 < world.length)
    (hkeys : ∀ w ∈ world, (keys w.local_matrix).Nodup)
    (hreq : Require_ok world)
    (hsrc : ∀ g ∈ sorted_distinct_keys world, src_ok (summed_denominator world N) g)
    (hacc : (accumulated_map world).length ≤ N * N) :
    build_matrix NONE (accumulated_world NONE world N)
      = some [built (Fission_Matrix_Processor.create NONE 0 1 0) (sorted_distinct_keys world)
          (List.zipWith (fun g x => x / (summed_denominator world N).getD g.second.toNat 0)
            (sorted_distinct_keys world) (summed_matrix world)) N] := by
  have hDlen : (summed_denominator world N).length = N := global_sum_length _ _
  obtain ⟨hnd, hmem⟩ := keys_accumulated_map world
  have hG : sorted_distinct_keys (accumulated_world NONE world N) = sorted_distinct_keys world :=
    strict_sorted_ext (sorted_distinct_keys_strict _) (sorted_distinct_keys_strict _) (fun k => by
      rw [sorted_distinct_keys_mem, sorted_distinct_keys_mem, ← mem_all_keys world]
      simp only [accumulated_world, fresh_world_single, List.mem_singleton, exists_eq_left]
      exact hmem k)
  have hD : summed_denominator (accumulated_world NONE world N) N = summed_denominator world N := by
    unfold summed_denominator
    simp only [accumulated_world, fresh_world_single, List.map_cons, List.map_nil]
    exact global_sum_single N _ hDlen
  have hM : summed_matrix (accumulated_world NONE world N) = summed_matrix world := by
    unfold summed_matrix
    rw [hG]
    apply List.map_congr_left
    intro k _
    simp only [accumulated_world, fresh_world_single, summed_value_single]
    exact value_accumulated_map world hkeys k
  have hnonempty : accumulated_map world ≠ [] := by
    obtain ⟨w, hw⟩ := List.exists_mem_of_length_pos hne
    have hwne := (hreq w hw).1
    obtain ⟨e, he⟩ := List.exists_mem_of_ne_nil _ hwne
    have : e.1 ∈ keys (accumulated_map world) :=
      (hmem e.1).2 ((mem_all_keys world e.1).2 ⟨w, hw, List.mem_map.2 ⟨e, he, rfl⟩⟩)
    intro h
    rw [h] at this
    simp [keys] at this
  have := build_matrix_some NONE hN (accumulated_world NONE world N) N
    (by simp [accumulated_world, fresh_world_single])
    (fresh_world_ok NONE _ (by simp))
    (by
      intro w hw
      simp only [accumulated_world, fresh_world_single, List.mem_singleton] at hw
      subst hw; exact hnd)
    (by
      intro w hw
      simp only [accumulated_world, fresh_world_single, List.mem_singleton] at hw
      subst hw; exact hDlen)
    (by
      intro w hw
      simp only [accumulated_world, fresh_world_single, List.mem_singleton] at hw
      subst hw
      exact ⟨hnonempty, by rw [hDlen]; exact hacc⟩)
    (by rw [hG, hD]; exact hsrc)
  rw [this, hG, hD, hM]
  rfl

/-! ### Independence from the prior state -/

theorem begin_build_clear_prior (w : Domain) : begin_build (clear_prior w) = begin_build w := by
  unfold begin_build clear_prior reset
  simp

theorem scatter_rank_clear_prior (world : List Domain)
    (begun : List (Fission_Matrix_Processor × Ordered_Graph))
    (reduced : List Fission_Matrix_Processor) (G : Ordered_Graph) (p : Nat) :
    scatter_rank (world.map clear_prior) begun reduced G p = scatter_rank world begun reduced G p := by
  unfold scatter_rank
  rw [List.getElem?_map]
  cases world[p]? with
  | none => rfl
  | some w =>
      simp only [Option.map_some']
      cases begun[p]? <;> cases reduced[p]? <;> rfl

theorem build_matrix_clear_prior (NONE : Int) (world : List Domain) :
    build_matrix NONE world = build_matrix NONE (world.map clear_prior) := by
  have h1 : (fun p : Nat => (world.map clear_prior)[p]?.bind begin_build)
      = (fun p : Nat => world[p]?.bind begin_build) := by
    funext p
    rw [List.getElem?_map]
    cases world[p]? with
    | none => rfl
    | some w => exact begin_build_clear_prior w
  have h2 : ∀ begun reduced G, scatter_rank (world.map clear_prior) begun reduced G
      = scatter_rank world begun reduced G := by
    intro begun reduced G
    funext p
    exact scatter_rank_clear_prior world begun reduced G p
  have h3 : ∀ scattered size, normalize_rank (world.map clear_prior) scattered size
      = normalize_rank world scattered size := by
    intro scattered size
    funext p
    unfold normalize_rank
    simp only [List.map_map]
    rfl
  unfold build_matrix
  simp only [List.length_map, h1, h2, h3]

/-- The single-rank run on the accumulated map stops on the size `REQUIRE`
when the accumulated map has more than `N * N` entries. -/
theorem accumulated_world_require (NONE : Int) (world : List Domain) (N : Nat)
    (h : N * N < (accumulated_map world).length) :
    build_matrix NONE (accumulated_world NONE world N) = none := by
  apply build_matrix_require
  intro hreq
  have hmem : (⟨Fission_Matrix_Processor.create NONE 0 1 0, accumulated_map world,
      summed_denominator world N⟩ : Domain) ∈ accumulated_world NONE world N := by
    simp [accumulated_world, fresh_world_single]
  have := (hreq _ hmem).2
  simp only [summed_denominator, global_sum_length] at this
  omega

/-! ## The claims on `build_matrix` -/

/-- C5: a freshly constructed processor has an empty graph and an empty
matrix; `reset` always returns and leaves both empty; after a completed
`build_matrix` the graph and the matrix of every rank both have the length of
the graph the root held after `reduce`, which is the size that is broadcast. -/
theorem graph_matrix_aligned (NONE node nodes N0 : Int) (s0 : Fission_Matrix_Processor)
    (world : List Domain) (l : List Fission_Matrix_Processor)
    (h : build_matrix NONE world = some l) :
    ((Fission_Matrix_Processor.create NONE node nodes N0).d_graph.length = 0 ∧
      (Fission_Matrix_Processor.create NONE node nodes N0).d_matrix.length = 0) ∧
    (∃ s1, reset s0 = some s1 ∧ s1.d_graph.length = 0 ∧ s1.d_matrix.length = 0) ∧
    ∃ begun reduced root,
      all_ranks (fun p => world[p]?.bind begin_build) world.length = some begun ∧
      all_ranks (reduce NONE (begun.map Prod.fst) world.length) world.length = some reduced ∧
      reduced.head? = some root ∧
      ∀ s ∈ l, s.d_graph.length = root.d_graph.length ∧
        s.d_matrix.length = root.d_graph.length := by
  refine ⟨⟨rfl, rfl⟩, ⟨{ s0 with d_graph := [], d_matrix := [] }, ?_, rfl, rfl⟩,
    build_matrix_lengths NONE world l h⟩
  simp [reset]

theorem graph_matrix_aligned_witness :
    ((Fission_Matrix_Processor.create (-1) 1 3 0).d_graph.length = 0 ∧
      (Fission_Matrix_Processor.create (-1) 1 3 0).d_matrix.length = 0) ∧
    (∃ s1, reset (built (Fission_Matrix_Processor.create (-1) 1 3 0) [⟨0, 0⟩] [1] 1) = some s1 ∧
      s1.d_graph.length = 0 ∧ s1.d_matrix.length = 0) ∧
    ∃ begun reduced root,
      all_ranks (fun p => world3[p]?.bind begin_build) world3.length = some begun ∧
      all_ranks (reduce (-1) (begun.map Prod.fst) world3.length) world3.length = some reduced ∧
      reduced.head? = some root ∧
      ∀ s ∈ world3_built, s.d_graph.length = root.d_graph.length ∧
        s.d_matrix.length = root.d_graph.length :=
  graph_matrix_aligned (-1) 1 3 0 (built (Fission_Matrix_Processor.create (-1) 1 3 0) [⟨0, 0⟩] [1] 1)
    world3 world3_built (by decide!)

theorem scatter_steps_fst (lm : Sparse_Matrix) :
    ∀ (G L : Ordered_Graph) (M : Ordered_Matrix),
      (scatter_steps lm L G M).1 = scatter lm L G M
  | _, [], _ => by simp [scatter_steps, scatter]
  | _, _ :: _, [] => by simp [scatter_steps, scatter]
  | [], _ :: _, _ :: _ => by simp [scatter_steps, scatter]
  | g :: gs, l :: ls, x :: ms => by
      have ih1 := scatter_steps_fst lm gs ls ms
      have ih2 := scatter_steps_fst lm gs (l :: ls) ms
      simp only [scatter_steps, scatter]
      by_cases hlg : l = g
      · rw [if_pos hlg, if_pos hlg]
        cases find lm l with
        | none => rfl
        | some e =>
            simp only []
            by_cases he : e.1 = l
            · rw [if_pos he, if_pos he, ih1]
            · rw [if_neg he, if_neg he]
      · rw [if_neg hlg, if_neg hlg, ih2]

theorem scatter_steps_le (lm : Sparse_Matrix) :
    ∀ (G L : Ordered_Graph) (M : Ordered_Matrix), (scatter_steps lm L G M).2 ≤ G.length
  | _, [], _ => by simp [scatter_steps]
  | _, _ :: _, [] => by simp [scatter_steps]
  | [], _ :: _, _ :: _ => by simp [scatter_steps]
  | g :: gs, l :: ls, x :: ms => by
      have ih1 := scatter_steps_le lm gs ls ms
      have ih2 := scatter_steps_le lm gs (l :: ls) ms
      simp only [scatter_steps, List.length_cons]
      by_cases hlg : l = g
      · rw [if_pos hlg]
        cases find lm l with
        | none => simp
        | some e =>
            simp only []
            by_cases he : e.1 = l
            · rw [if_pos he]; simpa using ih1
            · rw [if_neg he]; simp
      · rw [if_neg hlg]; simpa using ih2

/-- C20: when the local graph is strictly increasing (sorted, duplicate-free)
and holds the keys of the local map, and each of its entries occurs in the
strictly increasing global graph, the merge-join of `build_matrix` on the
zeroed matrix of the global size runs to its end without a failing `CHECK`
(neither the global nor the matrix iterator reaches its end while local
entries remain), in at most (global graph size) iterations, and leaves at
every position `n` the local map's value at `graph[n]` when `graph[n]` is a
key of the local map and 0 otherwise. -/
theorem merge_join_scatters_local_values (local_matrix : Sparse_Matrix)
    (local_graph d_graph : Ordered_Graph)
    (hlocal : local_graph.Sorted (· < ·))
    (hkeys : ∀ k ∈ local_graph, k ∈ keys local_matrix)
    (hkeys2 : ∀ k ∈ keys local_matrix, k ∈ local_graph)
    (hglobal : d_graph.Sorted (· < ·))
    (hsub : ∀ k ∈ local_graph, k ∈ d_graph) :
    ∃ m, scatter local_matrix local_graph d_graph (resize [] d_graph.length) = some m ∧
      m.length = d_graph.length ∧
      (∀ (n : Nat) (hn : n < d_graph.length),
        m[n]? = some (if d_graph[n] ∈ keys local_matrix then value local_matrix d_graph[n]
          else 0)) ∧
      (scatter_steps local_matrix local_graph d_graph (resize [] d_graph.length)).1 = some m ∧
      (scatter_steps local_matrix local_graph d_graph (resize [] d_graph.length)).2
        ≤ d_graph.length := by
  have hres : resize [] d_graph.length = List.replicate d_graph.length 0 := by simp [resize]
  have hsc := scatter_spec local_matrix d_graph local_graph
    (sublist_of_strict hlocal hglobal hsub) hglobal.nodup hkeys
  rw [hres]
  refine ⟨_, hsc, by simp, fun n hn => ?_, by rw [scatter_steps_fst, hsc],
    scatter_steps_le _ _ _ _⟩
  rw [List.getElem?_map, List.getElem?_eq_getElem hn]
  have hiff : d_graph[n] ∈ local_graph ↔ d_graph[n] ∈ keys local_matrix :=
    ⟨hkeys _, hkeys2 _⟩
  simp only [Option.map_some', hiff]

theorem merge_join_scatters_local_values_witness :
    ∃ m, scatter [(⟨2, 1⟩, 3), (⟨0, 0⟩, 1)] [⟨0, 0⟩, ⟨2, 1⟩]
        [⟨0, 0⟩, ⟨0, 1⟩, ⟨1, 1⟩, ⟨2, 1⟩]
        (resize [] ([⟨0, 0⟩, ⟨0, 1⟩, ⟨1, 1⟩, ⟨2, 1⟩] : Ordered_Graph).length) = some m ∧
      m.length = ([⟨0, 0⟩, ⟨0, 1⟩, ⟨1, 1⟩, ⟨2, 1⟩] : Ordered_Graph).length ∧
      (∀ (n : Nat) (hn : n < ([⟨0, 0⟩, ⟨0, 1⟩, ⟨1, 1⟩, ⟨2, 1⟩] : Ordered_Graph).length),
        m[n]? = some (if ([⟨0, 0⟩, ⟨0, 1⟩, ⟨1, 1⟩, ⟨2, 1⟩] : Ordered_Graph)[n]
              ∈ keys [(⟨2, 1⟩, 3), (⟨0, 0⟩, 1)]
            then value [(⟨2, 1⟩, 3), (⟨0, 0⟩, 1)]
              ([⟨0, 0⟩, ⟨0, 1⟩, ⟨1, 1⟩, ⟨2, 1⟩] : Ordered_Graph)[n]
            else 0)) ∧
      (scatter_steps [(⟨2, 1⟩, 3), (⟨0, 0⟩, 1)] [⟨0, 0⟩, ⟨2, 1⟩]
        [⟨0, 0⟩, ⟨0, 1⟩, ⟨1, 1⟩, ⟨2, 1⟩]
        (resize [] ([⟨0, 0⟩, ⟨0, 1⟩, ⟨1, 1⟩, ⟨2, 1⟩] : Ordered_Graph).length)).1 = some m ∧
      (scatter_steps [(⟨2, 1⟩, 3), (⟨0, 0⟩, 1)] [⟨0, 0⟩, ⟨2, 1⟩]
        [⟨0, 0⟩, ⟨0, 1⟩, ⟨1, 1⟩, ⟨2, 1⟩]
        (resize [] ([⟨0, 0⟩, ⟨0, 1⟩, ⟨1, 1⟩, ⟨2, 1⟩] : Ordered_Graph).length)).2
        ≤ ([⟨0, 0⟩, ⟨0, 1⟩, ⟨1, 1⟩, ⟨2, 1⟩] : Ordered_Graph).length :=
  merge_join_scatters_local_values [(⟨2, 1⟩, 3), (⟨0, 0⟩, 1)] [⟨0, 0⟩, ⟨2, 1⟩]
    [⟨0, 0⟩, ⟨0, 1⟩, ⟨1, 1⟩, ⟨2, 1⟩] (by decide) (by decide) (by decide) (by decide) (by decide)

/-! ## The claims on the process tree and on repeated builds -/

/-- The nodes of the binary tree in exact arithmetic (`tree_node`) on the ranks
`0 .. nodes-1` form one binary tree rooted at rank 0. -/
theorem tree_node_complete_binary (NONE N0 : Int) (hN : NONE < 0) (nodes : Nat)
    (hnodes : 1 ≤ nodes) :
    (∀ p c : Nat, p < nodes → c < nodes →
      (((tree_node NONE p nodes N0).d_children.1 = (c : Int) ∨
          (tree_node NONE p nodes N0).d_children.2 = (c : Int)) ↔
        (tree_node NONE c nodes N0).d_parent = (p : Int))) ∧
    (∃ c : Nat, c < nodes ∧ (tree_node NONE c nodes N0).d_parent = NONE) ∧
    (∀ c : Nat, c < nodes →
      ((tree_node NONE c nodes N0).d_parent = NONE ↔ c = 0)) ∧
    (∀ c : Nat, 0 < c → c < nodes →
      0 ≤ (tree_node NONE c nodes N0).d_parent ∧
      (tree_node NONE c nodes N0).d_parent < (c : Int)) ∧
    (∀ p : Nat, p < nodes →
      ((tree_node NONE p nodes N0).d_children.1 ≠ NONE →
        0 ≤ (tree_node NONE p nodes N0).d_children.1 ∧
        (tree_node NONE p nodes N0).d_children.1 < (nodes : Int)) ∧
      ((tree_node NONE p nodes N0).d_children.2 ≠ NONE →
        0 ≤ (tree_node NONE p nodes N0).d_children.2 ∧
        (tree_node NONE p nodes N0).d_children.2 < (nodes : Int))) := by
  have hchildren : ∀ p : Nat,
      ((tree_node NONE p nodes N0).d_children.1
          = if 2 * p + 1 < nodes then ((2 * p + 1 : Nat) : Int) else NONE) ∧
      ((tree_node NONE p nodes N0).d_children.2
          = if 2 * p + 2 < nodes then ((2 * p + 2 : Nat) : Int) else NONE) := by
    intro p
    simp only [tree_node]
    by_cases h1 : 2 * p + 1 < nodes
    · by_cases h2 : 2 * p + 2 < nodes
      · rw [if_neg (by omega), if_neg (by omega), if_pos h1, if_pos h2]
        constructor <;> simp <;> omega
      · rw [if_neg (by omega), if_pos (by omega), if_pos h1, if_neg h2]
        constructor
        · simp; omega
        · rfl
    · rw [if_pos (by omega), if_neg h1, if_neg (by omega)]
      exact ⟨rfl, rfl⟩
  refine ⟨fun p c _ _ => ?_, ⟨0, by omega, by rw [tree_node_parent]; simp⟩, fun c _ => ?_,
    fun c hc _ => ?_, fun p _ => ?_⟩
  · rw [(hchildren p).1, (hchildren p).2, tree_node_parent]
    by_cases hc0 : c = 0
    · subst hc0
      simp only [if_true]
      constructor
      · rintro (h | h)
        · split at h <;> omega
        · split at h <;> omega
      · intro h; omega
    · rw [if_neg hc0]
      constructor
      · rintro (h | h)
        · split at h <;> omega
        · split at h <;> omega
      · intro h
        have hp : (c - 1) / 2 = p := by exact_mod_cast h
        rcases Nat.even_or_odd' (c - 1) with ⟨k, hk | hk⟩
        · left
          rw [if_pos (by omega)]
          omega
        · right
          rw [if_pos (by omega)]
          omega
  · rw [tree_node_parent]
    by_cases hc0 : c = 0
    · simp [hc0]
    · rw [if_neg hc0]
      constructor
      · intro h; omega
      · intro h; exact absurd h hc0
  · rw [tree_node_parent, if_neg (by omega)]
    omega
  · rw [(hchildren p).1, (hchildren p).2]
    constructor
    · intro h
      split at h
      · rename_i h1; rw [if_pos h1]; omega
      · exact absurd rfl h
    · intro h
      split at h
      · rename_i h1; rw [if_pos h1]; omega
      · exact absurd rfl h

/-- C12 (counterexample): on rank `2^30` of `2147483647` processes (the largest
`int`) the product `(d_node + 1) * 2` does not fit an `int`; with the wrapped
value the constructor makes the node internal with the children `-2147483647`
and `-2147483646`, which are neither `NONE` nor ranks of the run, where the
binary tree on the ranks has a leaf (the rank `2^31 + 1` is not below
`nodes`). -/
theorem tree_breaks_above_two_to_30 :
    (1073741824 : Int) < 2147483647 ∧
    (Fission_Matrix_Processor.create (-1) 1073741824 2147483647 0).d_type
      = Node_Type.INTERNAL ∧
    (Fission_Matrix_Processor.create (-1) 1073741824 2147483647 0).d_children
      = (-2147483647, -2147483646) ∧
    (Fission_Matrix_Processor.create (-1) 1073741824 2147483647 0).d_children.1 ≠ -1 ∧
    ¬ (0 ≤ (Fission_Matrix_Processor.create (-1) 1073741824 2147483647 0).d_children.1) ∧
    (Fission_Matrix_Processor.create (-1) 1073741824 2147483647 0).d_children.2 ≠ -1 ∧
    ¬ (0 ≤ (Fission_Matrix_Processor.create (-1) 1073741824 2147483647 0).d_children.2) ∧
    (tree_node (-1) 1073741824 2147483647 0).d_type = Node_Type.EXTERNAL ∧
    (tree_node (-1) 1073741824 2147483647 0).d_children = (-1, -1) := by
  decide

/-- C12 (amended): for every number of processes `1 <= nodes < 2^30` (so that
`(d_node + 1) * 2` fits an `int` on every rank), the parents and children the
constructor computes on the ranks `0 .. nodes-1` form one binary tree rooted
at rank 0: rank `c` is listed as a child of rank `p` exactly when the parent
of `c` is `p`; rank 0 is the only rank whose parent is `NONE`; the parent of
every other rank is a smaller rank; and every child that is not `NONE` is a
rank below `nodes`. -/
theorem tree_is_complete_binary (NONE N0 : Int) (hN : NONE < 0) (nodes : Nat)
    (hnodes : 1 ≤ nodes) (hbound : nodes < 1073741824) :
    (∀ p c : Nat, p < nodes → c < nodes →
      (((Fission_Matrix_Processor.create NONE p nodes N0).d_children.1 = (c : Int) ∨
          (Fission_Matrix_Processor.create NONE p nodes N0).d_children.2 = (c : Int)) ↔
        (Fission_Matrix_Processor.create NONE c nodes N0).d_parent = (p : Int))) ∧
    (∃ c : Nat, c < nodes ∧ (Fission_Matrix_Processor.create NONE c nodes N0).d_parent = NONE) ∧
    (∀ c : Nat, c < nodes →
      ((Fission_Matrix_Processor.create NONE c nodes N0).d_parent = NONE ↔ c = 0)) ∧
    (∀ c : Nat, 0 < c → c < nodes →
      0 ≤ (Fission_Matrix_Processor.create NONE c nodes N0).d_parent ∧
      (Fission_Matrix_Processor.create NONE c nodes N0).d_parent < (c : Int)) ∧
    (∀ p : Nat, p < nodes →
      ((Fission_Matrix_Processor.create NONE p nodes N0).d_children.1 ≠ NONE →
        0 ≤ (Fission_Matrix_Processor.create NONE p nodes N0).d_children.1 ∧
        (Fission_Matrix_Processor.create NONE p nodes N0).d_children.1 < (nodes : Int)) ∧
      ((Fission_Matrix_Processor.create NONE p nodes N0).d_children.2 ≠ NONE →
        0 ≤ (Fission_Matrix_Processor.create NONE p nodes N0).d_children.2 ∧
        (Fission_Matrix_Processor.create NONE p nodes N0).d_children.2 < (nodes : Int))) := by
  have he : ∀ p : Nat, p < nodes →
      Fission_Matrix_Processor.create NONE p nodes N0 = tree_node NONE p nodes N0 :=
    fun p hp => create_eq_tree_node NONE N0 p nodes hp hbound
  obtain ⟨h1, ⟨c0, hc0, h2⟩, h3, h4, h5⟩ := tree_node_complete_binary NONE N0 hN nodes hnodes
  refine ⟨fun p c hp hc => ?_, ⟨c0, hc0, ?_⟩, fun c hc => ?_, fun c hc0 hc => ?_,
    fun p hp => ?_⟩
  · rw [he p hp, he c hc]; exact h1 p c hp hc
  · rw [he c0 hc0]; exact h2
  · rw [he c hc]; exact h3 c hc
  · rw [he c hc]; exact h4 c hc0 hc
  · rw [he p hp]; exact h5 p hp

theorem tree_is_complete_binary_witness :
    (∀ p c : Nat, p < 5 → c < 5 →
      (((Fission_Matrix_Processor.create (-1) p (5 : Nat) 0).d_children.1 = (c : Int) ∨
          (Fission_Matrix_Processor.create (-1) p (5 : Nat) 0).d_children.2 = (c : Int)) ↔
        (Fission_Matrix_Processor.create (-1) c (5 : Nat) 0).d_parent = (p : Int))) ∧
    (∃ c : Nat, c < 5 ∧ (Fission_Matrix_Processor.create (-1) c (5 : Nat) 0).d_parent = -1) ∧
    (∀ c : Nat, c < 5 →
      ((Fission_Matrix_Processor.create (-1) c (5 : Nat) 0).d_parent = -1 ↔ c = 0)) ∧
    (∀ c : Nat, 0 < c → c < 5 →
      0 ≤ (Fission_Matrix_Processor.create (-1) c (5 : Nat) 0).d_parent ∧
      (Fission_Matrix_Processor.create (-1) c (5 : Nat) 0).d_parent < (c : Int)) ∧
    (∀ p : Nat, p < 5 →
      ((Fission_Matrix_Processor.create (-1) p (5 : Nat) 0).d_children.1 ≠ -1 →
        0 ≤ (Fission_Matrix_Processor.create (-1) p (5 : Nat) 0).d_children.1 ∧
        (Fission_Matrix_Processor.create (-1) p (5 : Nat) 0).d_children.1 < ((5 : Nat) : Int)) ∧
      ((Fission_Matrix_Processor.create (-1) p (5 : Nat) 0).d_children.2 ≠ -1 →
        0 ≤ (Fission_Matrix_Processor.create (-1) p (5 : Nat) 0).d_children.2 ∧
        (Fission_Matrix_Processor.create (-1) p (5 : Nat) 0).d_children.2 < ((5 : Nat) : Int))) :=
  tree_is_complete_binary (-1) 0 (by decide) 5 (by decide) (by decide)

/-- C13: `build_matrix` does not read what the processors held before: two
runs whose ranks pass the same arguments and have the same tree members, but
any graph, matrix and `d_N` left by earlier builds, end alike, either both
stopping or both completing with the same graph, matrix and `d_N` on every
rank; in particular a run on used processors ends like the run on freshly
constructed ones. -/
theorem build_matrix_forgets_prior_state (NONE : Int) (world world2 : List Domain)
    (hsame : world.map clear_prior = world2.map clear_prior) :
    build_matrix NONE world = build_matrix NONE world2 ∧
    (∀ s1, reset s1 = some { s1 with d_graph := [], d_matrix := [] }) := by
  refine ⟨?_, fun s1 => by simp [reset]⟩
  rw [build_matrix_clear_prior NONE world, build_matrix_clear_prior NONE world2, hsame]

theorem build_matrix_forgets_prior_state_witness :
    world3_used.map clear_prior = world3.map clear_prior ∧
    (build_matrix (-1) world3_used = build_matrix (-1) world3 ∧
      (∀ s1, reset s1 = some { s1 with d_graph := [], d_matrix := [] })) :=
  ⟨rfl, build_matrix_forgets_prior_state (-1) world3_used world3 rfl⟩

/-! ### The level loop of the energy multigrid -/

theorem coarsen_fst (g c : Nat) (hc : 1 ≤ c) :
    (coarsen (g : Int) (c : Int)).1 = ((ceil_div c g : Nat) : Int) := by
  have hq : Int.tdiv (g : Int) (c : Int) = ((g / c : Nat) : Int) := (Int.ofNat_tdiv g c).symm
  have hr : Int.tmod (g : Int) (c : Int) = ((g % c : Nat) : Int) := (Int.ofNat_tmod g c).symm
  have hdm := Nat.div_add_mod g c
  have hlt := Nat.mod_lt g hc
  unfold coarsen ceil_div
  simp only [hq, hr]
  by_cases hpos : g % c > 0
  · rw [if_pos (by exact_mod_cast hpos)]
    have : (g + c - 1) / c = g / c + 1 := by
      apply Nat.div_eq_of_lt_le
      · rw [Nat.add_mul]; rw [Nat.mul_comm] at hdm; omega
      · rw [Nat.add_mul, Nat.add_mul]; rw [Nat.mul_comm] at hdm; omega
    rw [this]
    push_cast
    rfl
  · rw [if_neg (by exact_mod_cast hpos)]
    have : (g + c - 1) / c = g / c := by
      apply Nat.div_eq_of_lt_le
      · rw [Nat.mul_comm] at hdm; omega
      · rw [Nat.add_mul]; rw [Nat.mul_comm] at hdm; omega
    rw [this]

theorem ceil_div_one (c : Nat) (hc : 1 ≤ c) : ceil_div c 1 = 1 := by
  unfold ceil_div
  have : 1 + c - 1 = c := by omega
  rw [this]
  exact Nat.div_self hc

theorem ceil_div_pos (c g : Nat) (hc : 1 ≤ c) (hg : 1 ≤ g) : 1 ≤ ceil_div c g := by
  unfold ceil_div
  rw [Nat.le_div_iff_mul_le hc]
  omega

theorem ceil_div_lt (c g : Nat) (hc : 2 ≤ c) (hg : 2 ≤ g) : ceil_div c g < g := by
  unfold ceil_div
  rw [Nat.div_lt_iff_lt_mul (by omega)]
  have h : 2 * g ≤ g * c := by
    calc 2 * g = g * 2 := Nat.mul_comm 2 g
      _ ≤ g * c := Nat.mul_le_mul_left g hc
  have h2 : 2 * c ≤ g * c := Nat.mul_le_mul_right c hg
  omega

/-- Repeated ceiling division by `c >= 2` takes every `g >= 1` to 1, after a
least number of steps. -/
theorem steps_to_one (c : Nat) (hc : 2 ≤ c) :
    ∀ g : Nat, 1 ≤ g →
      ∃ K : Nat, (ceil_div c)^[K] g = 1 ∧ ∀ k, k < K → (ceil_div c)^[k] g ≠ 1 := by
  intro g
  induction g using Nat.strong_induction_on with
  | _ g ih =>
      intro hg
      by_cases h1 : g = 1
      · exact ⟨0, by simpa using h1, fun k hk => by omega⟩
      · obtain ⟨K, hK, hleast⟩ := ih (ceil_div c g) (ceil_div_lt c g hc (by omega))
          (ceil_div_pos c g (by omega) hg)
        refine ⟨K + 1, by rw [Function.iterate_succ_apply]; exact hK, fun k hk => ?_⟩
        cases k with
        | zero => simpa using h1
        | succ k =>
            rw [Function.iterate_succ_apply]
            exact hleast k (by omega)

theorem level_step_fields {M O S V : Type} (svc : Multigrid_Services M O S V) (c : Int)
    (s : Level_Loop M O S V) :
    (level_step svc c s).level = s.level + 1 ∧
    (level_step svc c s).new_groups = (coarsen s.new_groups c).1 ∧
    (level_step svc c s).mg.d_restrictions.length = s.mg.d_restrictions.length + 1 ∧
    (level_step svc c s).mg.d_operators.length = s.mg.d_operators.length + 1 ∧
    (level_step svc c s).mg.d_smoothers.length = s.mg.d_smoothers.length + 1 := by
  simp [level_step]

theorem level_loop_spec {M O S V : Type} (svc : Multigrid_Services M O S V) (c D : Nat)
    (hc : 2 ≤ c) :
    ∀ (n : Nat) (s : Level_Loop M O S V) (lev g K : Nat),
      s.level = (lev : Int) → s.new_groups = (g : Int) → 1 ≤ g → lev + n + 1 = D →
      (ceil_div c)^[K] g = 1 → (∀ k, k < K → (ceil_div c)^[k] g ≠ 1) →
      ∀ fuel, n + 1 ≤ fuel →
        ∃ s', level_loop svc c D fuel s = some s' ∧
          s'.level = ((min D (lev + max 1 K) : Nat) : Int) ∧
          s'.new_groups = (((ceil_div c)^[min D (lev + max 1 K) - lev] g : Nat) : Int) ∧
          s'.mg.d_restrictions.length
            = s.mg.d_restrictions.length + (min D (lev + max 1 K) - lev) ∧
          s'.mg.d_operators.length
            = s.mg.d_operators.length + (min D (lev + max 1 K) - lev) ∧
          s'.mg.d_smoothers.length
            = s.mg.d_smoothers.length + (min D (lev + max 1 K) - lev) := by
  intro n
  induction n with
  | zero =>
      intro s lev g K hlev hg hg1 hD hK hleast fuel hfuel
      obtain ⟨fuel, rfl⟩ : ∃ f, fuel = f + 1 := ⟨fuel - 1, by omega⟩
      obtain ⟨hl, hn, hr, ho, hs⟩ := level_step_fields svc (c : Int) s
      rw [hlev] at hl
      rw [hg, coarsen_fst g c (by omega)] at hn
      have hstop : ¬ ((level_step svc (c : Int) s).new_groups ≠ 1 ∧
          (level_step svc (c : Int) s).level ≠ (D : Int)) := by
        rw [hl]
        intro h
        apply h.2
        rw [← hD]
        push_cast
        ring
      have hmin : min D (lev + max 1 K) = lev + 1 := by
        have : 1 ≤ max 1 K := le_max_left 1 K
        omega
      simp only [level_loop, hstop, if_false]
      refine ⟨_, rfl, ?_, ?_, ?_, ?_, ?_⟩
      · rw [hl, hmin]; push_cast; ring
      · rw [hn, hmin]
        have : lev + 1 - lev = 1 := by omega
        rw [this]
        rfl
      · rw [hr, hmin]; omega
      · rw [ho, hmin]; omega
      · rw [hs, hmin]; omega
  | succ n ih =>
      intro s lev g K hlev hg hg1 hD hK hleast fuel hfuel
      obtain ⟨fuel, rfl⟩ : ∃ f, fuel = f + 1 := ⟨fuel - 1, by omega⟩
      obtain ⟨hl, hn, hr, ho, hs⟩ := level_step_fields svc (c : Int) s
      rw [hlev] at hl
      rw [hg, coarsen_fst g c (by omega)] at hn
      have hlevne : (level_step svc (c : Int) s).level ≠ (D : Int) := by
        rw [hl, ← hD]
        push_cast
        omega
      by_cases hone : ceil_div c g = 1
      · -- the next level has one group: the loop ends
        have hstop : ¬ ((level_step svc (c : Int) s).new_groups ≠ 1 ∧
            (level_step svc (c : Int) s).level ≠ (D : Int)) := by
          rw [hn, hone]
          intro h
          exact h.1 rfl
        have hK1 : K ≤ 1 := by
          by_contra hcon
          exact hleast 1 (by omega) (by simpa using hone)
        have hmin : min D (lev + max 1 K) = lev + 1 := by
          have : max 1 K = 1 := max_eq_left hK1
          omega
        simp only [level_loop, hstop, if_false]
        refine ⟨_, rfl, ?_, ?_, ?_, ?_, ?_⟩
        · rw [hl, hmin]; push_cast; ring
        · rw [hn, hmin]
          have : lev + 1 - lev = 1 := by omega
          rw [this]
          rfl
        · rw [hr, hmin]; omega
        · rw [ho, hmin]; omega
        · rw [hs, hmin]; omega
      · -- more than one group and depth left: another pass
        have hgo : (level_step svc (c : Int) s).new_groups ≠ 1 ∧
            (level_step svc (c : Int) s).level ≠ (D : Int) := by
          refine ⟨?_, hlevne⟩
          rw [hn]
          exact_mod_cast hone
        have hK2 : 2 ≤ K := by
          by_contra hcon
          have hcases : K = 0 ∨ K = 1 := by omega
          rcases hcases with h0 | h1
          · subst h0
            simp only [Function.iterate_zero, id_eq] at hK
            subst hK
            exact hone (ceil_div_one c (by omega))
          · subst h1
            exact hone (by simpa using hK)
        obtain ⟨s', hs', hlev', hgrp', hr', ho', hsm'⟩ :=
          ih (level_step svc (c : Int) s) (lev + 1) (ceil_div c g) (K - 1)
            (by rw [hl]; push_cast; ring) hn (ceil_div_pos c g (by omega) hg1) (by omega)
            (by
              rw [← Function.iterate_succ_apply]
              have : (K - 1).succ = K := by omega
              rw [this]; exact hK)
            (fun k hk => by
              rw [← Function.iterate_succ_apply]
              exact hleast (k + 1) (by omega))
            fuel (by omega)
        have hmax : lev + 1 + max 1 (K - 1) = lev + max 1 K := by
          have h1 : max 1 (K - 1) = K - 1 := max_eq_right (by omega)
          have h2 : max 1 K = K := max_eq_right (by omega)
          omega
        rw [hmax] at hlev' hgrp' hr' ho' hsm'
        have hge : lev + 1 ≤ min D (lev + max 1 K) := by
          have : 1 ≤ max 1 K := le_max_left 1 K
          omega
        have hloop : level_loop svc (c : Int) (D : Int) (fuel + 1) s = some s' := by
          simp only [level_loop]
          rw [if_pos hgo]
          exact hs'
        refine ⟨s', hloop, hlev', ?_, ?_, ?_, ?_⟩
        · rw [hgrp', ← Function.iterate_succ_apply]
          have : (min D (lev + max 1 K) - (lev + 1)).succ = min D (lev + max 1 K) - lev := by
            omega
          rw [this]
        · rw [hr', hr]; omega
        · rw [ho', ho]; omega
        · rw [hsm', hs]; omega

theorem level_loop_last_step {M O S V : Type} (svc : Multigrid_Services M O S V)
    (c D : Int) :
    ∀ (fuel : Nat) (s s' : Level_Loop M O S V), level_loop svc c D fuel s = some s' →
      ∃ s0, s' = level_step svc c s0
  | 0, _, _, h => by simp [level_loop] at h
  | fuel + 1, s, s', h => by
      simp only [level_loop] at h
      split at h
      · exact level_loop_last_step svc c D fuel _ _ h
      · exact ⟨s, by simpa using h.symm⟩

/-! ## The claims on the energy multigrid -/

/-- C14: for a fine group count `G >= 1`, a coarsening factor `c >= 2` and a
maximum depth `D >= 1`, let `K` be the least number of ceiling divisions by
`c` that take `G` to 1.  The level loop of the constructor ends (within `D`
passes) having built exactly `min(D, max(1, K))` coarse levels, so
`d_num_levels` is that number plus 1, and the coarsest level has 1 group
exactly when `K <= D`.  For `G = 12`, `c = 2`, `D = 2` it ends on the depth
limit at level 2 with 3 groups. -/
theorem level_loop_builds_levels {M O S V : Type} (svc : Multigrid_Services M O S V)
    (mat_db : M) (fine_operator fine_matrix : O) (coarse_solver : Bool) (G c D : Nat)
    (hG : svc.num_groups mat_db = (G : Int)) (h1 : 1 ≤ G) (hc : 2 ≤ c) (hD : 1 ≤ D) :
    (∃ K : Nat, (ceil_div c)^[K] G = 1 ∧ (∀ k, k < K → (ceil_div c)^[k] G ≠ 1) ∧
      ∀ fuel, D ≤ fuel →
        ∃ s, level_loop svc c D fuel (fine_level svc mat_db fine_operator fine_matrix) = some s ∧
          s.level = ((min D (max 1 K) : Nat) : Int) ∧
          s.mg.d_restrictions.length = min D (max 1 K) ∧
          s.new_groups = (((ceil_div c)^[min D (max 1 K)] G : Nat) : Int) ∧
          (s.new_groups = 1 ↔ K ≤ D) ∧
          ∃ mg, Energy_Multigrid.create svc c D coarse_solver mat_db fine_operator fine_matrix
              fuel = some mg ∧
            mg.d_num_levels = ((min D (max 1 K) : Nat) : Int) + 1) ∧
    (level_loop count_services 2 2 2 (fine_level count_services 12 0 0)).map
      (fun s => (s.level, s.new_groups)) = some (2, 3) := by
  refine ⟨?_, by decide⟩
  obtain ⟨K, hK, hleast⟩ := steps_to_one c hc G h1
  refine ⟨K, hK, hleast, fun fuel hfuel => ?_⟩
  obtain ⟨s, hs, hlev, hgrp, hr, -, -⟩ :=
    level_loop_spec svc c D hc (D - 1) (fine_level svc mat_db fine_operator fine_matrix) 0 G K
      rfl hG h1 (by omega) hK hleast fuel (by omega)
  simp only [Nat.zero_add, Nat.sub_zero] at hlev hgrp hr
  have hone : s.new_groups = 1 ↔ K ≤ D := by
    rw [hgrp]
    constructor
    · intro h
      by_contra hcon
      have hmin : min D (max 1 K) = D := by
        have : K ≤ max 1 K := le_max_right 1 K
        omega
      rw [hmin] at h
      exact hleast D (by omega) (by exact_mod_cast h)
    · intro h
      have hmin : min D (max 1 K) = max 1 K := by
        have : max 1 K ≤ D := max_le hD h
        omega
      rw [hmin]
      by_cases hK0 : K = 0
      · subst hK0
        simp only [Function.iterate_zero, id_eq] at hK
        subst hK
        have : max 1 0 = 1 := rfl
        rw [this, Function.iterate_one, ceil_div_one c (by omega)]
        rfl
      · have : max 1 K = K := max_eq_right (by omega)
        rw [this, hK]
        rfl
  refine ⟨s, hs, hlev, by simpa [fine_level] using hr, hgrp, hone, ?_⟩
  obtain ⟨s0, hs0⟩ := level_loop_last_step svc _ _ fuel _ _ hs
  unfold Energy_Multigrid.create
  rw [hs]
  cases coarse_solver with
  | false => exact ⟨_, rfl, by simp only []; rw [hlev]⟩
  | true =>
      subst hs0
      simp only [level_step, List.getLast?_append, List.getLast?_singleton, if_true]
      exact ⟨_, rfl, by simp only []; rw [← hlev]; rfl⟩

theorem level_loop_builds_levels_witness :
    (∃ K : Nat, (ceil_div 2)^[K] 12 = 1 ∧ (∀ k, k < K → (ceil_div 2)^[k] 12 ≠ 1) ∧
      ∀ fuel, 2 ≤ fuel →
        ∃ s, level_loop count_services (2 : Nat) (2 : Nat) fuel
            (fine_level count_services 12 0 0) = some s ∧
          s.level = ((min 2 (max 1 K) : Nat) : Int) ∧
          s.mg.d_restrictions.length = min 2 (max 1 K) ∧
          s.new_groups = (((ceil_div 2)^[min 2 (max 1 K)] 12 : Nat) : Int) ∧
          (s.new_groups = 1 ↔ K ≤ 2) ∧
          ∃ mg, Energy_Multigrid.create count_services (2 : Nat) (2 : Nat) true 12 0 0
              fuel = some mg ∧
            mg.d_num_levels = ((min 2 (max 1 K) : Nat) : Int) + 1) ∧
    (level_loop count_services 2 2 2 (fine_level count_services 12 0 0)).map
      (fun s => (s.level, s.new_groups)) = some (2, 3) :=
  level_loop_builds_levels count_services 12 0 0 true 12 2 2 rfl (by decide) (by decide)
    (by decide)

/-! ### Level vectors written before they are read -/

section
variable {M O S V : Type}

theorem Same_shape.refl (a : Energy_Multigrid O S V) : Same_shape a a :=
  ⟨rfl, rfl, rfl, rfl, rfl, fun _ => rfl⟩

theorem Same_shape.trans {a b c : Energy_Multigrid O S V} (h1 : Same_shape a b)
    (h2 : Same_shape b c) : Same_shape a c :=
  ⟨h1.1.trans h2.1, h1.2.1.trans h2.2.1, h1.2.2.1.trans h2.2.2.1,
    h1.2.2.2.1.trans h2.2.2.2.1, h1.2.2.2.2.1.trans h2.2.2.2.2.1,
    fun k => (h1.2.2.2.2.2 k).trans (h2.2.2.2.2.2 k)⟩

theorem Same_shape.symm {a b : Energy_Multigrid O S V} (h : Same_shape a b) : Same_shape b a :=
  ⟨h.1.symm, h.2.1.symm, h.2.2.1.symm, h.2.2.2.1.symm, h.2.2.2.2.1.symm,
    fun k => (h.2.2.2.2.2 k).symm⟩

theorem Agree.mono {P Q : Set (Stack × Nat)} {a b : Energy_Multigrid O S V}
    (h : Agree P a b) (hQP : Q ⊆ P) : Agree Q a b :=
  ⟨h.1, fun k l hkl => h.2 k l (hQP hkl)⟩

theorem vector_eq_some (a : Energy_Multigrid O S V) (k : Stack) (l : Nat)
    (h : l < a.stack_length k) : ∃ v, a.vector k l = some v := by
  cases k <;> exact ⟨_, List.getElem?_eq_getElem h⟩

theorem assign_eq_some (a : Energy_Multigrid O S V) (k : Stack) (l : Nat) (v : V)
    (h : l < a.stack_length k) :
    ∃ a', a.assign k l v = some a' ∧ Same_shape a a' ∧
      ∀ k' l', a'.vector k' l' = if (k', l') = (k, l) then some v else a.vector k' l' := by
  cases k
  all_goals
    simp only [Energy_Multigrid.stack_length] at h
    simp only [Energy_Multigrid.assign, h, if_true]
    refine ⟨_, rfl, ⟨rfl, rfl, rfl, rfl, rfl, fun k => by
      cases k <;> simp [Energy_Multigrid.stack_length]⟩, fun k' l' => ?_⟩
    cases k' <;>
      simp only [Energy_Multigrid.vector, Prod.mk.injEq, false_and, true_and, if_false,
        reduceCtorEq]
    by_cases hl : l' = l
    · subst hl
      simp [h]
    · rw [if_neg hl, List.getElem?_set_ne (Ne.symm hl)]

/-- A write of the same value to two agreeing states keeps them agreeing,
now also on the vector written. -/
theorem assign_agree (ref a b : Energy_Multigrid O S V) (P : Set (Stack × Nat))
    (k : Stack) (l : Nat) (v : V) (hsa : Same_shape ref a) (hab : Agree P a b)
    (hl : l < ref.stack_length k) :
    ∃ a' b', a.assign k l v = some a' ∧ b.assign k l v = some b' ∧ Same_shape ref a' ∧
      Agree (insert (k, l) P) a' b' := by
  have hla : l < a.stack_length k := by rw [← hsa.2.2.2.2.2 k]; exact hl
  have hlb : l < b.stack_length k := by rw [← hab.1.2.2.2.2.2 k]; exact hla
  obtain ⟨a', ha', hsa', hva'⟩ := assign_eq_some a k l v hla
  obtain ⟨b', hb', hsb', hvb'⟩ := assign_eq_some b k l v hlb
  refine ⟨a', b', ha', hb', hsa.trans hsa', ⟨hsa'.symm.trans (hab.1.trans hsb'), ?_⟩⟩
  intro k' l' hkl
  rw [hva', hvb']
  by_cases heq : (k', l') = (k, l)
  · rw [if_pos heq, if_pos heq]
  · rw [if_neg heq, if_neg heq]
    rcases hkl with h | h
    · exact absurd h heq
    · exact hab.2 k' l' h

theorem opt_apply_agree (svc : Multigrid_Services M O S V) (op : O)
    (ref a b : Energy_Multigrid O S V) (P : Set (Stack × Nat)) (src dst : Stack × Nat)
    (hsa : Same_shape ref a) (hab : Agree P a b) (hsrc : src ∈ P)
    (hs : src.2 < ref.stack_length src.1) (hd : dst.2 < ref.stack_length dst.1) :
    ∃ a' b', opt_apply svc op src dst a = some a' ∧ opt_apply svc op src dst b = some b' ∧
      Same_shape ref a' ∧ Agree (insert dst P) a' b' := by
  obtain ⟨x, hx⟩ := vector_eq_some a src.1 src.2 (by rw [← hsa.2.2.2.2.2]; exact hs)
  have hxb : b.vector src.1 src.2 = some x := by rw [← hab.2 src.1 src.2 hsrc, hx]
  obtain ⟨a', b', ha', hb', hsa', hab'⟩ :=
    assign_agree ref a b P dst.1 dst.2 (svc.apply op x) hsa hab hd
  exact ⟨a', b', by simp only [opt_apply, hx, Option.some_bind, ha'],
    by simp only [opt_apply, hxb, Option.some_bind, hb'], hsa', hab'⟩

theorem mv_add_mv_agree [AddCommGroup V] (plus : Bool)
    (ref a b : Energy_Multigrid O S V) (P : Set (Stack × Nat)) (va vb dst : Stack × Nat)
    (hsa : Same_shape ref a) (hab : Agree P a b) (hva : va ∈ P) (hvb : vb ∈ P)
    (h1 : va.2 < ref.stack_length va.1) (h2 : vb.2 < ref.stack_length vb.1)
    (hd : dst.2 < ref.stack_length dst.1) :
    ∃ a' b', mv_add_mv plus va vb dst a = some a' ∧ mv_add_mv plus va vb dst b = some b' ∧
      Same_shape ref a' ∧ Agree (insert dst P) a' b' := by
  obtain ⟨x, hx⟩ := vector_eq_some a va.1 va.2 (by rw [← hsa.2.2.2.2.2]; exact h1)
  obtain ⟨y, hy⟩ := vector_eq_some a vb.1 vb.2 (by rw [← hsa.2.2.2.2.2]; exact h2)
  have hxb : b.vector va.1 va.2 = some x := by rw [← hab.2 va.1 va.2 hva, hx]
  have hyb : b.vector vb.1 vb.2 = some y := by rw [← hab.2 vb.1 vb.2 hvb, hy]
  obtain ⟨a', b', ha', hb', hsa', hab'⟩ :=
    assign_agree ref a b P dst.1 dst.2 (if plus then x + y else x - y) hsa hab hd
  exact ⟨a', b', by simp only [mv_add_mv, hx, hy, Option.some_bind, ha'],
    by simp only [mv_add_mv, hxb, hyb, Option.some_bind, hb'], hsa', hab'⟩

theorem smoother_solve_agree (svc : Multigrid_Services M O S V) (l : Nat)
    (ref a b : Energy_Multigrid O S V) (P : Set (Stack × Nat))
    (hsa : Same_shape ref a) (hab : Agree P a b)
    (hx : (Stack.solutions, l) ∈ P) (hb : (Stack.rhss, l) ∈ P)
    (h1 : l < ref.stack_length .solutions) (h2 : l < ref.stack_length .rhss)
    (h3 : l < ref.d_smoothers.length) :
    ∃ a' b', smoother_solve svc l a = some a' ∧ smoother_solve svc l b = some b' ∧
      Same_shape ref a' ∧ Agree P a' b' := by
  obtain ⟨x, hxa⟩ := vector_eq_some a .solutions l (by rw [← hsa.2.2.2.2.2]; exact h1)
  obtain ⟨y, hya⟩ := vector_eq_some a .rhss l (by rw [← hsa.2.2.2.2.2]; exact h2)
  have hxb : b.vector .solutions l = some x := by rw [← hab.2 _ _ hx, hxa]
  have hyb : b.vector .rhss l = some y := by rw [← hab.2 _ _ hb, hya]
  have hsm : a.d_smoothers[l]? = some ref.d_smoothers[l] := by
    rw [← hsa.2.2.2.2.1]; exact List.getElem?_eq_getElem h3
  have hsmb : b.d_smoothers[l]? = some ref.d_smoothers[l] := by
    rw [← hab.1.2.2.2.2.1]; exact hsm
  obtain ⟨a', b', ha', hb', hsa', hab'⟩ :=
    assign_agree ref a b P .solutions l (svc.solve ref.d_smoothers[l] x y) hsa hab h1
  refine ⟨a', b', by simp only [smoother_solve, hsm, hxa, hya, Option.some_bind, ha'],
    by simp only [smoother_solve, hsmb, hxb, hyb, Option.some_bind, hb'], hsa',
    hab'.mono ?_⟩
  intro p hp
  exact Set.mem_insert_of_mem _ hp

theorem restrict_and_smooth_agree [AddCommGroup V] (svc : Multigrid_Services M O S V)
    (ref a b : Energy_Multigrid O S V) (ea eb : List Cycle_Event) (L l : Nat)
    (hwf : Well_formed ref L) (hl1 : 1 ≤ l) (hlL : l < L)
    (hsa : Same_shape ref a) (hab : Agree (Written L (l - 1)) a b) :
    ∃ a' b', restrict_and_smooth svc l (a, ea) = some a' ∧
      restrict_and_smooth svc l (b, eb) = some b' ∧
      Same_shape ref a'.1 ∧ Agree (Written L l) a'.1 b'.1 := by
  obtain ⟨hL, -, hstack, hres, -, hops, hsm⟩ := hwf
  have hr : a.d_restrictions[l - 1]? = some ref.d_restrictions[l - 1] := by
    rw [← hsa.2.2.1]; exact List.getElem?_eq_getElem (by omega)
  have hrb : b.d_restrictions[l - 1]? = some ref.d_restrictions[l - 1] := by
    rw [← hab.1.2.2.1]; exact hr
  have hsrc : ((Stack.residuals, l - 1) : Stack × Nat) ∈ Written L (l - 1) := by
    by_cases h0 : l - 1 = 0
    · exact Or.inr (Or.inr (Or.inr ⟨rfl, h0⟩))
    · exact Or.inr (Or.inr (Or.inl ⟨rfl, le_refl _, by show l - 1 + 1 < L; omega⟩))
  obtain ⟨a1, b1, ha1, hb1, hs1, hab1⟩ := opt_apply_agree svc ref.d_restrictions[l - 1]
    ref a b _ (Stack.residuals, l - 1) (Stack.rhss, l) hsa hab hsrc
    (by have := hstack .residuals; show l - 1 < ref.stack_length Stack.residuals; omega)
    (by have := hstack .rhss; show l < ref.stack_length Stack.rhss; omega)
  obtain ⟨a2, b2, ha2, hb2, hs2, hab2⟩ := assign_agree ref a1 b1 _ Stack.solutions l 0 hs1 hab1
    (by have := hstack .solutions; omega)
  obtain ⟨a3, b3, ha3, hb3, hs3, hab3⟩ := smoother_solve_agree svc l ref a2 b2 _ hs2 hab2
    (Set.mem_insert _ _) (Set.mem_insert_of_mem _ (Set.mem_insert _ _))
    (by have := hstack .solutions; omega) (by have := hstack .rhss; omega) (by omega)
  have hnum3 : a3.d_num_levels = (L : Int) := by rw [← hs3.1]; exact hL
  have hnum3b : b3.d_num_levels = (L : Int) := by rw [← hab3.1.1]; exact hnum3
  have hbase : Written L (l - 1) ⊆ insert ((Stack.solutions, l) : Stack × Nat)
      (insert (Stack.rhss, l) (Written L (l - 1))) :=
    fun p hp => Set.mem_insert_of_mem _ (Set.mem_insert_of_mem _ hp)
  simp only [restrict_and_smooth, hr, hrb, ha1, hb1, ha2, hb2, ha3, hb3, Option.some_bind,
    hnum3, hnum3b]
  by_cases hcoarse : (l : Int) ≠ (L : Int) - 1
  · -- the residual of the level is computed
    have hop : a3.d_operators[l]? = some ref.d_operators[l] := by
      rw [← hs3.2.1]; exact List.getElem?_eq_getElem (by omega)
    have hopb : b3.d_operators[l]? = some ref.d_operators[l] := by
      rw [← hab3.1.2.1]; exact hop
    obtain ⟨a4, b4, ha4, hb4, hs4, hab4⟩ := opt_apply_agree svc ref.d_operators[l]
      ref a3 b3 _ (Stack.solutions, l) (Stack.residuals, l) hs3 hab3 (Set.mem_insert _ _)
      (by have := hstack .solutions; show l < ref.stack_length Stack.solutions; omega)
      (by have := hstack .residuals; show l < ref.stack_length Stack.residuals; omega)
    obtain ⟨a5, b5, ha5, hb5, hs5, hab5⟩ := mv_add_mv_agree false ref a4 b4 _
      (Stack.rhss, l) (Stack.residuals, l) (Stack.residuals, l) hs4 hab4
      (Set.mem_insert_of_mem _ (Set.mem_insert_of_mem _ (Set.mem_insert _ _)))
      (Set.mem_insert _ _)
      (by have := hstack .rhss; show l < ref.stack_length Stack.rhss; omega)
      (by have := hstack .residuals; show l < ref.stack_length Stack.residuals; omega)
      (by have := hstack .residuals; show l < ref.stack_length Stack.residuals; omega)
    rw [if_pos hcoarse, if_pos hcoarse]
    simp only [hop, hopb, ha4, hb4, ha5, hb5, Option.some_bind]
    refine ⟨_, _, rfl, rfl, hs5, hab5.mono ?_⟩
    rintro ⟨k, i⟩ hp
    rcases hp with ⟨hk, hi⟩ | ⟨hk, hi⟩ | ⟨hk, hi, hiL⟩ | ⟨hk, hi⟩
    all_goals simp only at hk hi; subst hk
    · by_cases hil : i = l
      · subst hil
        exact Set.mem_insert_of_mem _ (Set.mem_insert_of_mem _ (Set.mem_insert _ _))
      · exact Set.mem_insert_of_mem _ (Set.mem_insert_of_mem _ (hbase
          (Or.inl ⟨rfl, by show i ≤ l - 1; omega⟩)))
    · by_cases hil : i = l
      · subst hil
        exact Set.mem_insert_of_mem _ (Set.mem_insert_of_mem _ (Set.mem_insert_of_mem _
          (Set.mem_insert _ _)))
      · exact Set.mem_insert_of_mem _ (Set.mem_insert_of_mem _ (hbase
          (Or.inr (Or.inl ⟨rfl, by show i ≤ l - 1; omega⟩))))
    · by_cases hil : i = l
      · subst hil
        exact Set.mem_insert _ _
      · exact Set.mem_insert_of_mem _ (Set.mem_insert_of_mem _ (hbase
          (Or.inr (Or.inr (Or.inl ⟨rfl, by show i ≤ l - 1; omega, hiL⟩)))))
    · exact Set.mem_insert_of_mem _ (Set.mem_insert_of_mem _ (hbase
        (Or.inr (Or.inr (Or.inr ⟨rfl, hi⟩)))))
  · -- the coarsest level: no residual
    rw [if_neg hcoarse, if_neg hcoarse]
    refine ⟨_, _, rfl, rfl, hs3, hab3.mono ?_⟩
    have hlast : l + 1 = L := by
      have : (l : Int) = (L : Int) - 1 := not_not.1 hcoarse
      omega
    rintro ⟨k, i⟩ hp
    rcases hp with ⟨hk, hi⟩ | ⟨hk, hi⟩ | ⟨hk, hi, hiL⟩ | ⟨hk, hi⟩
    all_goals simp only at hk hi; subst hk
    · by_cases hil : i = l
      · subst hil
        exact Set.mem_insert _ _
      · exact hbase (Or.inl ⟨rfl, by show i ≤ l - 1; omega⟩)
    · by_cases hil : i = l
      · subst hil
        exact Set.mem_insert_of_mem _ (Set.mem_insert _ _)
      · exact hbase (Or.inr (Or.inl ⟨rfl, by show i ≤ l - 1; omega⟩))
    · exact hbase (Or.inr (Or.inr (Or.inl ⟨rfl, by show i ≤ l - 1; simp only at hiL; omega,
        hiL⟩)))
    · exact hbase (Or.inr (Or.inr (Or.inr ⟨rfl, hi⟩)))

theorem prolong_and_smooth_agree [AddCommGroup V] (svc : Multigrid_Services M O S V)
    (ref a b : Energy_Multigrid O S V) (ea eb : List Cycle_Event) (L l : Nat)
    (hwf : Well_formed ref L) (hlL : l + 1 < L)
    (hsa : Same_shape ref a) (hab : Agree (Written L (L - 1)) a b) :
    ∃ a' b', prolong_and_smooth svc l (a, ea) = some a' ∧
      prolong_and_smooth svc l (b, eb) = some b' ∧
      Same_shape ref a'.1 ∧ Agree (Written L (L - 1)) a'.1 b'.1 := by
  obtain ⟨-, -, hstack, -, hpro, -, hsm⟩ := hwf
  have hp : a.d_prolongations[l]? = some ref.d_prolongations[l] := by
    rw [← hsa.2.2.2.1]; exact List.getElem?_eq_getElem (by omega)
  have hpb : b.d_prolongations[l]? = some ref.d_prolongations[l] := by
    rw [← hab.1.2.2.2.1]; exact hp
  have hsol1 : ((Stack.solutions, l + 1) : Stack × Nat) ∈ Written L (L - 1) :=
    Or.inl ⟨rfl, by show l + 1 ≤ L - 1; omega⟩
  have hsol : ((Stack.solutions, l) : Stack × Nat) ∈ Written L (L - 1) :=
    Or.inl ⟨rfl, by show l ≤ L - 1; omega⟩
  have hrhs : ((Stack.rhss, l) : Stack × Nat) ∈ Written L (L - 1) :=
    Or.inr (Or.inl ⟨rfl, by show l ≤ L - 1; omega⟩)
  obtain ⟨a1, b1, ha1, hb1, hs1, hab1⟩ := opt_apply_agree svc ref.d_prolongations[l]
    ref a b _ (Stack.solutions, l + 1) (Stack.residuals, l) hsa hab hsol1
    (by have := hstack .solutions; show l + 1 < ref.stack_length Stack.solutions; omega)
    (by have := hstack .residuals; show l < ref.stack_length Stack.residuals; omega)
  obtain ⟨a2, b2, ha2, hb2, hs2, hab2⟩ := mv_add_mv_agree true ref a1 b1 _
    (Stack.residuals, l) (Stack.solutions, l) (Stack.solutions, l) hs1 hab1
    (Set.mem_insert _ _) (Set.mem_insert_of_mem _ hsol)
    (by have := hstack .residuals; show l < ref.stack_length Stack.residuals; omega)
    (by have := hstack .solutions; show l < ref.stack_length Stack.solutions; omega)
    (by have := hstack .solutions; show l < ref.stack_length Stack.solutions; omega)
  obtain ⟨a3, b3, ha3, hb3, hs3, hab3⟩ := smoother_solve_agree svc l ref a2 b2 _ hs2 hab2
    (Set.mem_insert _ _) (Set.mem_insert_of_mem _ (Set.mem_insert_of_mem _ hrhs))
    (by have := hstack .solutions; omega) (by have := hstack .rhss; omega) (by omega)
  simp only [prolong_and_smooth, hp, hpb, ha1, hb1, ha2, hb2, ha3, hb3, Option.some_bind]
  exact ⟨_, _, rfl, rfl, hs3, hab3.mono (fun p hp =>
    Set.mem_insert_of_mem _ (Set.mem_insert_of_mem _ hp))⟩

theorem down_loop_agree [AddCommGroup V] (svc : Multigrid_Services M O S V)
    (ref : Energy_Multigrid O S V) (L : Nat) (hwf : Well_formed ref L) :
    ∀ (count l : Nat) (a b : Energy_Multigrid O S V) (ea eb : List Cycle_Event),
      1 ≤ l → l + count = L → Same_shape ref a → Agree (Written L (l - 1)) a b →
      ∃ a' b', down_loop svc count l (a, ea) = some a' ∧
        down_loop svc count l (b, eb) = some b' ∧
        Same_shape ref a'.1 ∧ Agree (Written L (L - 1)) a'.1 b'.1
  | 0, l, a, b, ea, eb, _, hl, hsa, hab => by
      have : l = L := by omega
      subst this
      exact ⟨_, _, rfl, rfl, hsa, hab⟩
  | count + 1, l, a, b, ea, eb, hl1, hl, hsa, hab => by
      obtain ⟨a1, b1, ha1, hb1, hs1, hab1⟩ := restrict_and_smooth_agree svc ref a b ea eb L l
        hwf hl1 (by omega) hsa hab
      obtain ⟨a2, b2, ha2, hb2, hs2, hab2⟩ := down_loop_agree svc ref L hwf count (l + 1)
        a1.1 b1.1 a1.2 b1.2 (by omega) (by omega) hs1 (by simpa using hab1)
      exact ⟨a2, b2, by simp only [down_loop, ha1, Option.some_bind]; exact ha2,
        by simp only [down_loop, hb1, Option.some_bind]; exact hb2, hs2, hab2⟩

theorem up_loop_agree [AddCommGroup V] (svc : Multigrid_Services M O S V)
    (ref : Energy_Multigrid O S V) (L : Nat) (hwf : Well_formed ref L) :
    ∀ (count : Nat) (a b : Energy_Multigrid O S V) (ea eb : List Cycle_Event),
      count + 1 ≤ L → Same_shape ref a → Agree (Written L (L - 1)) a b →
      ∃ a' b', up_loop svc count (a, ea) = some a' ∧ up_loop svc count (b, eb) = some b' ∧
        Same_shape ref a'.1 ∧ Agree (Written L (L - 1)) a'.1 b'.1
  | 0, a, b, ea, eb, _, hsa, hab => ⟨_, _, rfl, rfl, hsa, hab⟩
  | count + 1, a, b, ea, eb, hc, hsa, hab => by
      obtain ⟨a1, b1, ha1, hb1, hs1, hab1⟩ := prolong_and_smooth_agree svc ref a b ea eb L
        count hwf (by omega) hsa hab
      obtain ⟨a2, b2, ha2, hb2, hs2, hab2⟩ := up_loop_agree svc ref L hwf count
        a1.1 b1.1 a1.2 b1.2 (by omega) hs1 hab1
      exact ⟨a2, b2, by simp only [up_loop, ha1, Option.some_bind]; exact ha2,
        by simp only [up_loop, hb1, Option.some_bind]; exact hb2, hs2, hab2⟩

/-- The V-cycle of one column runs to its end from every state of the level
vectors and leaves a finest solution that does not depend on that state. -/
theorem apply_vector_agree [AddCommGroup V] (svc : Multigrid_Services M O S V)
    (ref a b : Energy_Multigrid O S V) (ea eb : List Cycle_Event) (L : Nat) (xi : V)
    (hwf : Well_formed ref L) (hsa : Same_shape ref a) (hsb : Same_shape ref b) :
    ∃ a' b' x0, apply_vector svc xi (a, ea) = some a' ∧ apply_vector svc xi (b, eb) = some b' ∧
      Same_shape ref a'.1 ∧ Same_shape ref b'.1 ∧
      a'.1.vector .solutions 0 = some x0 ∧ b'.1.vector .solutions 0 = some x0 := by
  have hwf' := hwf
  obtain ⟨hL, hL1, hstack, -, -, -, -⟩ := hwf
  have hab : Agree (∅ : Set (Stack × Nat)) a b :=
    ⟨hsa.symm.trans hsb, fun k l h => absurd h (Set.not_mem_empty _)⟩
  obtain ⟨a1, b1, ha1, hb1, hs1, hab1⟩ := assign_agree ref a b _ Stack.residuals 0 xi hsa hab
    (by have := hstack .residuals; omega)
  obtain ⟨a2, b2, ha2, hb2, hs2, hab2⟩ := assign_agree ref a1 b1 _ Stack.rhss 0 xi hs1 hab1
    (by have := hstack .rhss; omega)
  obtain ⟨a3, b3, ha3, hb3, hs3, hab3⟩ := assign_agree ref a2 b2 _ Stack.solutions 0 0 hs2 hab2
    (by have := hstack .solutions; omega)
  have hnum3 : a3.d_num_levels.toNat = L := by rw [← hs3.1, hL]; rfl
  have hnum3b : b3.d_num_levels.toNat = L := by rw [← hab3.1.1, hnum3]
  have hstart : Agree (Written L (1 - 1)) a3 b3 := by
    refine hab3.mono ?_
    rintro ⟨k, i⟩ hp
    rcases hp with ⟨hk, hi⟩ | ⟨hk, hi⟩ | ⟨hk, hi, -⟩ | ⟨hk, hi⟩
    all_goals
      simp only at hk hi
      subst hk
      have hi0 : i = 0 := by omega
      subst hi0
    · exact Set.mem_insert _ _
    · exact Set.mem_insert_of_mem _ (Set.mem_insert _ _)
    · exact Set.mem_insert_of_mem _ (Set.mem_insert_of_mem _ (Set.mem_insert _ _))
    · exact Set.mem_insert_of_mem _ (Set.mem_insert_of_mem _ (Set.mem_insert _ _))
  obtain ⟨a4, b4, ha4, hb4, hs4, hab4⟩ := down_loop_agree svc ref L hwf' (L - 1) 1 a3 b3 ea eb
    (le_refl 1) (by omega) hs3 hstart
  have hnum4 : a4.1.d_num_levels.toNat = L := by rw [← hs4.1, hL]; rfl
  have hnum4b : b4.1.d_num_levels.toNat = L := by rw [← hab4.1.1, hnum4]
  obtain ⟨a5, b5, ha5, hb5, hs5, hab5⟩ := up_loop_agree svc ref L hwf' (L - 1) a4.1 b4.1
    a4.2 b4.2 (by omega) hs4 hab4
  obtain ⟨x0, hx0⟩ := vector_eq_some a5.1 .solutions 0 (by
    rw [← hs5.2.2.2.2.2 .solutions]
    have := hstack .solutions
    omega)
  have hx0b : b5.1.vector .solutions 0 = some x0 := by
    rw [← hab5.2 .solutions 0 (Or.inl ⟨rfl, Nat.zero_le _⟩), hx0]
  refine ⟨a5, b5, x0, ?_, ?_, hs5, hs5.trans hab5.1, hx0, hx0b⟩
  · simp only [apply_vector, ha1, ha2, ha3, Option.some_bind, hnum3, ha4, hnum4]
    exact ha5
  · simp only [apply_vector, hb1, hb2, hb3, Option.some_bind, hnum3b, hb4, hnum4b]
    exact hb5

theorem apply_vectors_spec [AddCommGroup V] (svc : Multigrid_Services M O S V)
    (ref : Energy_Multigrid O S V) (L : Nat) (hwf : Well_formed ref L) :
    ∀ (xs : List V) (ivec : Nat) (a : Energy_Multigrid O S V) (ea : List Cycle_Event)
      (y : List V), Same_shape ref a → ivec + xs.length ≤ y.length →
      ∃ st' y', apply_vectors svc xs ivec (a, ea) y = some (st', y') ∧
        Same_shape ref st'.1 ∧ y'.length = y.length ∧
        (∀ j, j < ivec → y'[j]? = y[j]?) ∧
        ∀ (i : Nat) (hi : i < xs.length) (b : Energy_Multigrid O S V) (eb : List Cycle_Event),
          Same_shape ref b →
          ∃ b' x0, apply_vector svc xs[i] (b, eb) = some b' ∧
            b'.1.vector .solutions 0 = some x0 ∧ y'[ivec + i]? = some x0
  | [], ivec, a, ea, y, hsa, _ =>
      ⟨(a, ea), y, rfl, hsa, rfl, fun _ _ => rfl, fun i hi => absurd hi (Nat.not_lt_zero i)⟩
  | xi :: xs, ivec, a, ea, y, hsa, hlen => by
      simp only [List.length_cons] at hlen
      obtain ⟨a1, -, x0, ha1, -, hs1, -, hx0, -⟩ :=
        apply_vector_agree svc ref a a ea ea L xi hwf hsa hsa
      obtain ⟨st', y', hrest, hs', hlen', hkeep, hcols⟩ :=
        apply_vectors_spec svc ref L hwf xs (ivec + 1) a1.1 a1.2 (y.set ivec x0) hs1
          (by rw [List.length_set]; omega)
      rw [List.length_set] at hlen'
      have hy : y'[ivec]? = some x0 := by
        rw [hkeep ivec (by omega), List.getElem?_set_self (by omega)]
      refine ⟨st', y', ?_, hs', hlen', fun j hj => ?_, fun i hi b eb hsb => ?_⟩
      · simp only [apply_vectors, ha1, hx0, Option.some_bind]
        rw [if_pos (by omega)]
        exact hrest
      · rw [hkeep j (by omega), List.getElem?_set_ne (by omega)]
      · cases i with
        | zero =>
            obtain ⟨a2, b', x1, ha2, hb', -, -, hx1, hx1b⟩ :=
              apply_vector_agree svc ref a b ea eb L xi hwf hsa hsb
            rw [ha1] at ha2
            cases ha2
            rw [hx0] at hx1
            cases hx1
            exact ⟨b', x0, hb', hx1b, hy⟩
        | succ i =>
            obtain ⟨b', x1, hb', hx1, hy1⟩ := hcols i (by simpa using hi) b eb hsb
            refine ⟨b', x1, hb', hx1, ?_⟩
            rw [← hy1]
            congr 1
            omega

end

/-! ## The claim on the columns of `ApplyImpl` -/

/-- C15: on a preconditioner of `L >= 1` levels whose stacks are long enough,
for every multivector `x` of `n` columns and every `y` of `n` columns,
`ApplyImpl` returns, and column `i` of its output is the single column that
`ApplyImpl` returns for column `i` of `x` alone, whatever the level vectors
(solutions, residuals, right-hand sides) of the preconditioner hold when that
call starts: nothing a column's V-cycle reads was left by another column. -/
theorem ApplyImpl_columns_independent {M O S V : Type} [AddCommGroup V]
    (svc : Multigrid_Services M O S V) (mg : Energy_Multigrid O S V) (L : Nat)
    (x y : List V) (hwf : Well_formed mg L) (hxy : y.length = x.length) :
    ∃ st' y', ApplyImpl svc mg x y = some (st', y') ∧ y'.length = x.length ∧
      ∀ (i : Nat) (hi : i < x.length) (mg0 : Energy_Multigrid O S V) (y0 : V),
        Same_shape mg mg0 →
        ∃ st0 yi, ApplyImpl svc mg0 [x[i]] [y0] = some (st0, [yi]) ∧ y'[i]? = some yi := by
  obtain ⟨st', y', hrun, -, hlen, -, hcols⟩ := apply_vectors_spec svc mg L hwf x 0 mg [] y
    (Same_shape.refl mg) (by omega)
  refine ⟨st', y', by unfold ApplyImpl; rw [if_pos hxy]; exact hrun, by rw [hlen, hxy],
    fun i hi mg0 y0 hs0 => ?_⟩
  obtain ⟨b', x0, hb', hx0, hy⟩ := hcols i hi mg0 [] hs0
  rw [Nat.zero_add] at hy
  refine ⟨b', x0, ?_, hy⟩
  simp only [ApplyImpl, List.length_cons, List.length_nil, if_true, apply_vectors, hb', hx0,
    Option.some_bind, Nat.zero_lt_one, List.set_cons_zero]
  rw [if_pos (by omega)]

theorem ApplyImpl_columns_independent_witness :
    ∃ st' y', ApplyImpl function_services three_levels [1, 4] [0, 0] = some (st', y') ∧
      y'.length = ([1, 4] : List ℚ).length ∧
      ∀ (i : Nat) (hi : i < ([1, 4] : List ℚ).length)
        (mg0 : Energy_Multigrid (ℚ → ℚ) (ℚ → ℚ → ℚ) ℚ) (y0 : ℚ),
        Same_shape three_levels mg0 →
        ∃ st0 yi, ApplyImpl function_services mg0 [([1, 4] : List ℚ)[i]] [y0] = some (st0, [yi]) ∧
          y'[i]? = some yi :=
  ApplyImpl_columns_independent function_services three_levels 3 [1, 4] [0, 0]
    ⟨rfl, by decide, fun k => by cases k <;> decide, by decide, by decide, by decide,
      by decide⟩ rfl

/-! ## The claims on the problem builder -/

/-- Reading an `int` with a default: the stored value or the default, and
the other names keep what they store. -/
theorem get_int_spec (db : Sublist) (name : String) (default : Int) (v : Option Int)
    (h : db.lookup name = v.map Parameter_Value.int) :
    ∃ db1, get_int db name default = some (v.getD default, db1) ∧
      ∀ other : String, other ≠ name → db1.lookup other = db.lookup other := by
  cases v with
  | some n =>
    refine ⟨db, ?_, fun _ _ => rfl⟩
    simp only [Option.map_some'] at h
    simp only [get_int, h, Option.getD_some]
  | none =>
    refine ⟨db ++ [(name, Parameter_Value.int default)], ?_, fun other ho => ?_⟩
    · simp only [Option.map_none'] at h
      simp only [get_int, h, Option.getD_none]
    · rw [List.lookup_append]
      have : (other == name) = false := by simpa using ho
      simp [List.lookup_cons, this]

/-- The outcome of `build_matdb` on a material block with a material list and
a library, in terms of the requested order and groups. -/
theorem build_matdb_outcome (open_and_broadcast : String → Int × Int) (s : Problem_Builder)
    (matdb db : Sublist) (mat_list : List String) (library : String)
    (pn first last : Option Int)
    (hmatdb : s.d_matdb = some matdb) (hdb : s.d_db = some db)
    (hlist : matdb.lookup "mat list" = some (Parameter_Value.array_str mat_list))
    (hlib : matdb.lookup "xs library" = some (Parameter_Value.str library))
    (hpn : db.lookup "Pn_order" = pn.map Parameter_Value.int)
    (hfirst : db.lookup "g_first" = first.map Parameter_Value.int)
    (hlast : db.lookup "g_last" = last.map Parameter_Value.int) :
    ∃ db1 db3,
      build_matdb open_and_broadcast s =
        if ¬ pn.getD (open_and_broadcast library).2 ≤ (open_and_broadcast library).2 then
          (some (Failure.validate "Requested Pn scattering order of "
            [pn.getD (open_and_broadcast library).2, (open_and_broadcast library).2]),
            { s with d_db := some db1 })
        else if ¬ wrap_int (1 + wrap_int
            (last.getD (wrap_int ((open_and_broadcast library).1 - 1)) - first.getD 0))
            ≤ (open_and_broadcast library).1 then
          (some (Failure.validate
            "Energy group range exceeds number of groups in data, 1 + g_last - g_first = "
            [wrap_int (1 + wrap_int
              (last.getD (wrap_int ((open_and_broadcast library).1 - 1)) - first.getD 0)),
              (open_and_broadcast library).1]), { s with d_db := some db3 })
        else
          (none, { s with
            d_db := some db3
            d_mat := some (Mat_Request.mk
              (List.zipWith (fun (id : Nat) (name : String) => ((id : Int), name))
                (List.range mat_list.length) mat_list)
              (pn.getD (open_and_broadcast library).2) (first.getD 0)
              (last.getD (wrap_int ((open_and_broadcast library).1 - 1)))) }) := by
  obtain ⟨db1, h1, k1⟩ := get_int_spec db "Pn_order" (open_and_broadcast library).2 pn hpn
  have hfirst1 : db1.lookup "g_first" = first.map Parameter_Value.int := by
    rw [k1 "g_first" (by decide)]; exact hfirst
  obtain ⟨db2, h2, k2⟩ := get_int_spec db1 "g_first" 0 first hfirst1
  have hlast2 : db2.lookup "g_last" = last.map Parameter_Value.int := by
    rw [k2 "g_last" (by decide), k1 "g_last" (by decide)]; exact hlast
  obtain ⟨db3, h3, _⟩ := get_int_spec db2 "g_last"
    (wrap_int ((open_and_broadcast library).1 - 1)) last hlast2
  refine ⟨db1, db3, ?_⟩
  have hp1 : isParameter matdb "mat list" = true := by simp [isParameter, hlist]
  have hp2 : isParameter matdb "xs library" = true := by simp [isParameter, hlib]
  have hlen : (List.zipWith (fun (id : Nat) (name : String) => ((id : Int), name))
      (List.range mat_list.length) mat_list).length = mat_list.length := by simp
  simp only [build_matdb, hmatdb, hdb, hp1, hp2, hlist, hlib, h1, h2, h3, hlen]
  simp only [not_true_eq_false, if_false, ne_eq]

/-- C16 (counterexample): with 4 groups of data, numbered 0 to 3, `build_matdb`
accepts the request for the groups 3 to 5 and passes it on to the cross-section
builder, although the groups 4 and 5 are not in the data. -/
theorem build_matdb_accepts_groups_outside_data :
    build_matdb (fun _ => (4, 1)) builder_groups_3_5 =
      (none, { builder_groups_3_5 with
        d_db := some [("g_first", .int 3), ("g_last", .int 5), ("Pn_order", .int 1)]
        d_mat := some (Mat_Request.mk [(0, "fuel"), (1, "water")] 1 3 5) }) ∧
    ¬ (5 : Int) ≤ 4 - 1 := by
  decide

/-- With 4 groups of data, `build_matdb` accepts the request for the groups
`-1` to `2147483647`: the number of groups `1 + (g_last - g_first)` does not fit
an `int`, and the wrapped value `-2147483647` is not greater than 4. -/
theorem build_matdb_accepts_wrapped_count :
    wrap_int (1 + wrap_int (2147483647 - (-1))) = -2147483647 ∧
    build_matdb (fun _ => (4, 1)) builder_groups_wrapped =
      (none, { builder_groups_wrapped with
        d_db := some [("g_first", .int (-1)), ("g_last", .int 2147483647), ("Pn_order", .int 1)]
        d_mat := some (Mat_Request.mk [(0, "fuel"), (1, "water")] 1 (-1) 2147483647) }) := by
  decide

/-- C16 (amended): on a material block with a material list and a library,
`build_matdb` stops with a failed `Validate` when the requested Pn order
exceeds the Pn order of the data, and otherwise when the number of requested
groups `1 + (g_last - g_first)`, as the code computes it in `int`, exceeds the
number of groups of the data; it passes the request on to the cross-section
builder exactly when neither is the case.  The number the code computes is
`1 + (g_last - g_first)` whenever that and `g_last - g_first` fit an `int`.
Every request for a range `g_first <= g_last` with `0 <= g_first` and
`g_last <= Ng_data - 1` and an order within the data is passed on. -/
theorem build_matdb_validates_order_and_group_count
    (open_and_broadcast : String → Int × Int) (s : Problem_Builder)
    (matdb db : Sublist) (mat_list : List String) (library : String)
    (pn first last : Option Int) (Ng_data N_data pn_order g_first g_last count : Int)
    (hmatdb : s.d_matdb = some matdb) (hdb : s.d_db = some db)
    (hlist : matdb.lookup "mat list" = some (Parameter_Value.array_str mat_list))
    (hlib : matdb.lookup "xs library" = some (Parameter_Value.str library))
    (hdata : open_and_broadcast library = (Ng_data, N_data))
    (hNg : Ng_data ≤ 2147483647)
    (hpn : db.lookup "Pn_order" = pn.map Parameter_Value.int)
    (hfirst : db.lookup "g_first" = first.map Parameter_Value.int)
    (hlast : db.lookup "g_last" = last.map Parameter_Value.int)
    (hpn_order : pn_order = pn.getD N_data) (hg_first : g_first = first.getD 0)
    (hg_last : g_last = last.getD (wrap_int (Ng_data - 1)))
    (hcount : count = wrap_int (1 + wrap_int (g_last - g_first))) :
    (N_data < pn_order →
      (build_matdb open_and_broadcast s).1 =
        some (Failure.validate "Requested Pn scattering order of " [pn_order, N_data]) ∧
      (build_matdb open_and_broadcast s).2.d_mat = s.d_mat) ∧
    (pn_order ≤ N_data → Ng_data < count →
      (build_matdb open_and_broadcast s).1 =
        some (Failure.validate
          "Energy group range exceeds number of groups in data, 1 + g_last - g_first = "
          [count, Ng_data]) ∧
      (build_matdb open_and_broadcast s).2.d_mat = s.d_mat) ∧
    ((build_matdb open_and_broadcast s).1 = none ↔
      pn_order ≤ N_data ∧ count ≤ Ng_data) ∧
    ((build_matdb open_and_broadcast s).1 = none →
      (build_matdb open_and_broadcast s).2.d_mat =
        some (Mat_Request.mk
          (List.zipWith (fun (id : Nat) (name : String) => ((id : Int), name))
            (List.range mat_list.length) mat_list) pn_order g_first g_last)) ∧
    (-2147483648 ≤ g_last - g_first → 1 + (g_last - g_first) ≤ 2147483647 →
      count = 1 + (g_last - g_first)) ∧
    (pn_order ≤ N_data → 0 ≤ g_first → g_first ≤ g_last → g_last ≤ Ng_data - 1 →
      (build_matdb open_and_broadcast s).1 = none) := by
  obtain ⟨db1, db3, h⟩ := build_matdb_outcome open_and_broadcast s matdb db mat_list library
    pn first last hmatdb hdb hlist hlib hpn hfirst hlast
  rw [hdata] at h
  subst hpn_order hg_first hg_last hcount
  rw [h]
  have hexact : -2147483648 ≤ last.getD (wrap_int (Ng_data - 1)) - first.getD 0 →
      1 + (last.getD (wrap_int (Ng_data - 1)) - first.getD 0) ≤ 2147483647 →
      wrap_int (1 + wrap_int (last.getD (wrap_int (Ng_data - 1)) - first.getD 0))
        = 1 + (last.getD (wrap_int (Ng_data - 1)) - first.getD 0) := by
    intro h1 h2
    rw [wrap_int_eq (last.getD (wrap_int (Ng_data - 1)) - first.getD 0) h1 (by omega)]
    exact wrap_int_eq _ (by omega) h2
  by_cases hA : pn.getD N_data ≤ N_data
  · by_cases hB : wrap_int (1 + wrap_int (last.getD (wrap_int (Ng_data - 1)) - first.getD 0))
        ≤ Ng_data
    · rw [if_neg (not_not.mpr hA), if_neg (not_not.mpr hB)]
      refine ⟨fun h => absurd hA (not_le.mpr h), fun _ h => absurd hB (not_le.mpr h),
        ⟨fun _ => ⟨hA, hB⟩, fun _ => rfl⟩, fun _ => rfl, hexact, fun _ _ _ _ => rfl⟩
    · rw [if_neg (not_not.mpr hA), if_pos hB]
      refine ⟨fun h => absurd hA (not_le.mpr h), fun _ _ => ⟨rfl, rfl⟩,
        ⟨fun h => ?_, fun h => absurd h.2 hB⟩, fun h => ?_, hexact, fun _ h0 h1 h2 => ?_⟩
      · exact absurd h (by simp)
      · exact absurd h (by simp)
      · rw [hexact (by omega) (by omega)] at hB
        exact absurd (show 1 + (last.getD (wrap_int (Ng_data - 1)) - first.getD 0) ≤ Ng_data
          by omega) hB
  · rw [if_pos hA]
    refine ⟨fun _ => ⟨rfl, rfl⟩, fun h => absurd h hA,
      ⟨fun h => ?_, fun h => absurd h.1 hA⟩, fun h => ?_, hexact, fun h => absurd h hA⟩
    · exact absurd h (by simp)
    · exact absurd h (by simp)

/-- C16 (amended), at a request for the groups 3 to 5 of data with 8 groups
and Pn order 1: the request is passed on. -/
theorem build_matdb_validates_order_and_group_count_witness :
    ((build_matdb (fun _ => (8, 1)) builder_groups_3_5).1 = none ↔
      (1 : Int) ≤ 1 ∧ (3 : Int) ≤ 8) ∧
    ((1 : Int) ≤ 1 → (0 : Int) ≤ 3 → (3 : Int) ≤ 5 → (5 : Int) ≤ 8 - 1 →
      (build_matdb (fun _ => (8, 1)) builder_groups_3_5).1 = none) :=
  ⟨(build_matdb_validates_order_and_group_count (fun _ => (8, 1)) builder_groups_3_5
      [("mat list", .array_str ["fuel", "water"]), ("xs library", .str "xs.xml")]
      [("g_first", .int 3), ("g_last", .int 5)] ["fuel", "water"] "xs.xml"
      none (some 3) (some 5) 8 1 1 3 5 3 rfl rfl (by decide) (by decide) rfl (by decide)
      (by decide) (by decide) (by decide) rfl rfl rfl (by decide)).2.2.1,
   (build_matdb_validates_order_and_group_count (fun _ => (8, 1)) builder_groups_3_5
      [("mat list", .array_str ["fuel", "water"]), ("xs library", .str "xs.xml")]
      [("g_first", .int 3), ("g_last", .int 5)] ["fuel", "water"] "xs.xml"
      none (some 3) (some 5) 8 1 1 3 5 3 rfl rfl (by decide) (by decide) rfl (by decide)
      (by decide) (by decide) (by decide) rfl rfl rfl (by decide)).2.2.2.2.2⟩

/-- C17: when one of the five blocks CORE, ASSEMBLIES, MATERIAL, MESH, PROBLEM
is not a block of the input, `setup` stops on the `Insist` of the first such
block, in the order of the list, with the object unchanged (no block stored)
and nothing done (no build routine called); when all five are blocks of the
input, `setup` stores the five blocks and calls `build_mesh`, and it runs
through when the three build routines do. -/
theorem setup_requires_five_blocks
    (build_mesh build_matids build_matdb_ : Problem_Builder → Option Failure × Problem_Builder)
    (master : ParameterList) (s : Problem_Builder) :
    (∀ first : String,
      required_blocks.find? (fun name => ! isSublist master name) = some first →
      setup build_mesh build_matids build_matdb_ master s =
        ⟨some (Failure.insist (first ++ " block not defined in input.")), s, []⟩) ∧
    ((∃ name ∈ required_blocks, isSublist master name = false) →
      ∃ msg, (setup build_mesh build_matids build_matdb_ master s).outcome =
          some (Failure.insist msg) ∧
        (setup build_mesh build_matids build_matdb_ master s).state = s ∧
        (setup build_mesh build_matids build_matdb_ master s).trace = []) ∧
    ((∀ name ∈ required_blocks, isSublist master name = true) →
      (setup build_mesh build_matids build_matdb_ master s).trace.take 2 =
        [Setup_Event.stored, Setup_Event.called "build_mesh"] ∧
      ((∀ t, (build_mesh t).1 = none) → (∀ t, (build_matids t).1 = none) →
        (∀ t, (build_matdb_ t).1 = none) →
        (setup build_mesh build_matids build_matdb_ master s).outcome = none ∧
        (setup build_mesh build_matids build_matdb_ master s).state =
          (build_matdb_ (build_matids (build_mesh
            { s with
              d_coredb := some (sublist master "CORE")
              d_assblydb := some (sublist master "ASSEMBLIES")
              d_matdb := some (sublist master "MATERIAL")
              d_meshdb := some (sublist master "MESH")
              d_db := some (sublist master "PROBLEM") }).2).2).2)) := by
  have part1 : ∀ first : String,
      required_blocks.find? (fun name => ! isSublist master name) = some first →
      setup build_mesh build_matids build_matdb_ master s =
        ⟨some (Failure.insist (first ++ " block not defined in input.")), s, []⟩ := by
    intro first h
    cases h1 : isSublist master "CORE" <;> cases h2 : isSublist master "ASSEMBLIES" <;>
      cases h3 : isSublist master "MATERIAL" <;> cases h4 : isSublist master "MESH" <;>
      cases h5 : isSublist master "PROBLEM" <;>
      simp [required_blocks, List.find?, h1, h2, h3, h4, h5] at h <;>
      subst h <;> simp [setup, h1, h2, h3, h4, h5]
  refine ⟨part1, ?_, ?_⟩
  · rintro ⟨name, hmem, hname⟩
    cases hf : required_blocks.find? (fun name => ! isSublist master name) with
    | none =>
      rw [List.find?_eq_none] at hf
      have := hf name hmem
      simp [hname] at this
    | some first =>
      rw [part1 first hf]
      exact ⟨_, rfl, rfl, rfl⟩
  · intro h
    have h1 : isSublist master "CORE" = true := h _ (by decide)
    have h2 : isSublist master "ASSEMBLIES" = true := h _ (by decide)
    have h3 : isSublist master "MATERIAL" = true := h _ (by decide)
    have h4 : isSublist master "MESH" = true := h _ (by decide)
    have h5 : isSublist master "PROBLEM" = true := h _ (by decide)
    refine ⟨?_, fun k1 k2 k3 => ?_⟩
    · simp only [setup, h1, h2, h3, h4, h5]
      simp only [not_true_eq_false, if_false, Option.isNone_some, Bool.false_eq_true]
      split
      · rfl
      · split <;> rfl
    · simp only [setup, h1, h2, h3, h4, h5]
      simp only [not_true_eq_false, if_false, Option.isNone_some, Bool.false_eq_true]
      split
      · next f s2 heq => exact absurd (congrArg Prod.fst heq) (by rw [k1]; simp)
      · next s2 heq =>
        split
        · next f s3 heq2 => exact absurd (congrArg Prod.fst heq2) (by rw [k2]; simp)
        · next s3 heq2 =>
          have e1 := congrArg Prod.snd heq
          have e2 := congrArg Prod.snd heq2
          simp only at e1 e2
          refine ⟨k3 s3, ?_⟩
          subst e2; subst e1; rfl

/-- C17, at an input without a MESH block and at an input with the five
blocks. -/
theorem setup_requires_five_blocks_witness :
    setup (fun t => (none, t)) (fun t => (none, t)) (build_matdb (fun _ => (4, 1)))
        (master_five.filter (fun e => e.1 ≠ "MESH")) new_builder =
      ⟨some (Failure.insist "MESH block not defined in input."), new_builder, []⟩ ∧
    (setup (fun t => (none, t)) (fun t => (none, t)) (build_matdb (fun _ => (4, 1)))
        master_five new_builder).trace.take 2 =
      [Setup_Event.stored, Setup_Event.called "build_mesh"] :=
  ⟨(setup_requires_five_blocks (fun t => (none, t)) (fun t => (none, t))
      (build_matdb (fun _ => (4, 1))) (master_five.filter (fun e => e.1 ≠ "MESH"))
      new_builder).1 "MESH" (by decide),
   ((setup_requires_five_blocks (fun t => (none, t)) (fun t => (none, t))
      (build_matdb (fun _ => (4, 1))) master_five new_builder).2.2 (by decide)).1⟩

/-! ## The claim on a local entry outside the global graph -/

theorem scatter_absent (lm : Sparse_Matrix) :
    ∀ (G L : Ordered_Graph) (M : Ordered_Matrix), (∃ k ∈ L, k ∉ G) → scatter lm L G M = none
  | _, [], _, h => by
      obtain ⟨k, hk, _⟩ := h
      exact absurd hk (List.not_mem_nil k)
  | _, _ :: _, [], _ => by simp [scatter]
  | [], _ :: _, _ :: _, _ => by simp [scatter]
  | g :: gs, l :: ls, x :: ms, h => by
      obtain ⟨k, hk, hkG⟩ := h
      have hkg : k ≠ g := fun e => hkG (e ▸ List.mem_cons_self _ _)
      have hkgs : k ∉ gs := fun e => hkG (List.mem_cons_of_mem _ e)
      simp only [scatter]
      by_cases hlg : l = g
      · rw [if_pos hlg]
        have hkls : k ∈ ls := by
          rcases List.mem_cons.1 hk with e | e
          · exact absurd (e.trans hlg) hkg
          · exact e
        have ih := scatter_absent lm gs ls ms ⟨k, hkls, hkgs⟩
        cases find lm l with
        | none => rfl
        | some e =>
            simp only []
            by_cases he : e.1 = l
            · rw [if_pos he, ih]; rfl
            · rw [if_neg he]
      · rw [if_neg hlg, scatter_absent lm gs (l :: ls) ms ⟨k, hk, hkgs⟩]; rfl

/-- C21 (counterexample): the local graph holds the entry (1,1), which the
global graph lacks; the merge-join does not run to its end: once the global
graph is used up a `CHECK` stops it, and no matrix is left. -/
theorem merge_join_stops_on_absent_entry :
    scatter [(⟨0, 0⟩, 1), (⟨1, 1⟩, 2)] [⟨0, 0⟩, ⟨1, 1⟩] [⟨0, 0⟩, ⟨2, 2⟩] (resize [] 2) = none ∧
    (⟨1, 1⟩ : Idx) ∈ ([⟨0, 0⟩, ⟨1, 1⟩] : Ordered_Graph) ∧
    (⟨1, 1⟩ : Idx) ∉ ([⟨0, 0⟩, ⟨2, 2⟩] : Ordered_Graph) := by
  decide

/-- C21 (amended): whenever some entry of the local graph is absent from the
global graph, the merge-join of `build_matrix` stops on a failing `CHECK`
(the matrix and global iterators reach their ends while local entries
remain) instead of running to its end, whatever the local map and the
matrix; so does the counted loop, and the rank does not get past the join. -/
theorem merge_join_fails_on_absent_entry (local_matrix : Sparse_Matrix)
    (local_graph d_graph : Ordered_Graph) (d_matrix : Ordered_Matrix)
    (habsent : ∃ k ∈ local_graph, k ∉ d_graph) :
    scatter local_matrix local_graph d_graph d_matrix = none ∧
    (scatter_steps local_matrix local_graph d_graph d_matrix).1 = none ∧
    (scatter_steps local_matrix local_graph d_graph d_matrix).2 ≤ d_graph.length := by
  refine ⟨scatter_absent _ _ _ _ habsent, ?_, scatter_steps_le _ _ _ _⟩
  rw [scatter_steps_fst]
  exact scatter_absent _ _ _ _ habsent

theorem merge_join_fails_on_absent_entry_witness :
    scatter [(⟨0, 0⟩, 1), (⟨1, 1⟩, 2)] [⟨0, 0⟩, ⟨1, 1⟩] [⟨0, 0⟩, ⟨2, 2⟩] [0, 0] = none ∧
    (scatter_steps [(⟨0, 0⟩, 1), (⟨1, 1⟩, 2)] [⟨0, 0⟩, ⟨1, 1⟩] [⟨0, 0⟩, ⟨2, 2⟩] [0, 0]).1
      = none ∧
    (scatter_steps [(⟨0, 0⟩, 1), (⟨1, 1⟩, 2)] [⟨0, 0⟩, ⟨1, 1⟩] [⟨0, 0⟩, ⟨2, 2⟩] [0, 0]).2
      ≤ ([⟨0, 0⟩, ⟨2, 2⟩] : Ordered_Graph).length :=
  merge_join_fails_on_absent_entry [(⟨0, 0⟩, 1), (⟨1, 1⟩, 2)] [⟨0, 0⟩, ⟨1, 1⟩]
    [⟨0, 0⟩, ⟨2, 2⟩] [0, 0] ⟨⟨1, 1⟩, by decide, by decide⟩

/-! ## The claims on the children of a node and on the collapse vector -/

/-- The children of the nodes of the binary tree in exact arithmetic
(`tree_node`), and the ranks `reduce` would receive from on such a node. -/
theorem tree_node_children (NONE N0 : Int) (hN : NONE < 0) (nodes n : Nat) :
    ((tree_node NONE n nodes N0).d_type = Node_Type.INTERNAL ↔
      2 * (n : Int) + 1 ≤ (nodes : Int) - 1) ∧
    ((tree_node NONE n nodes N0).d_type = Node_Type.INTERNAL →
      (tree_node NONE n nodes N0).d_children.1 = 2 * (n : Int) + 1 ∧
      0 ≤ (tree_node NONE n nodes N0).d_children.1 ∧
      (tree_node NONE n nodes N0).d_children.1 < (nodes : Int) ∧
      (tree_node NONE n nodes N0).d_children.2 =
        if 2 * (n : Int) + 2 ≤ (nodes : Int) - 1 then 2 * (n : Int) + 2 else NONE) ∧
    ((tree_node NONE n nodes N0).d_type = Node_Type.EXTERNAL →
      (tree_node NONE n nodes N0).d_children = (NONE, NONE)) ∧
    (∀ c ∈ reduce_sources NONE (tree_node NONE n nodes N0),
      c ≠ NONE ∧ 0 ≤ c ∧ c < (nodes : Int)) ∧
    (reduce_sources NONE (tree_node NONE n nodes N0)).length ≤ 2 := by
  by_cases h1 : 2 * n + 1 < nodes
  · obtain ⟨ht, hc1, hc2⟩ := tree_node_internal NONE N0 n nodes h1
    refine ⟨⟨fun _ => by omega, fun _ => ht⟩, fun _ => ⟨by rw [hc1]; push_cast; ring,
      by rw [hc1]; omega, by rw [hc1]; omega, ?_⟩, fun h => ?_, ?_, ?_⟩
    · rw [hc2]
      by_cases h2 : 2 * n + 2 < nodes
      · rw [if_pos h2, if_pos (by omega)]; push_cast; ring
      · rw [if_neg h2, if_neg (by omega)]
    · rw [ht] at h; cases h
    · intro c hc
      simp only [reduce_sources, ht, if_true, hc1, hc2] at hc
      by_cases h2 : 2 * n + 2 < nodes
      · rw [if_pos h2] at hc
        have hne : ((2 * n + 2 : Nat) : Int) ≠ NONE := by omega
        rw [if_pos hne] at hc
        simp only [List.mem_cons, List.mem_singleton, List.not_mem_nil, or_false] at hc
        rcases hc with rfl | rfl <;> omega
      · rw [if_neg h2] at hc
        simp only [ne_eq, not_true_eq_false, if_false, List.mem_singleton] at hc
        subst hc; omega
    · simp only [reduce_sources, ht, if_true]
      split <;> simp
  · have ht := tree_node_external NONE N0 n nodes (by omega)
    have hch : (tree_node NONE n nodes N0).d_children = (NONE, NONE) := by
      simp only [tree_node]
      rw [if_pos (by omega)]
    refine ⟨⟨fun h => ?_, fun h => by omega⟩, fun h => ?_, fun _ => hch, ?_, ?_⟩
    · rw [ht] at h; cases h
    · rw [ht] at h; cases h
    · intro c hc
      simp [reduce_sources, ht] at hc
    · simp [reduce_sources, ht]

/-- C25 (counterexample): on rank `n = 2^30` of `2147483647` processes the
constructor makes the node internal although `2n+1 <= nodes-1` does not hold,
with the left child `-2147483647` and the right child `-2147483646` (the
wrapped values of `2n+1` and `2n+2`, which do not fit an `int`), and `reduce`
receives from these two ranks, which are not `NONE` and not ranks of the
run. -/
theorem reduce_receives_from_negative_rank :
    (1073741824 : Int) < 2147483647 ∧
    (Fission_Matrix_Processor.create (-1) 1073741824 2147483647 0).d_type
      = Node_Type.INTERNAL ∧
    ¬ (2 * (1073741824 : Int) + 1 ≤ 2147483647 - 1) ∧
    reduce_sources (-1) (Fission_Matrix_Processor.create (-1) 1073741824 2147483647 0)
      = [-2147483647, -2147483646] ∧
    (∃ c ∈ reduce_sources (-1) (Fission_Matrix_Processor.create (-1) 1073741824 2147483647 0),
      c ≠ -1 ∧ ¬ (0 ≤ c)) := by
  decide

/-- C25 (amended): on every rank `n` of a run of `nodes < 2^30` processes (so
that `(d_node + 1) * 2` fits an `int`) the constructor makes the node internal
exactly when `2n+1 <= nodes-1`; an internal node has the rank `2n+1` as left
child and, as right child, the rank `2n+2` when `2n+2 <= nodes-1` and `NONE`
otherwise; an external node has both children `NONE`; and every rank `reduce`
receives from is a rank of the run and not `NONE`. -/
theorem children_are_valid_ranks (NONE N0 : Int) (hN : NONE < 0) (nodes n : Nat)
    (hn : n < nodes) (hbound : nodes < 1073741824) :
    ((Fission_Matrix_Processor.create NONE n nodes N0).d_type = Node_Type.INTERNAL ↔
      2 * (n : Int) + 1 ≤ (nodes : Int) - 1) ∧
    ((Fission_Matrix_Processor.create NONE n nodes N0).d_type = Node_Type.INTERNAL →
      (Fission_Matrix_Processor.create NONE n nodes N0).d_children.1 = 2 * (n : Int) + 1 ∧
      0 ≤ (Fission_Matrix_Processor.create NONE n nodes N0).d_children.1 ∧
      (Fission_Matrix_Processor.create NONE n nodes N0).d_children.1 < (nodes : Int) ∧
      (Fission_Matrix_Processor.create NONE n nodes N0).d_children.2 =
        if 2 * (n : Int) + 2 ≤ (nodes : Int) - 1 then 2 * (n : Int) + 2 else NONE) ∧
    ((Fission_Matrix_Processor.create NONE n nodes N0).d_type = Node_Type.EXTERNAL →
      (Fission_Matrix_Processor.create NONE n nodes N0).d_children = (NONE, NONE)) ∧
    (∀ c ∈ reduce_sources NONE (Fission_Matrix_Processor.create NONE n nodes N0),
      c ≠ NONE ∧ 0 ≤ c ∧ c < (nodes : Int)) ∧
    (reduce_sources NONE (Fission_Matrix_Processor.create NONE n nodes N0)).length ≤ 2 := by
  rw [create_eq_tree_node NONE N0 n nodes hn hbound]
  exact tree_node_children NONE N0 hN nodes n

theorem children_are_valid_ranks_witness :
    ((Fission_Matrix_Processor.create (-1) (1 : Nat) (4 : Nat) 0).d_type = Node_Type.INTERNAL ↔
      2 * ((1 : Nat) : Int) + 1 ≤ ((4 : Nat) : Int) - 1) ∧
    ((Fission_Matrix_Processor.create (-1) (1 : Nat) (4 : Nat) 0).d_type = Node_Type.INTERNAL →
      (Fission_Matrix_Processor.create (-1) (1 : Nat) (4 : Nat) 0).d_children.1
        = 2 * ((1 : Nat) : Int) + 1 ∧
      0 ≤ (Fission_Matrix_Processor.create (-1) (1 : Nat) (4 : Nat) 0).d_children.1 ∧
      (Fission_Matrix_Processor.create (-1) (1 : Nat) (4 : Nat) 0).d_children.1
        < ((4 : Nat) : Int) ∧
      (Fission_Matrix_Processor.create (-1) (1 : Nat) (4 : Nat) 0).d_children.2 =
        if 2 * ((1 : Nat) : Int) + 2 ≤ ((4 : Nat) : Int) - 1 then 2 * ((1 : Nat) : Int) + 2
        else -1) ∧
    ((Fission_Matrix_Processor.create (-1) (1 : Nat) (4 : Nat) 0).d_type = Node_Type.EXTERNAL →
      (Fission_Matrix_Processor.create (-1) (1 : Nat) (4 : Nat) 0).d_children = (-1, -1)) ∧
    (∀ c ∈ reduce_sources (-1) (Fission_Matrix_Processor.create (-1) (1 : Nat) (4 : Nat) 0),
      c ≠ -1 ∧ 0 ≤ c ∧ c < ((4 : Nat) : Int)) ∧
    (reduce_sources (-1) (Fission_Matrix_Processor.create (-1) (1 : Nat) (4 : Nat) 0)).length
      ≤ 2 :=
  children_are_valid_ranks (-1) 0 (by decide) 4 1 (by decide) (by decide)

/-- C24: for an old group count `g >= 1` and a coarsening factor `c >= 1` the
collapse vector of a coarsening step is `g / c` entries `c`, followed by the
entry `g mod c` when that is positive; it has `ceil(g / c)` entries, which is
the new group count; every entry is positive; and the entries sum to `g`. -/
theorem collapse_vector_partitions_groups (g c : Nat) (hg : 1 ≤ g) (hc : 1 ≤ c) :
    (coarsen (g : Int) (c : Int)).2 =
      List.replicate (g / c) (c : Int) ++ (if 0 < g % c then [((g % c : Nat) : Int)] else []) ∧
    (coarsen (g : Int) (c : Int)).2.length = ceil_div c g ∧
    (coarsen (g : Int) (c : Int)).1 = ((coarsen (g : Int) (c : Int)).2.length : Int) ∧
    (∀ e ∈ (coarsen (g : Int) (c : Int)).2, 0 < e) ∧
    (coarsen (g : Int) (c : Int)).2.sum = (g : Int) ∧
    1 ≤ (coarsen (g : Int) (c : Int)).2.length := by
  have hq : Int.tdiv (g : Int) (c : Int) = ((g / c : Nat) : Int) := (Int.ofNat_tdiv g c).symm
  have hr : Int.tmod (g : Int) (c : Int) = ((g % c : Nat) : Int) := (Int.ofNat_tmod g c).symm
  have hdm := Nat.div_add_mod g c
  have hfst := coarsen_fst g c hc
  have hshape : (coarsen (g : Int) (c : Int)).2 =
      List.replicate (g / c) (c : Int) ++
        (if 0 < g % c then [((g % c : Nat) : Int)] else []) := by
    unfold coarsen
    simp only [hq, hr, Int.toNat_ofNat]
    by_cases hpos : 0 < g % c
    · rw [if_pos (by exact_mod_cast hpos), if_pos hpos]
    · rw [if_neg (by exact_mod_cast hpos), if_neg hpos]; simp
  have hlen : ((coarsen (g : Int) (c : Int)).2.length : Int) = (coarsen (g : Int) (c : Int)).1 := by
    unfold coarsen
    simp only [hq, hr, Int.toNat_ofNat]
    by_cases hpos : 0 < g % c
    · rw [if_pos (by exact_mod_cast hpos)]; simp
    · rw [if_neg (by exact_mod_cast hpos)]; simp
  have hlenN : (coarsen (g : Int) (c : Int)).2.length = ceil_div c g := by
    have := hlen.trans hfst
    exact_mod_cast this
  refine ⟨hshape, hlenN, hlen.symm, ?_, ?_, ?_⟩
  · intro e he
    rw [hshape] at he
    rcases List.mem_append.1 he with h | h
    · rw [List.eq_of_mem_replicate h]; exact_mod_cast hc
    · by_cases hpos : 0 < g % c
      · rw [if_pos hpos] at h
        rw [List.mem_singleton.1 h]; exact_mod_cast hpos
      · rw [if_neg hpos] at h; exact absurd h (List.not_mem_nil e)
  · rw [hshape, List.sum_append, List.sum_replicate]
    by_cases hpos : 0 < g % c
    · rw [if_pos hpos]
      simp only [List.sum_cons, List.sum_nil, add_zero, nsmul_eq_mul]
      have : ((g / c : Nat) : Int) * (c : Int) + ((g % c : Nat) : Int) = (g : Int) := by
        have h2 : c * (g / c) + g % c = g := hdm
        rw [Nat.mul_comm] at h2
        exact_mod_cast h2
      exact this
    · rw [if_neg hpos]
      have h0 : g % c = 0 := by omega
      simp only [List.sum_nil, add_zero, nsmul_eq_mul]
      have h2 : c * (g / c) + g % c = g := hdm
      rw [h0, Nat.mul_comm] at h2
      exact_mod_cast h2
  · rw [hlenN]; exact ceil_div_pos c g hc hg

theorem collapse_vector_partitions_groups_witness :
    (coarsen ((7 : Nat) : Int) ((3 : Nat) : Int)).2 =
      List.replicate (7 / 3) ((3 : Nat) : Int) ++
        (if 0 < 7 % 3 then [((7 % 3 : Nat) : Int)] else []) ∧
    (coarsen ((7 : Nat) : Int) ((3 : Nat) : Int)).2.length = ceil_div 3 7 ∧
    (coarsen ((7 : Nat) : Int) ((3 : Nat) : Int)).1 =
      ((coarsen ((7 : Nat) : Int) ((3 : Nat) : Int)).2.length : Int) ∧
    (∀ e ∈ (coarsen ((7 : Nat) : Int) ((3 : Nat) : Int)).2, 0 < e) ∧
    (coarsen ((7 : Nat) : Int) ((3 : Nat) : Int)).2.sum = ((7 : Nat) : Int) ∧
    1 ≤ (coarsen ((7 : Nat) : Int) ((3 : Nat) : Int)).2.length :=
  collapse_vector_partitions_groups 7 3 (by decide) (by decide)

/-! ### The events of a V-cycle -/

section
variable {M O S V : Type}

theorem assign_num_levels (a a' : Energy_Multigrid O S V) (k : Stack) (l : Nat) (v : V)
    (h : a.assign k l v = some a') :
    a'.d_num_levels = a.d_num_levels ∧ l < a.stack_length k := by
  cases k
  all_goals
    simp only [Energy_Multigrid.assign] at h
    split at h
    · cases h
      exact ⟨rfl, by assumption⟩
    · cases h

theorem opt_apply_num_levels (svc : Multigrid_Services M O S V) (op : O)
    (src dst : Stack × Nat) (a a' : Energy_Multigrid O S V)
    (h : opt_apply svc op src dst a = some a') : a'.d_num_levels = a.d_num_levels := by
  simp only [opt_apply, Option.bind_eq_some] at h
  obtain ⟨x, -, h⟩ := h
  exact (assign_num_levels _ _ _ _ _ h).1

theorem mv_add_mv_num_levels [AddCommGroup V] (plus : Bool) (va vb dst : Stack × Nat)
    (a a' : Energy_Multigrid O S V) (h : mv_add_mv plus va vb dst a = some a') :
    a'.d_num_levels = a.d_num_levels := by
  simp only [mv_add_mv, Option.bind_eq_some] at h
  obtain ⟨x, -, y, -, h⟩ := h
  exact (assign_num_levels _ _ _ _ _ h).1

theorem smoother_solve_num_levels (svc : Multigrid_Services M O S V) (l : Nat)
    (a a' : Energy_Multigrid O S V) (h : smoother_solve svc l a = some a') :
    a'.d_num_levels = a.d_num_levels := by
  simp only [smoother_solve, Option.bind_eq_some] at h
  obtain ⟨s, -, x, -, b, -, h⟩ := h
  exact (assign_num_levels _ _ _ _ _ h).1

theorem restrict_and_smooth_events [AddCommGroup V] (svc : Multigrid_Services M O S V)
    (L l : Nat) (st st' : Energy_Multigrid O S V × List Cycle_Event)
    (hL : st.1.d_num_levels = (L : Int)) (h : restrict_and_smooth svc l st = some st') :
    st'.1.d_num_levels = (L : Int) ∧
    st'.2 = st.2 ++ ([Cycle_Event.restrict l, Cycle_Event.smooth l] ++
      (if l + 1 ≠ L then [Cycle_Event.residual l] else [])) := by
  simp only [restrict_and_smooth, Option.bind_eq_some] at h
  obtain ⟨r, -, mg1, h1, mg2, h2, mg3, h3, h⟩ := h
  have n1 := opt_apply_num_levels _ _ _ _ _ _ h1
  have n2 := (assign_num_levels _ _ _ _ _ h2).1
  have n3 := smoother_solve_num_levels _ _ _ _ h3
  have hn3 : mg3.d_num_levels = (L : Int) := by rw [n3, n2, n1, hL]
  rw [hn3] at h
  by_cases hc : l + 1 ≠ L
  · have hc' : (l : Int) ≠ (L : Int) - 1 := by omega
    rw [if_pos hc'] at h
    simp only [Option.bind_eq_some] at h
    obtain ⟨a, -, mg4, h4, mg5, h5, h⟩ := h
    have n4 := opt_apply_num_levels _ _ _ _ _ _ h4
    have n5 := mv_add_mv_num_levels _ _ _ _ _ _ h5
    cases h
    refine ⟨by rw [n5, n4, hn3], ?_⟩
    rw [if_pos hc]
    simp
  · have hc' : ¬ (l : Int) ≠ (L : Int) - 1 := by omega
    rw [if_neg hc'] at h
    cases h
    refine ⟨hn3, ?_⟩
    rw [if_neg hc]
    simp

theorem prolong_and_smooth_events [AddCommGroup V] (svc : Multigrid_Services M O S V)
    (L l : Nat) (st st' : Energy_Multigrid O S V × List Cycle_Event)
    (hL : st.1.d_num_levels = (L : Int)) (h : prolong_and_smooth svc l st = some st') :
    st'.1.d_num_levels = (L : Int) ∧
    st'.2 = st.2 ++ [Cycle_Event.prolong l, Cycle_Event.smooth l] := by
  simp only [prolong_and_smooth, Option.bind_eq_some] at h
  obtain ⟨p, -, mg1, h1, mg2, h2, mg3, h3, h⟩ := h
  have n1 := opt_apply_num_levels _ _ _ _ _ _ h1
  have n2 := mv_add_mv_num_levels _ _ _ _ _ _ h2
  have n3 := smoother_solve_num_levels _ _ _ _ h3
  cases h
  exact ⟨by rw [n3, n2, n1, hL], rfl⟩

theorem down_loop_events [AddCommGroup V] (svc : Multigrid_Services M O S V) (L : Nat) :
    ∀ (count l : Nat) (st st' : Energy_Multigrid O S V × List Cycle_Event),
      st.1.d_num_levels = (L : Int) → down_loop svc count l st = some st' →
      st'.1.d_num_levels = (L : Int) ∧ st'.2 = st.2 ++ down_events L count l
  | 0, l, st, st', hL, h => by
      simp only [down_loop, Option.some.injEq] at h
      subst h
      exact ⟨hL, by simp [down_events]⟩
  | count + 1, l, st, st', hL, h => by
      simp only [down_loop, Option.bind_eq_some] at h
      obtain ⟨st1, h1, h2⟩ := h
      obtain ⟨n1, e1⟩ := restrict_and_smooth_events svc L l st st1 hL h1
      obtain ⟨n2, e2⟩ := down_loop_events svc L count (l + 1) st1 st' n1 h2
      refine ⟨n2, ?_⟩
      rw [e2, e1]
      simp [down_events]

theorem up_loop_events [AddCommGroup V] (svc : Multigrid_Services M O S V) (L : Nat) :
    ∀ (count : Nat) (st st' : Energy_Multigrid O S V × List Cycle_Event),
      st.1.d_num_levels = (L : Int) → up_loop svc count st = some st' →
      st'.1.d_num_levels = (L : Int) ∧ st'.2 = st.2 ++ up_events count
  | 0, st, st', hL, h => by
      simp only [up_loop, Option.some.injEq] at h
      subst h
      exact ⟨hL, by simp [up_events]⟩
  | count + 1, st, st', hL, h => by
      simp only [up_loop, Option.bind_eq_some] at h
      obtain ⟨st1, h1, h2⟩ := h
      obtain ⟨n1, e1⟩ := prolong_and_smooth_events svc L count st st1 hL h1
      obtain ⟨n2, e2⟩ := up_loop_events svc L count st1 st' n1 h2
      refine ⟨n2, ?_⟩
      rw [e2, e1]
      simp [up_events]

theorem apply_vector_events [AddCommGroup V] (svc : Multigrid_Services M O S V) (L : Nat)
    (xi : V) (st st' : Energy_Multigrid O S V × List Cycle_Event)
    (hL : st.1.d_num_levels = (L : Int)) (h : apply_vector svc xi st = some st') :
    st'.1.d_num_levels = (L : Int) ∧ st'.2 = st.2 ++ v_cycle_events L := by
  simp only [apply_vector, Option.bind_eq_some] at h
  obtain ⟨mg1, h1, mg2, h2, mg3, h3, st4, h4, h5⟩ := h
  have n1 := (assign_num_levels _ _ _ _ _ h1).1
  have n2 := (assign_num_levels _ _ _ _ _ h2).1
  have n3 := (assign_num_levels _ _ _ _ _ h3).1
  have hn3 : mg3.d_num_levels = (L : Int) := by rw [n3, n2, n1, hL]
  have ht3 : mg3.d_num_levels.toNat = L := by rw [hn3]; rfl
  rw [ht3] at h4
  obtain ⟨n4, e4⟩ := down_loop_events svc L (L - 1) 1 (mg3, st.2) st4 hn3 h4
  have ht4 : st4.1.d_num_levels.toNat = L := by rw [n4]; rfl
  rw [ht4] at h5
  obtain ⟨n5, e5⟩ := up_loop_events svc L (L - 1) st4 st' n4 h5
  refine ⟨n5, ?_⟩
  rw [e5, e4]
  simp [v_cycle_events]

theorem apply_vectors_events [AddCommGroup V] (svc : Multigrid_Services M O S V) (L : Nat) :
    ∀ (xs : List V) (ivec : Nat) (st : Energy_Multigrid O S V × List Cycle_Event) (y : List V)
      (st' : Energy_Multigrid O S V × List Cycle_Event) (y' : List V),
      st.1.d_num_levels = (L : Int) → apply_vectors svc xs ivec st y = some (st', y') →
      st'.2 = st.2 ++ (List.replicate xs.length (v_cycle_events L)).flatten
  | [], ivec, st, y, st', y', _, h => by
      simp only [apply_vectors, Option.some.injEq, Prod.mk.injEq] at h
      rw [← h.1]
      simp
  | xi :: xs, ivec, st, y, st', y', hL, h => by
      simp only [apply_vectors, Option.bind_eq_some] at h
      obtain ⟨st1, h1, x0, -, h2⟩ := h
      obtain ⟨n1, e1⟩ := apply_vector_events svc L xi st st1 hL h1
      split at h2
      · have e2 := apply_vectors_events svc L xs (ivec + 1) st1 _ st' y' n1 h2
        rw [e2, e1]
        simp [List.replicate_succ]
      · cases h2

theorem ApplyImpl_events [AddCommGroup V] (svc : Multigrid_Services M O S V) (L : Nat)
    (mg : Energy_Multigrid O S V) (x y : List V)
    (st' : Energy_Multigrid O S V × List Cycle_Event) (y' : List V)
    (hL : mg.d_num_levels = (L : Int)) (h : ApplyImpl svc mg x y = some (st', y')) :
    st'.2 = (List.replicate x.length (v_cycle_events L)).flatten := by
  unfold ApplyImpl at h
  split at h
  · have := apply_vectors_events svc L x 0 (mg, []) y st' y' hL h
    simpa using this
  · cases h

end

theorem count_smooth (l : Nat) :
    ∀ es : List Cycle_Event,
      es.count (Cycle_Event.smooth l) = (es.filterMap Cycle_Event.smoothed).count l
  | [] => rfl
  | e :: es => by
      have ih := count_smooth l es
      cases e with
      | smooth k =>
          simp only [List.filterMap_cons, Cycle_Event.smoothed, List.count_cons, ih,
            beq_iff_eq, Cycle_Event.smooth.injEq]
      | restrict k => simp [Cycle_Event.smoothed, List.count_cons, ih]
      | residual k => simp [Cycle_Event.smoothed, List.count_cons, ih]
      | prolong k => simp [Cycle_Event.smoothed, List.count_cons, ih]

theorem down_events_smoothed (L : Nat) :
    ∀ count l : Nat,
      (down_events L count l).filterMap Cycle_Event.smoothed = List.range' l count
  | 0, _ => rfl
  | count + 1, l => by
      have ih := down_events_smoothed L count (l + 1)
      by_cases h : l + 1 ≠ L
      · simp [down_events, h, Cycle_Event.smoothed, ih, List.range'_succ]
      · simp [down_events, h, Cycle_Event.smoothed, ih, List.range'_succ]

theorem up_events_smoothed :
    ∀ count : Nat, (up_events count).filterMap Cycle_Event.smoothed = (List.range count).reverse
  | 0 => rfl
  | count + 1 => by
      have ih := up_events_smoothed count
      simp [up_events, Cycle_Event.smoothed, ih, List.range_succ]

theorem down_events_residual (L k : Nat) :
    ∀ count l : Nat,
      Cycle_Event.residual k ∈ down_events L count l ↔ (l ≤ k ∧ k < l + count ∧ k + 1 ≠ L)
  | 0, l => by simp [down_events]; omega
  | count + 1, l => by
      have ih := down_events_residual L k count (l + 1)
      by_cases h : l + 1 ≠ L
      · simp only [down_events, h, if_true, ne_eq, not_false_eq_true, List.mem_append,
          List.mem_cons, List.mem_singleton, reduceCtorEq, Cycle_Event.residual.injEq,
          List.not_mem_nil, or_false, false_or, ih]
        constructor
        · rintro (h1 | h1)
          · subst h1; exact ⟨le_refl _, by omega, h⟩
          · exact ⟨by omega, by omega, h1.2.2⟩
        · rintro ⟨h1, h2, h3⟩
          by_cases hk : k = l
          · exact Or.inl hk
          · exact Or.inr ⟨by omega, by omega, h3⟩
      · simp only [down_events, h, if_false, List.mem_append,
          List.mem_cons, List.mem_singleton, reduceCtorEq,
          List.not_mem_nil, or_false, false_or, ih]
        constructor
        · rintro h1
          exact ⟨by omega, by omega, h1.2.2⟩
        · rintro ⟨h1, h2, h3⟩
          have hk : k ≠ l := by omega
          exact ⟨by omega, by omega, h3⟩

theorem up_events_residual (k : Nat) :
    ∀ count : Nat, Cycle_Event.residual k ∉ up_events count
  | 0 => by simp [up_events]
  | count + 1 => by
      have ih := up_events_residual k count
      simp [up_events, ih]

theorem up_events_last : ∀ count : Nat, 1 ≤ count →
    (up_events count).getLast? = some (Cycle_Event.smooth 0)
  | 0, h => absurd h (by omega)
  | 1, _ => rfl
  | count + 2, _ => by
      have ih := up_events_last (count + 1) (by omega)
      have hne : up_events (count + 1) ≠ [] := by simp [up_events]
      rw [up_events, List.getLast?_append_of_ne_nil _ hne]
      exact ih

theorem mem_smooth_iff (l : Nat) (es : List Cycle_Event) :
    Cycle_Event.smooth l ∈ es ↔ l ∈ es.filterMap Cycle_Event.smoothed := by
  rw [List.mem_filterMap]
  constructor
  · intro h
    exact ⟨_, h, rfl⟩
  · rintro ⟨e, he, hs⟩
    cases e <;> simp only [Cycle_Event.smoothed, Option.some.injEq, reduceCtorEq] at hs
    subst hs
    exact he

theorem v_cycle_smoothed (L : Nat) :
    (v_cycle_events L).filterMap Cycle_Event.smoothed =
      List.range' 1 (L - 1) ++ (List.range (L - 1)).reverse := by
  rw [v_cycle_events, List.filterMap_append, down_events_smoothed, up_events_smoothed]

theorem v_cycle_smooth_lt (L l : Nat) (h : Cycle_Event.smooth l ∈ v_cycle_events L) :
    l + 1 ≤ L := by
  rw [mem_smooth_iff, v_cycle_smoothed, List.mem_append, List.mem_range'_1, List.mem_reverse,
    List.mem_range] at h
  omega

section
variable {M O S V : Type}

theorem assign_spec (a a' : Energy_Multigrid O S V) (k : Stack) (l : Nat) (v : V)
    (h : a.assign k l v = some a') :
    Same_shape a a' ∧
      ∀ k' l', a'.vector k' l' = if (k', l') = (k, l) then some v else a.vector k' l' := by
  obtain ⟨a2, h2, hs, hv⟩ := assign_eq_some a k l v (assign_num_levels a a' k l v h).2
  rw [h] at h2
  cases h2
  exact ⟨hs, hv⟩

/-- An upward step smooths the sum of the prolonged coarser solution and the
solution of the level. -/
theorem prolong_and_smooth_value [AddCommGroup V] (svc : Multigrid_Services M O S V)
    (l : Nat) (st st' : Energy_Multigrid O S V × List Cycle_Event)
    (h : prolong_and_smooth svc l st = some st') :
    ∃ p s xc xl b, st.1.d_prolongations[l]? = some p ∧ st.1.d_smoothers[l]? = some s ∧
      st.1.vector .solutions (l + 1) = some xc ∧ st.1.vector .solutions l = some xl ∧
      st.1.vector .rhss l = some b ∧
      st'.1.vector .solutions l = some (svc.solve s (svc.apply p xc + xl) b) := by
  simp only [prolong_and_smooth, Option.bind_eq_some] at h
  obtain ⟨p, hp, mg1, h1, mg2, h2, mg3, h3, h⟩ := h
  cases h
  simp only [opt_apply, Option.bind_eq_some] at h1
  obtain ⟨xc, hxc, h1⟩ := h1
  obtain ⟨hs1, hv1⟩ := assign_spec _ _ _ _ _ h1
  simp only [mv_add_mv, Option.bind_eq_some, if_true] at h2
  obtain ⟨va, hva, vb, hvb, h2⟩ := h2
  obtain ⟨hs2, hv2⟩ := assign_spec _ _ _ _ _ h2
  simp only [smoother_solve, Option.bind_eq_some] at h3
  obtain ⟨s, hsm, x, hx, b, hb, h3⟩ := h3
  obtain ⟨hs3, hv3⟩ := assign_spec _ _ _ _ _ h3
  rw [hv1] at hva hvb
  simp only [if_true, Prod.mk.injEq, reduceCtorEq, false_and, if_false,
    Option.some.injEq] at hva hvb
  rw [hv2] at hx hb
  simp only [if_true, Prod.mk.injEq, reduceCtorEq, false_and, if_false,
    Option.some.injEq] at hx hb
  rw [hv1] at hb
  simp only [Prod.mk.injEq, reduceCtorEq, false_and, if_false] at hb
  refine ⟨p, s, xc, vb, b, hp, ?_, hxc, hvb, hb, ?_⟩
  · rw [hs1.2.2.2.2.1, hs2.2.2.2.2.1]; exact hsm
  · rw [hv3]
    simp only [if_true]
    rw [← hx, ← hva]

end

/-! ## The claims on the V-cycle and on the coarse solver -/

/-- C23: on a hierarchy of `L >= 2` levels `ApplyImpl` runs, for each of its
input vectors, one V-cycle: on the way down the restriction onto each of the
levels `1 .. L-1` followed by its smoother and, on all but the coarsest
level, its residual; on the way up, for the levels `L-2 .. 0`, the
prolongation with correction followed by the smoother.  The smoothers are
called at the levels `1, ..., L-1, L-2, ..., 0` in this order: level 0 once,
as the last event and not on the way down, level `L-1` once, each level
between them twice; residuals are computed at the levels `1 .. L-2` only; and
an upward step smooths, as first guess, the prolonged solution of the coarser
level plus the solution of the level. -/
theorem v_cycle_smoothing_order {M O S V : Type} [AddCommGroup V]
    (svc : Multigrid_Services M O S V) (mg : Energy_Multigrid O S V) (L : Nat)
    (x y : List V) (hwf : Well_formed mg L) (hL : 2 ≤ L) (hxy : y.length = x.length) :
    (∃ st y', ApplyImpl svc mg x y = some (st, y') ∧
      st.2 = (List.replicate x.length (v_cycle_events L)).flatten) ∧
    (v_cycle_events L).filterMap Cycle_Event.smoothed =
      List.range' 1 (L - 1) ++ (List.range (L - 1)).reverse ∧
    (v_cycle_events L).getLast? = some (Cycle_Event.smooth 0) ∧
    Cycle_Event.smooth 0 ∉ down_events L (L - 1) 1 ∧
    (v_cycle_events L).count (Cycle_Event.smooth 0) = 1 ∧
    (v_cycle_events L).count (Cycle_Event.smooth (L - 1)) = 1 ∧
    (∀ l, 0 < l → l < L - 1 → (v_cycle_events L).count (Cycle_Event.smooth l) = 2) ∧
    (∀ l, Cycle_Event.residual l ∈ v_cycle_events L ↔ (1 ≤ l ∧ l + 2 ≤ L)) ∧
    (∀ (l : Nat) (st0 st1 : Energy_Multigrid O S V × List Cycle_Event),
      prolong_and_smooth svc l st0 = some st1 →
      ∃ p s xc xl b, st0.1.d_prolongations[l]? = some p ∧ st0.1.d_smoothers[l]? = some s ∧
        st0.1.vector .solutions (l + 1) = some xc ∧ st0.1.vector .solutions l = some xl ∧
        st0.1.vector .rhss l = some b ∧
        st1.1.vector .solutions l = some (svc.solve s (svc.apply p xc + xl) b)) := by
  have hcount : ∀ l, (v_cycle_events L).count (Cycle_Event.smooth l) =
      (if 1 ≤ l ∧ l < 1 + (L - 1) then 1 else 0) + (if l < L - 1 then 1 else 0) := by
    intro l
    rw [count_smooth, v_cycle_smoothed, List.count_append, List.count_reverse,
      List.count_eq_of_nodup (List.nodup_range' 1 (L - 1)),
      List.count_eq_of_nodup (List.nodup_range (L - 1))]
    simp only [List.mem_range'_1, List.mem_range]
  refine ⟨?_, v_cycle_smoothed L, ?_, ?_, ?_, ?_, ?_, ?_, ?_⟩
  · obtain ⟨st, y', hrun, -⟩ := apply_vectors_spec svc mg L hwf x 0 mg [] y
      (Same_shape.refl mg) (by omega)
    have hA : ApplyImpl svc mg x y = some (st, y') := by
      unfold ApplyImpl; rw [if_pos hxy]; exact hrun
    exact ⟨st, y', hA, ApplyImpl_events svc L mg x y st y' hwf.1 hA⟩
  · have hne : up_events (L - 1) ≠ [] := by
      obtain ⟨n, hn⟩ : ∃ n, L - 1 = n + 1 := ⟨L - 2, by omega⟩
      rw [hn]; simp [up_events]
    rw [v_cycle_events, List.getLast?_append_of_ne_nil _ hne]
    exact up_events_last (L - 1) (by omega)
  · rw [mem_smooth_iff, down_events_smoothed, List.mem_range'_1]
    omega
  · rw [hcount]
    rw [if_neg (by omega), if_pos (by omega)]
  · rw [hcount]
    rw [if_pos (by omega), if_neg (by omega)]
  · intro l h0 h1
    rw [hcount]
    rw [if_pos (by omega), if_pos (by omega)]
  · intro l
    rw [v_cycle_events, List.mem_append, down_events_residual]
    constructor
    · rintro (h | h)
      · omega
      · exact absurd h (up_events_residual l _)
    · intro h
      exact Or.inl (by omega)
  · intro l st0 st1 h
    exact prolong_and_smooth_value svc l st0 st1 h

theorem v_cycle_smoothing_order_witness :
    (∃ st y', ApplyImpl function_services three_levels [1, 4] [0, 0] = some (st, y') ∧
      st.2 = (List.replicate ([1, 4] : List ℚ).length (v_cycle_events 3)).flatten) ∧
    (v_cycle_events 3).filterMap Cycle_Event.smoothed =
      List.range' 1 (3 - 1) ++ (List.range (3 - 1)).reverse ∧
    (v_cycle_events 3).getLast? = some (Cycle_Event.smooth 0) ∧
    Cycle_Event.smooth 0 ∉ down_events 3 (3 - 1) 1 ∧
    (v_cycle_events 3).count (Cycle_Event.smooth 0) = 1 ∧
    (v_cycle_events 3).count (Cycle_Event.smooth (3 - 1)) = 1 ∧
    (∀ l, 0 < l → l < 3 - 1 → (v_cycle_events 3).count (Cycle_Event.smooth l) = 2) ∧
    (∀ l, Cycle_Event.residual l ∈ v_cycle_events 3 ↔ (1 ≤ l ∧ l + 2 ≤ 3)) ∧
    (∀ (l : Nat) (st0 st1 : Energy_Multigrid (ℚ → ℚ) (ℚ → ℚ → ℚ) ℚ × List Cycle_Event),
      prolong_and_smooth function_services l st0 = some st1 →
      ∃ p s xc xl b, st0.1.d_prolongations[l]? = some p ∧ st0.1.d_smoothers[l]? = some s ∧
        st0.1.vector .solutions (l + 1) = some xc ∧ st0.1.vector .solutions l = some xl ∧
        st0.1.vector .rhss l = some b ∧
        st1.1.vector .solutions l =
          some (function_services.solve s (function_services.apply p xc + xl) b)) :=
  v_cycle_smoothing_order function_services three_levels 3 [1, 4] [0, 0]
    ⟨rfl, by decide, fun k => by cases k <;> decide, by decide, by decide, by decide,
      by decide⟩ (by decide) rfl

theorem level_loop_smoothers {M O S V : Type} (svc : Multigrid_Services M O S V) (c D : Int) :
    ∀ (fuel : Nat) (s s' : Level_Loop M O S V) (n : Nat),
      level_loop svc c D fuel s = some s' → s.level = (n : Int) →
      s.mg.d_smoothers.length = n + 1 →
      ∃ m : Nat, n < m ∧ s'.level = (m : Int) ∧ s'.mg.d_smoothers.length = m + 1
  | 0, _, _, _, h, _, _ => by simp [level_loop] at h
  | fuel + 1, s, s', n, h, hlev, hlen => by
      obtain ⟨hl, -, -, -, hs⟩ := level_step_fields svc c s
      simp only [level_loop] at h
      split at h
      · obtain ⟨m, hm, h1, h2⟩ := level_loop_smoothers svc c D fuel _ s' (n + 1) h
          (by rw [hl, hlev]; push_cast; ring) (by rw [hs, hlen])
        exact ⟨m, by omega, h1, h2⟩
      · simp only [Option.some.injEq] at h
        subst h
        exact ⟨n + 1, by omega, by rw [hl, hlev]; push_cast; ring, by rw [hs, hlen]⟩

/-- C22: when the preconditioner database has a "Coarse Solver" sublist, the
constructor appends the coarse solver to the smoother stack instead of
replacing the smoother of the coarsest level: the stack has
`d_num_levels + 1` entries, the entry at index `d_num_levels - 1` is still
the solver built from the "Smoother" sublist for the coarsest operator, and
the coarse solver sits at index `d_num_levels`, which no smoother call of
`ApplyImpl` uses. -/
theorem coarse_solver_is_appended {M O S V : Type} [AddCommGroup V]
    (svc : Multigrid_Services M O S V) (coarse_factor max_depth : Int) (mat_db : M)
    (fine_operator fine_matrix : O) (fuel : Nat) (mg : Energy_Multigrid O S V)
    (h : Energy_Multigrid.create svc coarse_factor max_depth true mat_db fine_operator
      fine_matrix fuel = some mg) :
    ∃ (L : Nat) (system : O) (prec : Option O),
      mg.d_num_levels = (L : Int) ∧ 2 ≤ L ∧
      mg.d_smoothers.length = L + 1 ∧
      mg.d_operators.getLast? = some system ∧
      mg.d_preconditioners.getLast? = some prec ∧
      mg.d_smoothers[L - 1]? = some (configured_solver svc "Smoother" system prec system) ∧
      mg.d_smoothers[L]? = some (configured_solver svc "Coarse Solver" system prec system) ∧
      ∀ (x y y' : List V) (st : Energy_Multigrid O S V × List Cycle_Event),
        ApplyImpl svc mg x y = some (st, y') →
        ∀ l, Cycle_Event.smooth l ∈ st.2 → l ≤ L - 1 := by
  unfold Energy_Multigrid.create at h
  cases hloop : level_loop svc coarse_factor max_depth fuel
      (fine_level svc mat_db fine_operator fine_matrix) with
  | none => rw [hloop] at h; cases h
  | some s =>
      rw [hloop] at h
      obtain ⟨m, hm, hlev, hlen⟩ := level_loop_smoothers svc coarse_factor max_depth fuel _ s 0
        hloop rfl rfl
      obtain ⟨s0, hs0⟩ := level_loop_last_step svc _ _ fuel _ _ hloop
      have hops : s.mg.d_operators.getLast? =
          some (svc.build_system (svc.collapse_all_mats s0.new_mat
            (coarsen s0.new_groups coarse_factor).2
            (List.replicate s0.new_groups.toNat 1))) := by
        rw [hs0]; simp [level_step]
      have hprec : s.mg.d_preconditioners.getLast? =
          some (svc.build_preconditioner (svc.build_system (svc.collapse_all_mats s0.new_mat
            (coarsen s0.new_groups coarse_factor).2
            (List.replicate s0.new_groups.toNat 1))) "Smoother") := by
        rw [hs0]; simp [level_step]
      have hsm : s.mg.d_smoothers.getLast? =
          some (configured_solver svc "Smoother"
            (svc.build_system (svc.collapse_all_mats s0.new_mat
              (coarsen s0.new_groups coarse_factor).2
              (List.replicate s0.new_groups.toNat 1)))
            (svc.build_preconditioner (svc.build_system (svc.collapse_all_mats s0.new_mat
              (coarsen s0.new_groups coarse_factor).2
              (List.replicate s0.new_groups.toNat 1))) "Smoother")
            (svc.build_system (svc.collapse_all_mats s0.new_mat
              (coarsen s0.new_groups coarse_factor).2
              (List.replicate s0.new_groups.toNat 1)))) := by
        rw [hs0]; simp [level_step]
      simp only [if_true, hops, hprec] at h
      cases h
      have hL : (s.level + 1 : Int) = ((m + 1 : Nat) : Int) := by rw [hlev]; push_cast; ring
      refine ⟨m + 1, _, _, hL, by omega, ?_, hops, hprec, ?_, ?_, ?_⟩
      · simp only [List.length_append, List.length_singleton, hlen]
      · show (s.mg.d_smoothers ++ _)[m + 1 - 1]? = _
        rw [List.getElem?_append_left (by rw [hlen]; omega), ← hsm, List.getLast?_eq_getElem?,
          hlen]
      · show (s.mg.d_smoothers ++ _)[m + 1]? = _
        rw [List.getElem?_append_right (by rw [hlen]), hlen]
        simp
      · intro x y y' st hA l hl
        have hev := ApplyImpl_events svc (m + 1) _ x y st y' hL hA
        rw [hev, List.mem_flatten] at hl
        obtain ⟨es, hes, hl⟩ := hl
        rw [List.eq_of_mem_replicate hes] at hl
        have := v_cycle_smooth_lt (m + 1) l hl
        omega

theorem coarse_solver_is_appended_witness :
    Energy_Multigrid.create count_services 2 10 true 4 0 0 10 = some four_groups_built ∧
    ∃ (L : Nat) (system : Int) (prec : Option Int),
      four_groups_built.d_num_levels = (L : Int) ∧ 2 ≤ L ∧
      four_groups_built.d_smoothers.length = L + 1 ∧
      four_groups_built.d_operators.getLast? = some system ∧
      four_groups_built.d_preconditioners.getLast? = some prec ∧
      four_groups_built.d_smoothers[L - 1]? =
        some (configured_solver count_services "Smoother" system prec system) ∧
      four_groups_built.d_smoothers[L]? =
        some (configured_solver count_services "Coarse Solver" system prec system) ∧
      ∀ (x y y' : List Int) (st : Energy_Multigrid Int String Int × List Cycle_Event),
        ApplyImpl count_services four_groups_built x y = some (st, y') →
        ∀ l, Cycle_Event.smooth l ∈ st.2 → l ≤ L - 1 :=
  ⟨rfl, coarse_solver_is_appended count_services 2 10 4 0 0 10 four_groups_built rfl⟩

/-! ### Positions of a mixed-radix grid -/

theorem flat_index_lt (R C row col : Nat) (hr : row < R) (hc : col < C) :
    row * C + col < R * C := by
  have h : (row + 1) * C ≤ R * C := Nat.mul_le_mul_right C hr
  rw [Nat.add_mul] at h
  omega

theorem flat_index_inj (C row col row2 col2 : Nat) (hc : col < C) (hc2 : col2 < C)
    (h : row * C + col = row2 * C + col2) : row = row2 ∧ col = col2 := by
  have hC : 0 < C := by omega
  have h1 : (row * C + col) / C = row := by
    rw [Nat.mul_comm, Nat.mul_add_div hC, Nat.div_eq_of_lt hc, Nat.add_zero]
  have h2 : (row2 * C + col2) / C = row2 := by
    rw [Nat.mul_comm, Nat.mul_add_div hC, Nat.div_eq_of_lt hc2, Nat.add_zero]
  have hrow : row = row2 := by rw [← h1, ← h2, h]
  subst hrow
  exact ⟨rfl, by omega⟩

theorem mixed_lt (A B C a b c : Nat) (ha : a < A) (hb : b < B) (hc : c < C) :
    c + (C * B * a + C * b) < A * B * C := by
  have h1 : C * (b + 1) ≤ C * B := Nat.mul_le_mul_left C hb
  have h2 : C * B * (a + 1) ≤ C * B * A := Nat.mul_le_mul_left (C * B) ha
  have h3 : C * B * A = A * B * C := by ring
  rw [Nat.mul_add] at h1 h2
  omega

theorem mixed_hi (B C a b c : Nat) (hb : b < B) (hc : c < C) :
    (c + (C * B * a + C * b)) / (C * B) = a := by
  have h1 : C * (b + 1) ≤ C * B := Nat.mul_le_mul_left C hb
  rw [Nat.mul_add] at h1
  have hpos : 0 < C * B := by omega
  have e : c + (C * B * a + C * b) = C * B * a + (C * b + c) := by omega
  rw [e, Nat.mul_add_div hpos, Nat.div_eq_of_lt (by omega), Nat.add_zero]

theorem mixed_mid (B C a b c : Nat) (hb : b < B) (hc : c < C) :
    ((c + (C * B * a + C * b)) / C) % B = b := by
  have hC : 0 < C := by omega
  have e : c + (C * B * a + C * b) = C * (B * a + b) + c := by ring
  rw [e, Nat.mul_add_div hC, Nat.div_eq_of_lt hc, Nat.add_zero, Nat.mul_add_mod,
    Nat.mod_eq_of_lt hb]

/-! ### Assignments to the material-id array -/

theorem Dims_write (R C : Nat) (st : Matids_State) (w : (Nat × Nat) × Int)
    (h : Dims R C st) : Dims R C (write_cell st w) := by
  obtain ⟨h1, h2, h3⟩ := h
  exact ⟨h1, h2, by simp [write_cell, h3]⟩

theorem Dims_perform (R C : Nat) :
    ∀ (ws : List ((Nat × Nat) × Int)) (st : Matids_State), Dims R C st →
      Dims R C (perform ws st)
  | [], _, h => h
  | w :: ws, st, h => Dims_perform R C ws (write_cell st w) (Dims_write R C st w h)

theorem perform_append (ws ws2 : List ((Nat × Nat) × Int)) (st : Matids_State) :
    perform (ws ++ ws2) st = perform ws2 (perform ws st) := by
  simp [perform, List.foldl_append]

theorem perform_log :
    ∀ (ws : List ((Nat × Nat) × Int)) (st : Matids_State),
      (perform ws st).2 = st.2 ++ ws.map (fun w => ((w.1.1 : Int), (w.1.2 : Int)))
  | [], st => by simp [perform]
  | w :: ws, st => by
      have ih := perform_log ws (write_cell st w)
      show (perform ws (write_cell st w)).2 = _
      rw [ih]
      simp [write_cell]

theorem get_write (R C : Nat) (st : Matids_State) (row col row2 col2 : Nat) (v : Int)
    (h : Dims R C st) (hr : row < R) (hc : col < C) (hr2 : row2 < R) (hc2 : col2 < C) :
    (write_cell st ((row, col), v)).1.get (row2 : Int) (col2 : Int) =
      if (row2, col2) = (row, col) then some v else st.1.get (row2 : Int) (col2 : Int) := by
  obtain ⟨h1, h2, h3⟩ := h
  have hin : (0 : Int) ≤ (row2 : Int) ∧ (row2 : Int) < ((R : Nat) : Int) ∧
      (0 : Int) ≤ (col2 : Int) ∧ (col2 : Int) < ((C : Nat) : Int) :=
    ⟨by omega, by omega, by omega, by omega⟩
  simp only [TwoDArray_int.get, write_cell, h1, h2, hin, and_self, if_true, Int.toNat_ofNat]
  by_cases he : (row2, col2) = (row, col)
  · rw [if_pos he]
    simp only [Prod.mk.injEq] at he
    obtain ⟨rfl, rfl⟩ := he
    rw [List.getElem?_set_self]
    rw [h3]
    exact flat_index_lt R C row2 col2 hr2 hc2
  · rw [if_neg he]
    rw [List.getElem?_set_ne]
    intro hidx
    apply he
    obtain ⟨e1, e2⟩ := flat_index_inj C row col row2 col2 hc hc2 hidx
    rw [e1, e2]

theorem perform_untouched (R C : Nat) (row col : Nat) (hr : row < R) (hc : col < C) :
    ∀ (ws : List ((Nat × Nat) × Int)) (st : Matids_State), Dims R C st →
      (∀ w ∈ ws, w.1.1 < R ∧ w.1.2 < C) → (row, col) ∉ ws.map Prod.fst →
      (perform ws st).1.get (row : Int) (col : Int) = st.1.get (row : Int) (col : Int)
  | [], _, _, _, _ => rfl
  | w :: ws, st, h, hin, hnot => by
      have hw := hin w (List.mem_cons_self _ _)
      have hne : (row, col) ≠ w.1 := fun e => hnot (by rw [e]; simp)
      have ih := perform_untouched R C row col hr hc ws (write_cell st w)
        (Dims_write R C st w h) (fun x hx => hin x (List.mem_cons_of_mem _ hx))
        (fun hmem => hnot (by simp only [List.map_cons, List.mem_cons]; exact Or.inr hmem))
      show (perform ws (write_cell st w)).1.get _ _ = _
      rw [ih]
      obtain ⟨⟨wr, wc⟩, wv⟩ := w
      rw [get_write R C st wr wc row col wv h hw.1 hw.2 hr hc, if_neg hne]

theorem perform_get (R C : Nat) (row col : Nat) (v : Int) (hr : row < R) (hc : col < C) :
    ∀ (ws : List ((Nat × Nat) × Int)) (st : Matids_State), Dims R C st →
      (∀ w ∈ ws, w.1.1 < R ∧ w.1.2 < C) → (ws.map Prod.fst).Nodup →
      ((row, col), v) ∈ ws →
      (perform ws st).1.get (row : Int) (col : Int) = some v
  | [], _, _, _, _, hmem => absurd hmem (List.not_mem_nil _)
  | w :: ws, st, h, hin, hnd, hmem => by
      have hw := hin w (List.mem_cons_self _ _)
      simp only [List.map_cons, List.nodup_cons] at hnd
      show (perform ws (write_cell st w)).1.get _ _ = _
      by_cases he : w.1 = (row, col)
      · have hnot : (row, col) ∉ ws.map Prod.fst := by rw [← he]; exact hnd.1
        have hv : w = ((row, col), v) := by
          rcases List.mem_cons.1 hmem with e | e
          · exact e.symm
          · exact absurd (List.mem_map_of_mem Prod.fst e) hnot
        rw [perform_untouched R C row col hr hc ws (write_cell st w) (Dims_write R C st w h)
          (fun x hx => hin x (List.mem_cons_of_mem _ hx)) hnot, hv,
          get_write R C st row col row col v h hr hc hr hc, if_pos rfl]
      · have hmem2 : ((row, col), v) ∈ ws := by
          rcases List.mem_cons.1 hmem with e | e
          · exact absurd (by rw [← e]) he
          · exact e
        exact perform_get R C row col v hr hc ws (write_cell st w) (Dims_write R C st w h)
          (fun x hx => hin x (List.mem_cons_of_mem _ hx)) hnd.2 hmem2

/-- A list of as many entries as a grid has cells that holds every cell of
the grid holds each of them once. -/
theorem nodup_of_covers (R C : Nat) (ps : List (Nat × Nat)) (hlen : ps.length = R * C)
    (hall : ∀ row col, row < R → col < C → (row, col) ∈ ps) : ps.Nodup := by
  have hsub : Finset.range R ×ˢ Finset.range C ⊆ ps.toFinset := by
    rintro ⟨row, col⟩ hp
    simp only [Finset.mem_product, Finset.mem_range] at hp
    exact List.mem_toFinset.2 (hall row col hp.1 hp.2)
  have hcard : R * C ≤ ps.toFinset.card := by
    have := Finset.card_le_card hsub
    simpa using this
  have hle : ps.toFinset.card ≤ ps.length := List.toFinset_card_le ps
  have heq : ps.toFinset.card = ps.length := by omega
  have hm := (Multiset.toFinset_card_eq_card_iff_nodup
    (m := (ps : Multiset (Nat × Nat)))).1 (by simpa using heq)
  exact Multiset.coe_nodup.1 hm

/-! ### The loops of `calc_axial_matids` -/

theorem for_each_perform (R C : Nat) (body : Int → Matids_State → Option Matids_State)
    (w : Nat → List ((Nat × Nat) × Int)) :
    ∀ (n : Nat), (∀ i, i < n → ∀ st, Dims R C st → body (i : Int) st = some (perform (w i) st)) →
      ∀ st, Dims R C st →
        for_each (n : Int) body st = some (perform ((List.range n).flatMap w) st)
  | 0, _, st, _ => rfl
  | n + 1, hbody, st, hst => by
      have ih := for_each_perform R C body w n (fun i hi => hbody i (by omega)) st hst
      simp only [for_each, Int.toNat_ofNat] at ih ⊢
      rw [List.range_succ, List.foldlM_append, ih]
      simp only [Option.bind_eq_bind, Option.some_bind, List.foldlM_cons, List.foldlM_nil,
        List.flatMap_append, List.flatMap_singleton]
      rw [hbody n (by omega) _ (Dims_perform R C _ st hst), perform_append]
      rfl

theorem assign_cell_eq (R C py px j i : Nat) (matid : Int) (st : Matids_State)
    (hst : Dims R C st) (hrow : j + py < R) (hcol : i + px < C) :
    assign_cell (py : Int) (px : Int) matid (j : Int) (i : Int) st =
      some (write_cell st ((j + py, i + px), matid)) := by
  obtain ⟨h1, h2, h3⟩ := hst
  have e1 : (j : Int) + (py : Int) = ((j + py : Nat) : Int) := by push_cast; rfl
  have e2 : (i : Int) + (px : Int) = ((i + px : Nat) : Int) := by push_cast; rfl
  have c1 : ((i + px : Nat) : Int) < ((C : Nat) : Int) := by exact_mod_cast hcol
  have c2 : ((j + py : Nat) : Int) < ((R : Nat) : Int) := by exact_mod_cast hrow
  have c3 : (j + py) * C + (i + px) < R * C := flat_index_lt R C _ _ hrow hcol
  have c0 : (0 : Int) ≤ ((j + py : Nat) : Int) := Int.ofNat_nonneg _
  have c00 : (0 : Int) ≤ ((i + px : Nat) : Int) := Int.ofNat_nonneg _
  simp only [assign_cell, Check, e1, e2, h1, h2, h3, c1, c2, c3, c0, c00, if_true,
    Option.some_bind, TwoDArray_int.set, Int.toNat_ofNat, and_self, write_cell]

theorem pin_loop_eq (R C r py px : Nat) (matid : Int) (hrow : r + py ≤ R) (hcol : r + px ≤ C)
    (st : Matids_State) (hst : Dims R C st) :
    for_each (r : Int) (fun j st1 =>
        for_each (r : Int) (fun i st2 =>
          assign_cell (py : Int) (px : Int) matid j i st2) st1) st =
      some (perform (pin_writes r py px matid) st) := by
  refine for_each_perform R C _
    (fun j => (List.range r).flatMap (fun i => [((j + py, i + px), matid)])) r
    (fun j hj st1 hst1 => ?_) st hst
  refine for_each_perform R C _ (fun i => [((j + py, i + px), matid)]) r
    (fun i hi st2 hst2 => ?_) st1 hst1
  exact assign_cell_eq R C py px j i matid st2 hst2 (by omega) (by omega)

theorem assign_pin_eq (R C r ax py pj pi : Nat) (matdb : Sublist) (assbly_map : TwoDArray_int)
    (mat_list : List String) (matid : Int)
    (hget : assbly_map.get (pj : Int) (pi : Int) = some matid)
    (hmats : get_array_str matdb "mat list" = some mat_list)
    (hlt : matid < (mat_list.length : Int))
    (hrow : r + py ≤ R) (hcol : r + (ax + r * pi) ≤ C)
    (st : Matids_State) (hst : Dims R C st) :
    assign_pin matdb assbly_map (r : Int) (ax : Int) (py : Int) (pj : Int) (pi : Int) st =
      some (perform (pin_writes r py (ax + r * pi) matid) st) := by
  have e : (ax : Int) + (r : Int) * (pi : Int) = ((ax + r * pi : Nat) : Int) := by
    push_cast; rfl
  simp only [assign_pin, hget, hmats, Check, hlt, if_true, Option.some_bind, e]
  exact pin_loop_eq R C r py (ax + r * pi) matid hrow hcol st hst

theorem assign_assembly_eq (R C r NpI NpJ ay aj ai : Nat) (assblydb matdb : Sublist)
    (assbly_list mat_list : List String) (core_map assbly_map : TwoDArray_int)
    (id : Int) (name : String)
    (hid : core_map.get (aj : Int) (ai : Int) = some id)
    (hidlt : id < (assbly_list.length : Int))
    (hname : array_at assbly_list id = some name)
    (hmap : get_table assblydb name = some assbly_map)
    (hcols : assbly_map.numCols = NpI) (hrows : assbly_map.numRows = NpJ)
    (hpins : ∀ pj, pj < NpJ → ∀ pi, pi < NpI →
      ∃ matid, assbly_map.get (pj : Int) (pi : Int) = some matid ∧
        matid < (mat_list.length : Int))
    (hmats : get_array_str matdb "mat list" = some mat_list)
    (hrow : ay + r * NpJ ≤ R) (hcol : r * NpI * ai + r * NpI ≤ C)
    (st : Matids_State) (hst : Dims R C st) :
    assign_assembly assblydb matdb assbly_list core_map ((NpI : Int), (NpJ : Int)) (r : Int)
        (ay : Int) (aj : Int) (ai : Int) st =
      some (perform (assembly_writes r NpJ NpI ay (r * NpI * ai)
        (fun pj pi => (pin_matid assblydb assbly_list core_map aj ai pj pi).getD 0)) st) := by
  have hpar : isParameter assblydb name = true := by
    unfold get_table at hmap
    unfold isParameter
    cases hl : List.lookup name assblydb with
    | none => rw [hl] at hmap; cases hmap
    | some v => rfl
  have ex : ((r : Int) * (NpI : Int)) * (ai : Int) = ((r * NpI * ai : Nat) : Int) := by
    push_cast; rfl
  simp only [assign_assembly, hid, hidlt, hname, hmap, hpar, hcols, hrows, Check, if_true,
    Option.some_bind, ex]
  refine for_each_perform R C _
    (fun pj => (List.range NpI).flatMap (fun pi =>
      pin_writes r (ay + r * pj) (r * NpI * ai + r * pi)
        ((pin_matid assblydb assbly_list core_map aj ai pj pi).getD 0))) NpJ
    (fun pj hpj st1 hst1 => ?_) st hst
  refine for_each_perform R C _
    (fun pi => pin_writes r (ay + r * pj) (r * NpI * ai + r * pi)
      ((pin_matid assblydb assbly_list core_map aj ai pj pi).getD 0)) NpI
    (fun pi hpi st2 hst2 => ?_) st1 hst1
  obtain ⟨matid, hget, hlt⟩ := hpins pj hpj pi hpi
  have hval : (pin_matid assblydb assbly_list core_map aj ai pj pi).getD 0 = matid := by
    simp only [pin_matid, hid, hname, hmap, hget, Option.some_bind, Option.getD_some]
  beta_reduce
  rw [hval]
  have ey : (ay : Int) + (r : Int) * (pj : Int) = ((ay + r * pj : Nat) : Int) := by
    push_cast; rfl
  rw [ey]
  have h1 : r * (pj + 1) ≤ r * NpJ := Nat.mul_le_mul_left r hpj
  have h2 : r * (pi + 1) ≤ r * NpI := Nat.mul_le_mul_left r hpi
  rw [Nat.mul_add] at h1 h2
  exact assign_pin_eq R C r (r * NpI * ai) (ay + r * pj) pj pi matdb assbly_map mat_list matid
    hget hmats hlt (by omega) (by omega) st2 hst2

/-! ### The assignments of an axial level -/

theorem length_flatMap_range {α : Type} (n c : Nat) (f : Nat → List α)
    (h : ∀ i, i < n → (f i).length = c) : ((List.range n).flatMap f).length = n * c := by
  induction n with
  | zero => simp
  | succ n ih =>
      rw [List.range_succ, List.flatMap_append, List.length_append, ih (fun i hi => h i (by omega)),
        List.flatMap_singleton, h n (by omega), Nat.succ_mul]

theorem length_level_writes (r NaJ NaI NpJ NpI : Nat) (matid : Nat → Nat → Nat → Nat → Int) :
    (level_writes r NaJ NaI NpJ NpI matid).length = (NaJ * NpJ * r) * (NaI * NpI * r) := by
  have h : (level_writes r NaJ NaI NpJ NpI matid).length = NaJ * (NaI * (NpJ * (NpI * (r * (r * 1))))) := by
    unfold level_writes
    refine length_flatMap_range _ _ _ (fun aj _ => ?_)
    refine length_flatMap_range _ _ _ (fun ai _ => ?_)
    unfold assembly_writes
    refine length_flatMap_range _ _ _ (fun pj _ => ?_)
    refine length_flatMap_range _ _ _ (fun pi _ => ?_)
    unfold pin_writes
    refine length_flatMap_range _ _ _ (fun j _ => ?_)
    refine length_flatMap_range _ _ _ (fun i _ => ?_)
    rfl
  rw [h]
  ring

theorem mem_level_writes (r NaJ NaI NpJ NpI : Nat) (matid : Nat → Nat → Nat → Nat → Int)
    (w : (Nat × Nat) × Int) :
    w ∈ level_writes r NaJ NaI NpJ NpI matid ↔
      ∃ aj, aj < NaJ ∧ ∃ ai, ai < NaI ∧ ∃ pj, pj < NpJ ∧ ∃ pi, pi < NpI ∧
        ∃ j, j < r ∧ ∃ i, i < r ∧
          w = ((j + (r * NpJ * aj + r * pj), i + (r * NpI * ai + r * pi)), matid aj ai pj pi) := by
  simp only [level_writes, assembly_writes, pin_writes, List.mem_flatMap, List.mem_range,
    List.mem_singleton]

theorem level_writes_in_range (r NaJ NaI NpJ NpI : Nat) (matid : Nat → Nat → Nat → Nat → Int)
    (w : (Nat × Nat) × Int) (hw : w ∈ level_writes r NaJ NaI NpJ NpI matid) :
    w.1.1 < NaJ * NpJ * r ∧ w.1.2 < NaI * NpI * r := by
  rw [mem_level_writes] at hw
  obtain ⟨aj, haj, ai, hai, pj, hpj, pi, hpi, j, hj, i, hi, rfl⟩ := hw
  exact ⟨mixed_lt NaJ NpJ r aj pj j haj hpj hj, mixed_lt NaI NpI r ai pi i hai hpi hi⟩

theorem level_writes_value (r NaJ NaI NpJ NpI : Nat) (matid : Nat → Nat → Nat → Nat → Int)
    (w : (Nat × Nat) × Int) (hw : w ∈ level_writes r NaJ NaI NpJ NpI matid) :
    w.2 = matid (w.1.1 / (r * NpJ)) (w.1.2 / (r * NpI)) ((w.1.1 / r) % NpJ)
      ((w.1.2 / r) % NpI) := by
  rw [mem_level_writes] at hw
  obtain ⟨aj, haj, ai, hai, pj, hpj, pi, hpi, j, hj, i, hi, rfl⟩ := hw
  simp only
  rw [mixed_hi NpJ r aj pj j hpj hj, mixed_hi NpI r ai pi i hpi hi,
    mixed_mid NpJ r aj pj j hpj hj, mixed_mid NpI r ai pi i hpi hi]

theorem decode_position (A B C x : Nat) (hx : x < A * B * C) :
    x / (C * B) < A ∧ (x / C) % B < B ∧ x % C < C ∧
      x = x % C + (C * B * (x / (C * B)) + C * ((x / C) % B)) := by
  have hC : 0 < C := by
    rcases Nat.eq_zero_or_pos C with h | h
    · subst h; simp at hx
    · exact h
  have hB : 0 < B := by
    rcases Nat.eq_zero_or_pos B with h | h
    · subst h; simp at hx
    · exact h
  refine ⟨?_, Nat.mod_lt _ hB, Nat.mod_lt _ hC, ?_⟩
  · rw [Nat.div_lt_iff_lt_mul (Nat.mul_pos hC hB)]
    have : A * (C * B) = A * B * C := by ring
    rw [this]; exact hx
  · have h1 := Nat.div_add_mod x C
    have h2 := Nat.div_add_mod (x / C) B
    have h3 : x / (C * B) = x / C / B := (Nat.div_div_eq_div_mul x C B).symm
    rw [h3]
    have h4 : C * B * (x / C / B) + C * ((x / C) % B) = C * (x / C) := by
      have : C * B * (x / C / B) + C * ((x / C) % B) = C * (B * (x / C / B) + (x / C) % B) := by
        ring
      rw [this, h2]
    rw [h4]
    omega

theorem level_writes_covers (r NaJ NaI NpJ NpI : Nat) (matid : Nat → Nat → Nat → Nat → Int)
    (row col : Nat) (hrow : row < NaJ * NpJ * r) (hcol : col < NaI * NpI * r) :
    ((row, col), matid (row / (r * NpJ)) (col / (r * NpI)) ((row / r) % NpJ) ((col / r) % NpI))
      ∈ level_writes r NaJ NaI NpJ NpI matid := by
  rw [mem_level_writes]
  obtain ⟨h1, h2, h3, h4⟩ := decode_position NaJ NpJ r row hrow
  obtain ⟨k1, k2, k3, k4⟩ := decode_position NaI NpI r col hcol
  refine ⟨_, h1, _, k1, _, h2, _, k2, _, h3, _, k3, ?_⟩
  rw [← h4, ← k4]

theorem level_writes_nodup (r NaJ NaI NpJ NpI : Nat) (matid : Nat → Nat → Nat → Nat → Int) :
    ((level_writes r NaJ NaI NpJ NpI matid).map Prod.fst).Nodup := by
  refine nodup_of_covers (NaJ * NpJ * r) (NaI * NpI * r) _ ?_ (fun row col hrow hcol => ?_)
  · rw [List.length_map, length_level_writes]
  · exact List.mem_map_of_mem Prod.fst
      (level_writes_covers r NaJ NaI NpJ NpI matid row col hrow hcol)

theorem calc_axial_matids_eq (s : Problem_Builder) (coredb assblydb meshdb matdb : Sublist)
    (axial_list assbly_list mat_list : List String) (core_name : String)
    (core_map matids : TwoDArray_int) (level : Int) (NaI NaJ NpI NpJ r : Nat)
    (hcore : s.d_coredb = some coredb) (hassbly : s.d_assblydb = some assblydb)
    (hmesh : s.d_meshdb = some meshdb) (hmat : s.d_matdb = some matdb)
    (haxial : get_array_str coredb "axial list" = some axial_list)
    (hlist : get_array_str assblydb "assembly list" = some assbly_list)
    (hname : array_at axial_list level = some core_name)
    (hmap : get_table coredb core_name = some core_map)
    (hr : get_int_value meshdb "radial mesh" = some (r : Int))
    (hmats : get_array_str matdb "mat list" = some mat_list)
    (hvalid : Valid_level assblydb assbly_list mat_list core_map NaI NaJ NpI NpJ)
    (hrows : matids.numRows = NaJ * NpJ * r) (hcols : matids.numCols = NaI * NpI * r)
    (hdata : matids.data.length = matids.numRows * matids.numCols) :
    calc_axial_matids s ((NaI : Int), (NaJ : Int)) ((NpI : Int), (NpJ : Int)) level matids =
      some (perform (level_writes r NaJ NaI NpJ NpI
        (fun aj ai pj pi => (pin_matid assblydb assbly_list core_map aj ai pj pi).getD 0))
        (matids, [])) := by
  obtain ⟨hc1, hc2, hall⟩ := hvalid
  have hst : Dims (NaJ * NpJ * r) (NaI * NpI * r) (matids, []) :=
    ⟨hrows, hcols, by rw [hdata, hrows, hcols]⟩
  have hcm : (array_at axial_list level).bind (get_table coredb) = some core_map := by
    rw [hname]; exact hmap
  have d1 : ((matids.numCols : Nat) : Int) = (NaI : Int) * (NpI : Int) * (r : Int) := by
    rw [hcols]; push_cast; rfl
  have d2 : ((matids.numRows : Nat) : Int) = (NaJ : Int) * (NpJ : Int) * (r : Int) := by
    rw [hrows]; push_cast; rfl
  simp only [calc_axial_matids, hcore, hassbly, hmesh, hmat, haxial, hlist, hcm, hc1, hc2, hr,
    d1, d2, and_self, if_true]
  refine for_each_perform _ _ _
    (fun aj => (List.range NaI).flatMap (fun ai =>
      assembly_writes r NpJ NpI (r * NpJ * aj) (r * NpI * ai)
        (fun pj pi => (pin_matid assblydb assbly_list core_map aj ai pj pi).getD 0))) NaJ
    (fun aj haj st1 hst1 => ?_) _ hst
  refine for_each_perform _ _ _
    (fun ai => assembly_writes r NpJ NpI (r * NpJ * aj) (r * NpI * ai)
        (fun pj pi => (pin_matid assblydb assbly_list core_map aj ai pj pi).getD 0)) NaI
    (fun ai hai st2 hst2 => ?_) st1 hst1
  obtain ⟨id, name, assbly_map, hid, hidlt, hnm, hget, hac, har, hpins⟩ := hall aj haj ai hai
  have ey : ((r : Int) * (NpJ : Int)) * (aj : Int) = ((r * NpJ * aj : Nat) : Int) := by
    push_cast; rfl
  rw [ey]
  have h1 : r * NpJ * (aj + 1) ≤ r * NpJ * NaJ := Nat.mul_le_mul_left _ haj
  have h2 : r * NpI * (ai + 1) ≤ r * NpI * NaI := Nat.mul_le_mul_left _ hai
  have h3 : r * NpJ * NaJ = NaJ * NpJ * r := by ring
  have h4 : r * NpI * NaI = NaI * NpI * r := by ring
  rw [Nat.mul_add] at h1 h2
  exact assign_assembly_eq _ _ r NpI NpJ (r * NpJ * aj) aj ai assblydb matdb assbly_list
    mat_list core_map assbly_map id name hid hidlt hnm hget hac har hpins hmats
    (by omega) (by omega) st2 hst2

theorem count_position (a : Int × Int) (l : List (Int × Int)) :
    @List.count _ instBEqProd a l = @List.count _ instBEqOfDecidableEq a l := by
  unfold List.count
  apply List.countP_congr
  intro x _
  simp only [beq_iff_eq]
  exact ⟨fun h => decide_eq_true h, fun h => of_decide_eq_true h⟩

/-! ## The claim on `calc_axial_matids` -/

end profugus

namespace cuda_profugus

/-! ## The claims on the mesh geometry tracker -/

/-- C7: at position (1/2, 1/2, 1/2), strictly inside cell (0,0,0) of the
integer mesh, with the unit direction (3/5, 4/5, 0), `distance_to_boundary`
returns 1/6 and steps to the cell across the face `x = 1`, while the analytic
distance to the nearest face is 5/8, to the face `y = 1`: the code subtracts
`r / dir` from the edge instead of dividing `edge - r` by `dir`.  With the
direction (1, 0, 0) of the spec example the two agree on 1/2. -/
theorem distance_to_boundary_not_analytic :
    dot state_oblique.d_dir state_oblique.d_dir = 1 ∧
    (distance_to_boundary (integer_mesh 4) state_oblique).map
        (fun p => (p.1, p.2.next_ijk)) = some (Dbl.fin (1 / 6), ⟨1, 0, 0⟩) ∧
    analytic_distance (fun i => i) (fun i => i) (fun i => i) state_oblique = some (5 / 8) ∧
    (distance_to_boundary (integer_mesh 4)
        (state_at ⟨1 / 2, 1 / 2, 1 / 2⟩ ⟨1, 0, 0⟩ ⟨0, 0, 0⟩)).map Prod.fst
      = some (Dbl.fin (1 / 2)) ∧
    analytic_distance (fun i => i) (fun i => i) (fun i => i)
        (state_at ⟨1 / 2, 1 / 2, 1 / 2⟩ ⟨1, 0, 0⟩ ⟨0, 0, 0⟩) = some (1 / 2) := by
  decide!

/-- C8: at position (9/10, 1/2, 1/2), inside cell (0,0,0) of the integer mesh,
with the unit direction (3/5, 4/5, 0), the body of `distance_to_boundary`
computes the distance -1/2, so the postcondition `next_dist >= 0` fails and
the call stops there. -/
theorem distance_to_boundary_negative :
    dot state_near_face.d_dir state_near_face.d_dir = 1 ∧
    (0 ≤ state_near_face.d_r.x ∧ state_near_face.d_r.x ≤ 1 ∧
      0 ≤ state_near_face.d_r.y ∧ state_near_face.d_r.y ≤ 1 ∧
      0 ≤ state_near_face.d_r.z ∧ state_near_face.d_r.z ≤ 1) ∧
    state_near_face.ijk = ⟨0, 0, 0⟩ ∧
    (find_boundary (integer_mesh 4) state_near_face).map (fun s => s.next_dist)
      = some (Dbl.fin (-1 / 2)) ∧
    distance_to_boundary (integer_mesh 4) state_near_face = none := by
  decide!

/-! ### Reflection -/

theorem normal_eq_face_normal (state : Geo_State_t) :
    normal state = face_normal state.exiting_face := by
  unfold normal
  cases state.exiting_face <;> simp [face_normal]

theorem dot_mirror (d n : Space_Vector) (hn : dot n n = 1) :
    dot (mirror d n) (mirror d n) = dot d d := by
  unfold dot at hn
  simp only [mirror, dot]
  linear_combination (4 * (d.x * n.x + d.y * n.y + d.z * n.z) ^ 2) * hn

theorem face_normal_unit (f : Face) (hf : f ≠ Face.NONE) :
    dot (face_normal f) (face_normal f) = 1 := by
  cases f <;> simp [face_normal, dot] at hf ⊢

theorem unit_within_iff (v : Space_Vector) (eps : ℚ) :
    unit_within v eps ↔ (1 - eps) ^ 2 < dot v v ∧ dot v v < (1 + eps) ^ 2 := Iff.rfl

/-- What `reflect` does in a reflecting state: it mirrors the direction about
the normal of the exiting face when the direction has a component along it,
and stops on the `CHECK` otherwise. -/
theorem reflect_eq (state : Geo_State_t) (hunit : unit_within state.d_dir (1 / 10 ^ 6))
    (hrefl : state.reflecting_face ≠ Face.NONE) :
    reflect state =
      if dot state.d_dir (normal state) ≠ 0 then
        some (true, { state with d_dir := mirror state.d_dir (normal state) })
      else none := by
  unfold reflect
  rw [if_pos hunit, if_neg hrefl]
  show (if dot state.d_dir (normal state) ≠ 0 then
      (if unit_within (mirror state.d_dir (normal state)) (1 / 10 ^ 6) then
        some ((true, ({ state with d_dir := mirror state.d_dir (normal state) } : Geo_State_t))
          : Bool × Geo_State_t)
      else none)
    else none) = _
  by_cases hdot : dot state.d_dir (normal state) ≠ 0
  · rw [if_pos hdot, if_pos hdot]
    have hex : state.exiting_face ≠ Face.NONE := by
      intro h
      apply hdot
      rw [normal_eq_face_normal, h]
      simp [dot, face_normal]
    have hn : dot (normal state) (normal state) = 1 := by
      rw [normal_eq_face_normal]
      exact face_normal_unit _ hex
    have hunit' : unit_within (mirror state.d_dir (normal state)) (1 / 10 ^ 6) := by
      rw [unit_within_iff, dot_mirror _ _ hn]
      exact hunit
    rw [if_pos hunit']
  · rw [if_neg hdot, if_neg hdot]

/-- C9 as stated fails: in the state `state_two_faces` (unit direction
(3/5, 4/5, 0), reflecting face `PLUS_X`, exiting face `PLUS_Y`) `reflect`
returns the direction (3/5, -4/5, 0), mirrored about the normal of the exiting
face, not the mirror image (-3/5, 4/5, 0) about the normal of the reflecting
face. -/
theorem reflect_not_about_reflecting_face :
    state_two_faces.reflecting_face ≠ Face.NONE ∧
    dot state_two_faces.d_dir state_two_faces.d_dir = 1 ∧
    reflect state_two_faces
      = some (true, { state_two_faces with d_dir := ⟨3 / 5, -4 / 5, 0⟩ }) ∧
    reflect state_two_faces
      ≠ some (true, { state_two_faces with
          d_dir := mirror state_two_faces.d_dir (face_normal state_two_faces.reflecting_face) }) := by
  decide!

/-- C9, amended: for every state with `reflecting_face != NONE` and unit
direction `d` (within the tolerance of the `REQUIRE`), with `n` the outward
normal of the face recorded as the exiting face: if `d.n` is not zero,
`reflect` returns true and sets the direction to `d - 2 (d.n) n`, leaving the
other members unchanged; if `d.n` is zero the `CHECK` stops the call. -/
theorem reflect_mirrors_about_exiting_face (state : Geo_State_t)
    (hunit : unit_within state.d_dir (1 / 10 ^ 6))
    (hrefl : state.reflecting_face ≠ Face.NONE) :
    (dot state.d_dir (face_normal state.exiting_face) ≠ 0 →
      reflect state = some (true, { state with
        d_dir := mirror state.d_dir (face_normal state.exiting_face) })) ∧
    (dot state.d_dir (face_normal state.exiting_face) = 0 → reflect state = none) := by
  rw [reflect_eq state hunit hrefl, normal_eq_face_normal]
  constructor
  · intro h
    rw [if_pos h]
  · intro h
    rw [if_neg (not_not.2 h)]

theorem reflect_mirrors_about_exiting_face_witness :
    (dot state_two_faces.d_dir (face_normal state_two_faces.exiting_face) ≠ 0 →
      reflect state_two_faces = some (true, { state_two_faces with
        d_dir := mirror state_two_faces.d_dir (face_normal state_two_faces.exiting_face) })) ∧
    (dot state_two_faces.d_dir (face_normal state_two_faces.exiting_face) = 0 →
      reflect state_two_faces = none) :=
  reflect_mirrors_about_exiting_face state_two_faces (by decide!) (by decide)

/-- C10: for each of the six faces `f` and every direction `d` (unit within
the tolerance of the `REQUIRE`) with a non-zero component along the axis of
`f`, in a state whose exiting and reflecting face are both `f`, `reflect`
returns true with the component of `d` along that axis negated and the other
two components unchanged; the squared norm of the direction is the same. -/
theorem reflect_negates_axis_component (state : Geo_State_t) (f : Face)
    (hf : f ≠ Face.NONE) (hex : state.exiting_face = f) (hre : state.reflecting_face = f)
    (hunit : unit_within state.d_dir (1 / 10 ^ 6))
    (hcomp : along f state.d_dir ≠ 0) :
    reflect state = some (true, { state with d_dir := flip_axis f state.d_dir }) ∧
    dot (flip_axis f state.d_dir) (flip_axis f state.d_dir) = dot state.d_dir state.d_dir := by
  have hdot : dot state.d_dir (normal state) ≠ 0 := by
    rw [normal_eq_face_normal, hex]
    cases f <;> simp [dot, face_normal, along] at hf hcomp ⊢ <;> exact hcomp
  have hflip : mirror state.d_dir (normal state) = flip_axis f state.d_dir := by
    rw [normal_eq_face_normal, hex]
    cases f <;> simp [mirror, dot, face_normal, flip_axis] at hf ⊢ <;> ring
  constructor
  · rw [reflect_eq state hunit (by rw [hre]; exact hf), if_pos hdot, hflip]
  · cases f <;> simp [flip_axis, dot]

theorem reflect_negates_axis_component_witness :
    reflect state_plus_x = some (true, { state_plus_x with d_dir := flip_axis Face.PLUS_X ⟨1, 0, 0⟩ }) ∧
    dot (flip_axis Face.PLUS_X state_plus_x.d_dir) (flip_axis Face.PLUS_X state_plus_x.d_dir)
      = dot state_plus_x.d_dir state_plus_x.d_dir :=
  reflect_negates_axis_component state_plus_x Face.PLUS_X (by decide) rfl rfl (by decide!)
    (by decide!)

/-! ### Initialization and the face lookup -/

/-- C11: on the mesh of 4 x 4 x 2 cells, when the state update yields the cell
indices (0, 0, 5), `initialize` (here `initialize_particle`) returns normally although `k = 5` exceeds
`N_K = 2`: its third postcondition compares `ijk.i`, not `ijk.k`, with `N_K`.
For the same reason it stops on the indices (3, 0, 0), which all lie in range. -/
theorem initialize_misses_k_range :
    (initialize_particle mesh_4_4_2 id (update_to ⟨0, 0, 5⟩) ⟨1 / 2, 1 / 2, 1 / 2⟩ ⟨1, 0, 0⟩
        (state_at ⟨0, 0, 0⟩ ⟨0, 0, 1⟩ ⟨0, 0, 0⟩)).map (fun s => s.ijk)
      = some ⟨0, 0, 5⟩ ∧
    (5 : Int) > mesh_4_4_2.num_cells.k ∧
    initialize_particle mesh_4_4_2 id (update_to ⟨3, 0, 0⟩) ⟨7 / 2, 1 / 2, 1 / 2⟩ ⟨1, 0, 0⟩
        (state_at ⟨0, 0, 0⟩ ⟨0, 0, 1⟩ ⟨0, 0, 0⟩) = none ∧
    ((-1 : Int) ≤ 3 ∧ (3 : Int) ≤ mesh_4_4_2.num_cells.i ∧
      (-1 : Int) ≤ 0 ∧ (0 : Int) ≤ mesh_4_4_2.num_cells.j ∧ (0 : Int) ≤ mesh_4_4_2.num_cells.k) := by
  decide!

/-- C18: for every state whose direction passes the `REQUIRE` (unit within
1e-6) and whose reflecting face is `NONE`, `reflect` returns false and the
state it leaves is the state it was given, member for member. -/
theorem reflect_none_is_noop (state : Geo_State_t)
    (hunit : unit_within state.d_dir (1 / 10 ^ 6))
    (hnone : state.reflecting_face = Face.NONE) :
    reflect state = some (false, state) := by
  unfold reflect
  rw [if_pos hunit, if_pos hnone]

theorem reflect_none_is_noop_witness :
    reflect state_oblique = some (false, state_oblique) :=
  reflect_none_is_noop state_oblique (by decide!) rfl

/-- C19: `normal` reads only the exiting-face tag: two states with the same
tag get the same normal; the value is (-1,0,0), (1,0,0), (0,-1,0), (0,1,0),
(0,0,-1), (0,0,1) for `MINUS_X`, `PLUS_X`, `MINUS_Y`, `PLUS_Y`, `MINUS_Z`,
`PLUS_Z` and (0,0,0) for `NONE`; for every face but `NONE` it has squared
norm 1, and the normals of the two faces of an axis are opposite. -/
theorem normal_lookup (s t : Geo_State_t) :
    (s.exiting_face = t.exiting_face → normal s = normal t) ∧
    (s.exiting_face = Face.MINUS_X → normal s = ⟨-1, 0, 0⟩) ∧
    (s.exiting_face = Face.PLUS_X → normal s = ⟨1, 0, 0⟩) ∧
    (s.exiting_face = Face.MINUS_Y → normal s = ⟨0, -1, 0⟩) ∧
    (s.exiting_face = Face.PLUS_Y → normal s = ⟨0, 1, 0⟩) ∧
    (s.exiting_face = Face.MINUS_Z → normal s = ⟨0, 0, -1⟩) ∧
    (s.exiting_face = Face.PLUS_Z → normal s = ⟨0, 0, 1⟩) ∧
    (s.exiting_face = Face.NONE → normal s = ⟨0, 0, 0⟩) ∧
    (s.exiting_face ≠ Face.NONE → dot (normal s) (normal s) = 1) ∧
    (s.exiting_face = Face.MINUS_X → t.exiting_face = Face.PLUS_X →
      normal s = ⟨-(normal t).x, -(normal t).y, -(normal t).z⟩) ∧
    (s.exiting_face = Face.MINUS_Y → t.exiting_face = Face.PLUS_Y →
      normal s = ⟨-(normal t).x, -(normal t).y, -(normal t).z⟩) ∧
    (s.exiting_face = Face.MINUS_Z → t.exiting_face = Face.PLUS_Z →
      normal s = ⟨-(normal t).x, -(normal t).y, -(normal t).z⟩) := by
  have key : ∀ u : Geo_State_t, normal u = face_normal u.exiting_face := by
    intro u
    unfold normal
    cases u.exiting_face <;> simp [face_normal]
  refine ⟨fun h => by rw [key, key, h], fun h => by rw [key, h]; rfl,
    fun h => by rw [key, h]; rfl, fun h => by rw [key, h]; rfl, fun h => by rw [key, h]; rfl,
    fun h => by rw [key, h]; rfl, fun h => by rw [key, h]; rfl, fun h => by rw [key, h]; rfl,
    fun h => ?_, fun h1 h2 => ?_, fun h1 h2 => ?_, fun h1 h2 => ?_⟩
  · rw [key]
    cases hf : s.exiting_face <;> simp [hf, face_normal, dot] at h ⊢
  · rw [key, key, h1, h2]; simp [face_normal]
  · rw [key, key, h1, h2]; simp [face_normal]
  · rw [key, key, h1, h2]; simp [face_normal]

theorem normal_lookup_witness :
    (state_plus_x.exiting_face = state_two_faces.exiting_face →
      normal state_plus_x = normal state_two_faces) ∧
    (state_plus_x.exiting_face = Face.MINUS_X → normal state_plus_x = ⟨-1, 0, 0⟩) ∧
    (state_plus_x.exiting_face = Face.PLUS_X → normal state_plus_x = ⟨1, 0, 0⟩) ∧
    (state_plus_x.exiting_face = Face.MINUS_Y → normal state_plus_x = ⟨0, -1, 0⟩) ∧
    (state_plus_x.exiting_face = Face.PLUS_Y → normal state_plus_x = ⟨0, 1, 0⟩) ∧
    (state_plus_x.exiting_face = Face.MINUS_Z → normal state_plus_x = ⟨0, 0, -1⟩) ∧
    (state_plus_x.exiting_face = Face.PLUS_Z → normal state_plus_x = ⟨0, 0, 1⟩) ∧
    (state_plus_x.exiting_face = Face.NONE → normal state_plus_x = ⟨0, 0, 0⟩) ∧
    (state_plus_x.exiting_face ≠ Face.NONE → dot (normal state_plus_x) (normal state_plus_x) = 1) ∧
    (state_plus_x.exiting_face = Face.MINUS_X → state_two_faces.exiting_face = Face.PLUS_X →
      normal state_plus_x = ⟨-(normal state_two_faces).x, -(normal state_two_faces).y,
        -(normal state_two_faces).z⟩) ∧
    (state_plus_x.exiting_face = Face.MINUS_Y → state_two_faces.exiting_face = Face.PLUS_Y →
      normal state_plus_x = ⟨-(normal state_two_faces).x, -(normal state_two_faces).y,
        -(normal state_two_faces).z⟩) ∧
    (state_plus_x.exiting_face = Face.MINUS_Z → state_two_faces.exiting_face = Face.PLUS_Z →
      normal state_plus_x = ⟨-(normal state_two_faces).x, -(normal state_two_faces).y,
        -(normal state_two_faces).z⟩) :=
  normal_lookup state_plus_x state_two_faces

/-! ### The flags and the candidates of an axis -/

theorem axis_flags_eq (dir : ℚ) (index extent : Int) :
    axis_flags dir index extent =
      some ((if dir > 0 ∧ index < extent then 1 else 0),
        (if dir < 0 ∧ index > -1 then 1 else 0),
        (if dir > 0 ∧ index < extent then 1 else 0) + (if dir < 0 ∧ index > -1 then 1 else 0),
        1 - ((if dir > 0 ∧ index < extent then 1 else 0) +
          (if dir < 0 ∧ index > -1 then 1 else 0))) := by
  unfold axis_flags
  by_cases h1 : dir > 0 ∧ index < extent
  · by_cases h2 : dir < 0 ∧ index > -1
    · exact absurd h2.1 (not_lt.mpr (le_of_lt h1.1))
    · simp [h1, h2]
  · by_cases h2 : dir < 0 ∧ index > -1
    · simp [h1, h2]
    · simp [h1, h2]

theorem Dbl.lt_irrefl (a : Dbl) : Dbl.lt a a = false := by
  cases a <;> simp [Dbl.lt]

theorem axis_candidate_some (edges : Int → Dbl) (r dir : ℚ) (index extent : Int) :
    ∃ c, axis_candidate edges r dir index extent = some c :=
  ⟨_, by rw [axis_candidate, axis_flags_eq]; rfl⟩

theorem find_boundary_eq (mesh : Mesh) (state : Geo_State_t) (cx cy cz : Dbl × Int)
    (hx : axis_candidate mesh.edges_x state.d_r.x state.d_dir.x state.ijk.i mesh.num_cells.i
      = some cx)
    (hy : axis_candidate mesh.edges_y state.d_r.y state.d_dir.y state.ijk.j mesh.num_cells.j
      = some cy)
    (hz : axis_candidate mesh.edges_z state.d_r.z state.d_dir.z state.ijk.k mesh.num_cells.k
      = some cz) :
    find_boundary mesh state = some
      (if Dbl.lt cy.1 cx.1 then
        (if Dbl.lt cz.1 cy.1 then
          { state with next_dist := cz.1, next_ijk := ⟨state.ijk.i, state.ijk.j, cz.2⟩ }
         else { state with next_dist := cy.1, next_ijk := ⟨state.ijk.i, cy.2, state.ijk.k⟩ })
       else
        (if Dbl.lt cz.1 cx.1 then
          { state with next_dist := cz.1, next_ijk := ⟨state.ijk.i, state.ijk.j, cz.2⟩ }
         else { state with next_dist := cx.1, next_ijk := ⟨cx.2, state.ijk.j, state.ijk.k⟩ })) := by
  simp only [axis_candidate, axis_flags_eq, Option.map_some', Option.some.injEq] at hx hy hz
  subst hx hy hz
  simp only [find_boundary, axis_flags_eq]
  generalize test_dist mesh.edges_x state.d_r.x state.d_dir.x state.ijk.i _ _ _ = dx
  generalize test_dist mesh.edges_y state.d_r.y state.d_dir.y state.ijk.j _ _ _ = dy
  generalize test_dist mesh.edges_z state.d_r.z state.d_dir.z state.ijk.k _ _ _ = dz
  cases h1 : Dbl.lt dy dx <;> cases h2 : Dbl.lt dz dx <;> cases h3 : Dbl.lt dz dy <;>
    simp [h1, h2, h3]

theorem Dbl.lt_nan (a : Dbl) : Dbl.lt a Dbl.nan = false := by
  cases a <;> simp [Dbl.lt]

theorem Dbl.zero_mul_not_fin (a : Dbl) (h : ∀ q, a ≠ Dbl.fin q) :
    Dbl.mul (Dbl.fin 0) a = Dbl.nan := by
  cases a with
  | fin q => exact absurd rfl (h q)
  | pinf => simp [Dbl.mul, Dbl.signed_inf]
  | ninf => simp [Dbl.mul, Dbl.signed_inf]
  | nan => simp [Dbl.mul]

theorem Dbl.sub_div_zero_not_fin (e : Dbl) (r q : ℚ) :
    Dbl.sub e (Dbl.div (Dbl.fin r) (Dbl.fin 0)) ≠ Dbl.fin q := by
  simp only [Dbl.div, if_true, Dbl.signed_inf, Dbl.sub]
  rcases lt_trichotomy r 0 with h | h | h
  · have h2 : ¬ r > 0 := not_lt.mpr (le_of_lt h)
    simp only [h2, h, if_false, if_true]
    cases e <;> simp [Dbl.neg, Dbl.add]
  · subst h
    simp only [gt_iff_lt, lt_self_iff_false, if_false]
    cases e <;> simp [Dbl.neg, Dbl.add]
  · have h2 : ¬ r < 0 := not_lt.mpr (le_of_lt h)
    simp only [gt_iff_lt, h2, h, if_false, if_true]
    cases e <;> simp [Dbl.neg, Dbl.add]

theorem test_dist_zero_direction (edges : Int → Dbl) (r : ℚ) (index : Int) :
    test_dist edges r 0 index 0 0 1 = Dbl.nan := by
  unfold test_dist
  have h : Dbl.mul (Dbl.ofInt 0)
      (Dbl.sub (edges (index + 0)) (Dbl.div (Dbl.fin r) (Dbl.fin 0))) = Dbl.nan := by
    have h0 : Dbl.ofInt 0 = Dbl.fin 0 := by simp [Dbl.ofInt]
    rw [h0]
    exact Dbl.zero_mul_not_fin _ (fun q => Dbl.sub_div_zero_not_fin _ r q)
  rw [h]
  rfl

theorem axis_candidate_zero_direction (edges : Int → Dbl) (r : ℚ) (index extent : Int) :
    axis_candidate edges r 0 index extent = some (Dbl.nan, index + 0 - 0) := by
  rw [axis_candidate, axis_flags_eq]
  simp only [gt_iff_lt, lt_self_iff_false, false_and, if_false, Option.map_some', add_zero,
    sub_zero]
  rw [test_dist_zero_direction]

theorem test_dist_away (edges : Int → Dbl) (r dir e : ℚ) (index : Int) (hdir : dir ≠ 0)
    (hedge : edges (index + 0) = Dbl.fin e) :
    test_dist edges r dir index 0 0 1 = Dbl.fin (99 * 10 ^ 99) := by
  unfold test_dist
  rw [hedge]
  simp [Dbl.div, hdir, Dbl.sub, Dbl.neg, Dbl.add, Dbl.mul, Dbl.ofInt]

theorem distance_of_found (mesh : Mesh) (state s : Geo_State_t)
    (h : find_boundary mesh state = some s) :
    distance_to_boundary mesh state = none ∨
      distance_to_boundary mesh state = some (s.next_dist, s) := by
  unfold distance_to_boundary
  rw [h]
  by_cases h1 : unit_within state.d_dir (1 / 10 ^ 5)
  · by_cases h2 : Dbl.ge s.next_dist (Dbl.fin 0) = true
    · right; simp only [h1, h2, if_true]
    · left; simp only [h1, h2, if_true, if_false]; rfl
  · left; simp only [h1, if_false]

/-- With a zero x component of the direction the running minimum starts as
`NaN` and no candidate replaces it: `next_dist` is `NaN`, `next_ijk` is the
current cell, and the `ENSURE` on `next_dist` stops the call. -/
theorem find_boundary_zero_x (mesh : Mesh) (state s : Geo_State_t) (cx : Dbl × Int)
    (h0 : state.d_dir.x = 0)
    (hx : axis_candidate mesh.edges_x state.d_r.x state.d_dir.x state.ijk.i mesh.num_cells.i
      = some cx)
    (hs : find_boundary mesh state = some s) :
    cx.1 = Dbl.nan ∧ s.next_dist = Dbl.nan ∧
      s.next_ijk = ⟨state.ijk.i, state.ijk.j, state.ijk.k⟩ ∧
      distance_to_boundary mesh state = none := by
  have hx0 := axis_candidate_zero_direction mesh.edges_x state.d_r.x state.ijk.i
    mesh.num_cells.i
  rw [← h0, hx] at hx0
  have hcx : cx = (Dbl.nan, state.ijk.i + 0 - 0) := Option.some.inj hx0
  obtain ⟨cy, hy⟩ := axis_candidate_some mesh.edges_y state.d_r.y state.d_dir.y state.ijk.j
    mesh.num_cells.j
  obtain ⟨cz, hz⟩ := axis_candidate_some mesh.edges_z state.d_r.z state.d_dir.z state.ijk.k
    mesh.num_cells.k
  have hfb := find_boundary_eq mesh state cx cy cz hx hy hz
  rw [hs, hcx] at hfb
  have hs2 := Option.some.inj hfb
  simp only [Dbl.lt_nan, Bool.false_eq_true, if_false, add_zero, sub_zero] at hs2
  have hnan : s.next_dist = Dbl.nan := by rw [hs2]
  refine ⟨by rw [hcx], hnan, by rw [hs2], ?_⟩
  unfold distance_to_boundary
  rw [hs]
  by_cases h1 : unit_within state.d_dir (1 / 10 ^ 5)
  · simp only [h1, if_true, hnan, Dbl.ge, Bool.false_eq_true, if_false]
  · simp only [h1, if_false]

/-! ## The claims on `distance_to_boundary` -/

/-- C26: `distance_to_boundary` replaces the running minimum only by a
strictly smaller candidate, and the running minimum starts as the X candidate.
When the x component of the direction is zero the X candidate is `NaN` (C27),
no candidate compares smaller, and a tie between Y and Z is not attributed to
Y: `next_dist` stays `NaN`, `next_ijk` stays the current cell and the `ENSURE`
on `next_dist` stops the call.  So it is for the particle at (1/2, 3/10, 2/5)
of cell (0,0,0) of the integer mesh with the unit direction (0, 3/5, 4/5),
whose Y and Z candidates are both 1/2.  Where the comparisons with the X
candidate are those of numbers the earliest tied axis wins: when X ties with Y
or Z (or both) and no candidate is smaller, `next_ijk` takes the X candidate
index and keeps the current `j` and `k`; when Y ties with Z below X, it takes
the Y candidate index and keeps the current `i` and `k`.  At a three-way tie
at distance 1/2 in cell (0,0,0) the next cell is (1,0,0). -/
theorem yz_tie_lost_when_x_direction_is_zero (mesh : Mesh) (state : Geo_State_t) :
    ∃ (cx cy cz : Dbl × Int) (s : Geo_State_t),
      axis_candidate mesh.edges_x state.d_r.x state.d_dir.x state.ijk.i mesh.num_cells.i
        = some cx ∧
      axis_candidate mesh.edges_y state.d_r.y state.d_dir.y state.ijk.j mesh.num_cells.j
        = some cy ∧
      axis_candidate mesh.edges_z state.d_r.z state.d_dir.z state.ijk.k mesh.num_cells.k
        = some cz ∧
      find_boundary mesh state = some s ∧
      (distance_to_boundary mesh state = none ∨
        distance_to_boundary mesh state = some (s.next_dist, s)) ∧
      (state.d_dir.x = 0 →
        cx.1 = Dbl.nan ∧ s.next_dist = Dbl.nan ∧
        s.next_ijk = ⟨state.ijk.i, state.ijk.j, state.ijk.k⟩ ∧
        distance_to_boundary mesh state = none) ∧
      (cx.1 = cy.1 → Dbl.lt cz.1 cx.1 = false →
        s.next_dist = cx.1 ∧ s.next_ijk = ⟨cx.2, state.ijk.j, state.ijk.k⟩) ∧
      (cx.1 = cz.1 → Dbl.lt cy.1 cx.1 = false →
        s.next_dist = cx.1 ∧ s.next_ijk = ⟨cx.2, state.ijk.j, state.ijk.k⟩) ∧
      (cy.1 = cz.1 → Dbl.lt cy.1 cx.1 = true →
        s.next_dist = cy.1 ∧ s.next_ijk = ⟨state.ijk.i, cy.2, state.ijk.k⟩) ∧
      (cx.1 = cy.1 → cy.1 = cz.1 →
        s.next_dist = cx.1 ∧ s.next_ijk = ⟨cx.2, state.ijk.j, state.ijk.k⟩) ∧
      unit_within state_yz_tie.d_dir (1 / 10 ^ 5) ∧
      axis_candidate (integer_mesh 4).edges_x state_yz_tie.d_r.x state_yz_tie.d_dir.x
        state_yz_tie.ijk.i (integer_mesh 4).num_cells.i = some (Dbl.nan, 0) ∧
      axis_candidate (integer_mesh 4).edges_y state_yz_tie.d_r.y state_yz_tie.d_dir.y
        state_yz_tie.ijk.j (integer_mesh 4).num_cells.j = some (Dbl.fin (1 / 2), 1) ∧
      axis_candidate (integer_mesh 4).edges_z state_yz_tie.d_r.z state_yz_tie.d_dir.z
        state_yz_tie.ijk.k (integer_mesh 4).num_cells.k = some (Dbl.fin (1 / 2), 1) ∧
      (find_boundary (integer_mesh 4) state_yz_tie).map (fun s => (s.next_dist, s.next_ijk))
        = some (Dbl.nan, ⟨0, 0, 0⟩) ∧
      distance_to_boundary (integer_mesh 4) state_yz_tie = none ∧
      (distance_to_boundary (integer_mesh 4) state_three_way_tie).map
          (fun p => (p.1, p.2.next_ijk)) = some (Dbl.fin (1 / 2), ⟨1, 0, 0⟩) := by
  obtain ⟨cx, hx⟩ := axis_candidate_some mesh.edges_x state.d_r.x state.d_dir.x state.ijk.i
    mesh.num_cells.i
  obtain ⟨cy, hy⟩ := axis_candidate_some mesh.edges_y state.d_r.y state.d_dir.y state.ijk.j
    mesh.num_cells.j
  obtain ⟨cz, hz⟩ := axis_candidate_some mesh.edges_z state.d_r.z state.d_dir.z state.ijk.k
    mesh.num_cells.k
  have hfb := find_boundary_eq mesh state cx cy cz hx hy hz
  refine ⟨cx, cy, cz, _, hx, hy, hz, hfb, ?_, ?_, ?_, ?_, ?_, ?_, by decide!, by decide!,
    by decide!, by decide!, by decide!, by decide!, by decide!⟩
  · exact distance_of_found mesh state _ hfb
  · intro h0
    exact find_boundary_zero_x mesh state _ cx h0 hx hfb
  · intro h1 h2
    have h3 : Dbl.lt cy.1 cx.1 = false := by rw [h1]; exact Dbl.lt_irrefl _
    simp [h2, h3]
  · intro _ h3
    have h2 : Dbl.lt cz.1 cx.1 = false := by rw [← ‹cx.1 = cz.1›]; exact Dbl.lt_irrefl _
    simp [h2, h3]
  · intro h1 h3
    have h2 : Dbl.lt cz.1 cy.1 = false := by rw [h1]; exact Dbl.lt_irrefl _
    simp [h2, h3]
  · intro h1 h2
    have h3 : Dbl.lt cy.1 cx.1 = false := by rw [h1]; exact Dbl.lt_irrefl _
    have h4 : Dbl.lt cz.1 cx.1 = false := by rw [h1, h2]; exact Dbl.lt_irrefl _
    simp [h3, h4]

/-- C27: on an axis whose direction component is exactly zero the candidate
distance is `NaN`, not 99e99, whatever the edges and the position:
`r / 0` is an infinity or `NaN`, and `0 * (edge - r / 0)` is `NaN`.  When that
axis is X the running minimum starts as `NaN`, no candidate compares smaller,
and the `ENSURE` on `next_dist` stops the call, as it does for a particle
flying along the y axis.  On an axis on which the particle moves away from
every face (index `N` moving positive, index `-1` moving negative) the
candidate is 99e99 as long as the edge value read is a number. -/
theorem zero_direction_candidate_is_nan :
    (∀ (edges : Int → Dbl) (r : ℚ) (index extent : Int),
      (axis_candidate edges r 0 index extent).map Prod.fst = some Dbl.nan) ∧
    (∀ (mesh : Mesh) (state : Geo_State_t), state.d_dir.x = 0 →
      distance_to_boundary mesh state = none) ∧
    (∀ (edges : Int → Dbl) (r dir e : ℚ) (N : Int), dir > 0 → edges N = Dbl.fin e →
      (axis_candidate edges r dir N N).map Prod.fst = some (Dbl.fin (99 * 10 ^ 99))) ∧
    (∀ (edges : Int → Dbl) (r dir e : ℚ) (N : Int), dir < 0 → edges (-1) = Dbl.fin e →
      (axis_candidate edges r dir (-1) N).map Prod.fst = some (Dbl.fin (99 * 10 ^ 99))) ∧
    unit_within state_along_y.d_dir (1 / 10 ^ 5) ∧
    distance_to_boundary (integer_mesh 4) state_along_y = none := by
  refine ⟨fun edges r index extent => ?_, fun mesh state h0 => ?_,
    fun edges r dir e N hdir hedge => ?_, fun edges r dir e N hdir hedge => ?_,
    by decide!, by decide!⟩
  · rw [axis_candidate_zero_direction]; rfl
  · have hx := axis_candidate_zero_direction mesh.edges_x state.d_r.x state.ijk.i
      mesh.num_cells.i
    rw [← h0] at hx
    obtain ⟨cy, hy⟩ := axis_candidate_some mesh.edges_y state.d_r.y state.d_dir.y state.ijk.j
      mesh.num_cells.j
    obtain ⟨cz, hz⟩ := axis_candidate_some mesh.edges_z state.d_r.z state.d_dir.z state.ijk.k
      mesh.num_cells.k
    have hfb := find_boundary_eq mesh state _ cy cz hx hy hz
    have hfb2 : ∃ s, find_boundary mesh state = some s ∧ s.next_dist = Dbl.nan :=
      ⟨_, hfb, by simp [Dbl.lt_nan]⟩
    obtain ⟨s, hs, hnan⟩ := hfb2
    unfold distance_to_boundary
    rw [hs]
    by_cases h1 : unit_within state.d_dir (1 / 10 ^ 5)
    · simp only [h1, if_true, hnan, Dbl.ge, Bool.false_eq_true, if_false]
    · simp only [h1, if_false]
  · rw [axis_candidate, axis_flags_eq]
    have h1 : ¬ (dir > 0 ∧ N < N) := fun h => absurd h.2 (lt_irrefl N)
    have h2 : ¬ (dir < 0 ∧ N > -1) := fun h => absurd h.1 (not_lt.mpr (le_of_lt hdir))
    simp only [h1, h2, if_false, Option.map_some', add_zero, sub_zero]
    rw [test_dist_away edges r dir e N (ne_of_gt hdir) (by rw [add_zero]; exact hedge)]
  · rw [axis_candidate, axis_flags_eq]
    have h1 : ¬ (dir > 0 ∧ (-1 : Int) < N) := fun h => absurd h.1 (not_lt.mpr (le_of_lt hdir))
    have h2 : ¬ (dir < 0 ∧ (-1 : Int) > -1) := fun h => absurd h.2 (lt_irrefl _)
    simp only [h1, h2, if_false, Option.map_some', add_zero, sub_zero]
    rw [test_dist_away edges r dir e (-1) (ne_of_lt hdir) (by rw [add_zero]; exact hedge)]

/-- C28: for every direction component, cell index and extent the flags of an
axis are 0 or 1, `either` is `positive + negative`, and
`positive + negative + none = 1`: the five `CHECK`s of the axis pass, and the
body of `distance_to_boundary` passes all fifteen on every mesh and state. -/
theorem flags_are_exclusive (dir : ℚ) (index extent : Int) :
    ∃ positive negative either none_ : Int,
      axis_flags dir index extent = some (positive, negative, either, none_) ∧
      (positive = 0 ∨ positive = 1) ∧ (negative = 0 ∨ negative = 1) ∧
      (either = 0 ∨ either = 1) ∧ (none_ = 0 ∨ none_ = 1) ∧
      either = positive + negative ∧ none_ + either = 1 ∧
      positive + negative + none_ = 1 ∧
      (positive = 1 ↔ dir > 0 ∧ index < extent) ∧ (negative = 1 ↔ dir < 0 ∧ index > -1) ∧
      ∀ (mesh : Mesh) (state : Geo_State_t), (find_boundary mesh state).isSome = true := by
  refine ⟨_, _, _, _, axis_flags_eq dir index extent, ?_, ?_, ?_, ?_, rfl, ?_, ?_, ?_, ?_, ?_⟩
  · by_cases h1 : dir > 0 ∧ index < extent <;> simp [h1]
  · by_cases h2 : dir < 0 ∧ index > -1 <;> simp [h2]
  · by_cases h1 : dir > 0 ∧ index < extent
    · have h2 : ¬ (dir < 0 ∧ index > -1) := fun h => absurd h.1 (not_lt.mpr (le_of_lt h1.1))
      simp [h1, h2]
    · by_cases h2 : dir < 0 ∧ index > -1 <;> simp [h1, h2]
  · by_cases h1 : dir > 0 ∧ index < extent
    · have h2 : ¬ (dir < 0 ∧ index > -1) := fun h => absurd h.1 (not_lt.mpr (le_of_lt h1.1))
      simp [h1, h2]
    · by_cases h2 : dir < 0 ∧ index > -1 <;> simp [h1, h2]
  · omega
  · omega
  · by_cases h1 : dir > 0 ∧ index < extent <;> simp [h1]
  · by_cases h2 : dir < 0 ∧ index > -1 <;> simp [h2]
  · intro mesh state
    obtain ⟨cx, hx⟩ := axis_candidate_some mesh.edges_x state.d_r.x state.d_dir.x state.ijk.i
      mesh.num_cells.i
    obtain ⟨cy, hy⟩ := axis_candidate_some mesh.edges_y state.d_r.y state.d_dir.y state.ijk.j
      mesh.num_cells.j
    obtain ⟨cz, hz⟩ := axis_candidate_some mesh.edges_z state.d_r.z state.d_dir.z state.ijk.k
      mesh.num_cells.k
    rw [find_boundary_eq mesh state cx cy cz hx hy hz]
    rfl

/-- C29: for a cell index in the range `-1 .. N` that `initialize` allows,
`distance_to_boundary` reads the edge array of the axis at `index + positive`,
which lies in `0 .. N` except when the index is `-1` and the direction
component is not positive: then it reads offset `-1`, before the first of the
`N+1` edges.  What is stored there can decide the outcome: for a particle born
below the first x edge and flying away from it, the call returns 3/8 when the
memory before the x edges holds a number and stops when it holds an infinity. -/
theorem edge_read_before_array (dir : ℚ) (index N : Int) (hlo : -1 ≤ index) (hhi : index ≤ N)
    (hN : 0 ≤ N) :
    ∃ pos, edge_position dir index N = some pos ∧
      ((0 ≤ pos ∧ pos ≤ N) ↔ ¬ (index = -1 ∧ dir ≤ 0)) ∧
      (index = -1 → dir ≤ 0 → pos = -1) ∧
      (distance_to_boundary (integer_mesh_before 4 (Dbl.fin (-1))) state_outside).map
          (fun p => (p.1, p.2.next_ijk)) = some (Dbl.fin (3 / 8), ⟨-1, 1, 0⟩) ∧
      distance_to_boundary (integer_mesh_before 4 Dbl.pinf) state_outside = none := by
  refine ⟨_, by rw [edge_position, axis_flags_eq]; rfl, ?_, ?_, by decide!, by decide!⟩
  · by_cases h1 : dir > 0 ∧ index < N
    · simp only [h1, and_self, if_true]
      have : ¬ dir ≤ 0 := not_le.mpr h1.1
      constructor
      · intro _ h; exact this h.2
      · intro _; omega
    · simp only [h1, if_false, add_zero]
      constructor
      · rintro ⟨h2, _⟩ ⟨h3, _⟩; omega
      · intro h
        refine ⟨?_, hhi⟩
        by_contra h2
        have hi : index = -1 := by omega
        apply h
        refine ⟨hi, ?_⟩
        by_contra h3
        exact h1 ⟨not_le.mp h3, by omega⟩
  · intro hi hdir
    have h1 : ¬ (dir > 0 ∧ index < N) := fun h => absurd h.1 (not_lt.mpr hdir)
    simp only [h1, if_false, add_zero]
    exact hi

theorem edge_read_before_array_witness :
    ∃ pos, edge_position (-3 / 5) (-1) 4 = some pos ∧
      ((0 ≤ pos ∧ pos ≤ 4) ↔ ¬ ((-1 : Int) = -1 ∧ (-3 / 5 : ℚ) ≤ 0)) ∧
      ((-1 : Int) = -1 → (-3 / 5 : ℚ) ≤ 0 → pos = -1) ∧
      (distance_to_boundary (integer_mesh_before 4 (Dbl.fin (-1))) state_outside).map
          (fun p => (p.1, p.2.next_ijk)) = some (Dbl.fin (3 / 8), ⟨-1, 1, 0⟩) ∧
      distance_to_boundary (integer_mesh_before 4 Dbl.pinf) state_outside = none :=
  edge_read_before_array (-3 / 5) (-1) 4 (by decide) (by decide) (by decide)

end cuda_profugus
